import Mathlib

/-!
# Verification of the cniguru interface-enumeration core

Shallow embedding of the cniguru repository (Rust) in Lean 4, together with
proofs and refutations of the frozen specification claims.

The central piece of the code is `parse_ip_link_printout` (src/src/main.rs),
which runs the regular expression

  `\d+:\s+(?P<name>\w+)@\w+:.*\s+mtu\s+(?P<mtu>\d+)\s+`
  `(?:.*\s+master\s+(?P<br>\w+)\s+)?.*\s+link/ether\s+(?P<mac>(\w|:)+)\s+`
  `.*link-netnsid <id>`

over the text printed by `ip link show` using `Regex::captures_iter`, and turns
every capture into an `Intf` record.  We embed the regex engine itself: a
Perl-style backtracking matcher (leftmost-first, greedy quantifiers, the
semantics the Rust `regex` crate guarantees for this pattern), restricted to
the constructions the source pattern uses (literals, character classes, `*`,
`+`, `(?:...)?`, capture groups, concatenation).  Character classes are the
ASCII parts of `\d`, `\w`, `\s`, `.` (the dumps in scope are ASCII; the inner
anonymous group of `(\w|:)` does not influence the named captures and is
modelled as the character class "word or colon").
-/

set_option autoImplicit false
set_option maxRecDepth 400000

namespace Cniguru

/-- Character classes occurring in the source regex (ASCII semantics). -/
inductive CC where
  | digit
  | word
  | space
  | dot
  | wordColon
  deriving DecidableEq

/-- Membership in a character class: `\d`, `\w`, `\s`, `.` (anything but
newline) and `(\w|:)`. -/
def CC.mem : CC → Char → Bool
  | .digit, c => c.isDigit
  | .word, c => c.isAlphanum || c = '_'
  | .space, c => c = ' ' || c = '\t' || c = '\n' || c = '\r' || c = '\x0b' || c = '\x0c'
  | .dot, c => c != '\n'
  | .wordColon, c => c.isAlphanum || c = '_' || c = ':'

/-- Captured groups: group index paired with the captured characters. -/
abbrev Caps := List (Nat × List Char)

/-- The regex fragment language needed for the source pattern. -/
inductive RE where
  /-- a literal string -/
  | lit : List Char → RE
  /-- a single character of a class -/
  | cls : CC → RE
  /-- greedy `*` over a character class -/
  | star : CC → RE
  /-- greedy `+` over a character class -/
  | plus : CC → RE
  /-- greedy `(?:...)?` -/
  | opt : RE → RE
  /-- a capture group with its index -/
  | grp : Nat → RE → RE
  /-- concatenation -/
  | seq : RE → RE → RE

/-- Remainders of `s` after consuming a prefix of class characters, in greedy
(backtracking) preference order: longest consumed prefix first. -/
def starSufs (p : CC) : List Char → List (List Char)
  | [] => [[]]
  | a :: s => if p.mem a then starSufs p s ++ [a :: s] else [a :: s]

/-- All ways a regex can match a prefix of the input, as pairs of (remaining
input, captures), listed in backtracking preference order.  The head of this
list is the match a Perl-style engine (and the Rust `regex` crate, which has
leftmost-first semantics) commits to. -/
def runCands : RE → List Char → Caps → List (List Char × Caps)
  | .lit t, s, c => if t.isPrefixOf s then [(s.drop t.length, c)] else []
  | .cls p, s, c =>
    match s with
    | [] => []
    | a :: s' => if p.mem a then [(s', c)] else []
  | .star p, s, c => (starSufs p s).map (fun s' => (s', c))
  | .plus p, s, c =>
    match s with
    | [] => []
    | a :: s' => if p.mem a then (starSufs p s').map (fun s'' => (s'', c)) else []
  | .opt r, s, c => runCands r s c ++ [(s, c)]
  | .grp i r, s, c =>
    (runCands r s c).map (fun q => (q.1, (i, s.take (s.length - q.1.length)) :: q.2))
  | .seq r1 r2, s, c => (runCands r1 s c).flatMap (fun q => runCands r2 q.1 q.2)

/-- First (preferred) match of a regex at the start of the input; computed
without materializing the full candidate list of a concatenation. -/
def runFirst : RE → List Char → Caps → Option (List Char × Caps)
  | .seq r1 r2, s, c => (runCands r1 s c).findSome? (fun q => runFirst r2 q.1 q.2)
  | r, s, c => (runCands r s c).head?

/-- `captures_iter` semantics: slide over the input left to right, at each
position commit to the preferred match if any, emit its captures, and resume
right after the matched text (`skip` counts positions still to be skipped
because they are covered by the previous match). -/
def scanFrom (r : RE) : List Char → Nat → List Caps
  | [], _ => []
  | _ :: s0, Nat.succ k => scanFrom r s0 k
  | a :: s0, 0 =>
    match runFirst r (a :: s0) [] with
    | none => scanFrom r s0 0
    | some q => q.2 :: scanFrom r s0 ((a :: s0).length - q.1.length - 1)

/-- All captures of non-overlapping matches, leftmost first. -/
def scan (r : RE) (s : List Char) : List Caps := scanFrom r s 0

/-- Decimal digit character. -/
def digitChar (n : Nat) : Char := Char.ofNat (48 + n)

/-- Decimal representation, via explicit fuel so that it is structurally
recursive (and hence evaluates inside the kernel). -/
def natCharsAux : Nat → Nat → List Char
  | 0, _ => []
  | fuel + 1, n => if n < 10 then [digitChar n] else natCharsAux fuel (n / 10) ++ [digitChar (n % 10)]

/-- The decimal representation of a natural number, as a list of characters. -/
def natChars (n : Nat) : List Char := natCharsAux (n + 1) n

/-- Right-nested concatenation of a list of regex fragments. -/
def reSeq (rs : List RE) : RE := rs.foldr RE.seq (RE.lit [])

/-- The source pattern of `parse_ip_link_printout` for a given link-netnsid
`id` (src/src/main.rs): the concatenation shown in the header comment, with
named groups name ↦ 1, mtu ↦ 2, br ↦ 3, mac ↦ 4.  Note that the source builds
the final literal with `format!("{} {}", s, id)`: the requested id is appended
in decimal with no trailing delimiter. -/
def ipLinkRe (id : Nat) : RE :=
  reSeq [
    .plus .digit, .lit [':'], .plus .space,
    .grp 1 (.plus .word), .lit ['@'], .plus .word, .lit [':'],
    .star .dot, .plus .space, .lit ['m', 't', 'u'], .plus .space,
    .grp 2 (.plus .digit), .plus .space,
    .opt (reSeq [.star .dot, .plus .space, .lit ['m', 'a', 's', 't', 'e', 'r'], .plus .space,
      .grp 3 (.plus .word), .plus .space]),
    .star .dot, .plus .space, .lit "link/ether".toList, .plus .space,
    .grp 4 (.plus .wordColon), .plus .space,
    .star .dot, .lit ("link-netnsid ".toList ++ natChars id)]

/-- The output record of the text parser (struct `Intf` in src/src/main.rs);
`mtu` is a `u16` in the source, kept as a bounded `Nat` here. -/
structure Intf where
  name : List Char
  mtu : Nat
  mac_address : List Char
  bridge : Option (List Char)
  deriving DecidableEq

/-- The error cases `parse_ip_link_printout` can produce:
`error::IntfMatchError(id)` (src/src/error.rs) and the `std` integer parse
error raised by `.parse::<u16>()?`. -/
inductive ParseError where
  | intfMatchError (id : Nat)
  | parseIntError
  deriving DecidableEq

/-- Look up a capture group in the captures of one match. -/
def capLookup (c : Caps) (i : Nat) : Option (List Char) :=
  (c.find? (fun p => p.1 == i)).map (fun p => p.2)

/-- `str::parse::<u16>` on a captured string: succeeds on a non-empty
all-digit string whose value fits in 16 bits. -/
def parseU16 (l : List Char) : Except ParseError Nat :=
  if l ≠ [] ∧ l.all Char.isDigit ∧ l.foldl (fun acc c => acc * 10 + (c.toNat - 48)) 0 < 65536 then
    Except.ok (l.foldl (fun acc c => acc * 10 + (c.toNat - 48)) 0)
  else Except.error ParseError.parseIntError

/-- Build one `Intf` from the captures of one regex match, mirroring the loop
body of `parse_ip_link_printout`: `name`, `mtu` and `mac` fall back to
`IntfMatchError(id)` when absent (`ok_or(err)?`), `mtu` additionally goes
through `parse::<u16>()?`, `bridge` is optional. -/
def buildIntf (id : Nat) (c : Caps) : Except ParseError Intf := do
  let name ← match capLookup c 1 with
    | some v => Except.ok v
    | none => Except.error (ParseError.intfMatchError id)
  let mtuStr ← match capLookup c 2 with
    | some v => Except.ok v
    | none => Except.error (ParseError.intfMatchError id)
  let mtu ← parseU16 mtuStr
  let mac ← match capLookup c 4 with
    | some v => Except.ok v
    | none => Except.error (ParseError.intfMatchError id)
  Except.ok { name := name, mtu := mtu, mac_address := mac, bridge := capLookup c 3 }

/-- `parse_ip_link_printout` (src/src/main.rs): run `captures_iter` with the
pattern for `id`, build an `Intf` per match (the `?` in the loop aborts the
whole call on the first failure), and reject an empty result with
`IntfMatchError(id)`. -/
def parse_ip_link_printout (printout : List Char) (id : Nat) : Except ParseError (List Intf) := do
  let res ← (scan (ipLinkRe id) printout).mapM (buildIntf id)
  if res.length = 0 then Except.error (ParseError.intfMatchError id) else Except.ok res

/-! ## A family of well-formed `ip link show` dumps

`Block` describes one interface entry of a well-formed multi-interface text
dump: a summary line `<idx>: <name>@if<peer>: <flags> mtu <mtu> qdisc noqueue
[master <m>] state UP mode DEFAULT group default` followed by the address line
`    link/ether <mac> brd ff:ff:ff:ff:ff:ff [link-netnsid <n>]`.  This is the
exact line-pair shape of the sample dumps in src/src/tests.rs. -/

/-- One interface entry of a well-formed dump. -/
structure Block where
  idx : Nat
  name : List Char
  peer : Nat
  mtu : Nat
  master : Option (List Char)
  mac : List Char
  netnsid : Option Nat

/-- The ` master <m>` part of the summary line, when the interface is enslaved. -/
def masterPart (b : Block) : List Char :=
  match b.master with
  | some m => " master ".toList ++ m
  | none => []

/-- The ` link-netnsid <n>` part of the address line, when present. -/
def nsidPart (b : Block) : List Char :=
  match b.netnsid with
  | some n => " link-netnsid ".toList ++ natChars n
  | none => []

/-- The summary line after the `<idx>: <name>@if<peer>:` part. -/
def line1tail (b : Block) : List Char :=
  " <BROADCAST,MULTICAST,UP,LOWER_UP> mtu ".toList ++ natChars b.mtu
    ++ " qdisc noqueue".toList ++ masterPart b
    ++ " state UP mode DEFAULT group default".toList

/-- The address line. -/
def line2 (b : Block) : List Char :=
  "    link/ether ".toList ++ b.mac ++ " brd ff:ff:ff:ff:ff:ff".toList ++ nsidPart b

/-- The two rendered lines of one interface entry, each `\n`-terminated. -/
def renderBlock (b : Block) : List Char :=
  natChars b.idx ++ ':' :: ' ' ::
    (b.name ++ '@' :: 'i' :: 'f' ::
      (natChars b.peer ++ ':' :: (line1tail b ++ '\n' :: (line2 b ++ ['\n']))))

/-- A well-formed multi-interface dump: the interface entries in order. -/
def renderDump (bs : List Block) : List Char := (bs.map renderBlock).flatten

/-- Well-formedness of one entry: the interface and bridge names are non-empty
`\w`-words (and the bridge name is not the keyword `master` itself), the MAC is
a non-empty string of `\w`/`:` characters, and the MTU fits in a `u16` (so that
the `u16` parse inside the loop cannot fail). -/
def WFBlock (b : Block) : Prop :=
  b.name ≠ [] ∧ (∀ c ∈ b.name, CC.word.mem c) ∧
  b.mac ≠ [] ∧ (∀ c ∈ b.mac, CC.wordColon.mem c) ∧
  (∀ m, b.master = some m → m ≠ [] ∧ (∀ c ∈ m, CC.word.mem c) ∧ m ≠ "master".toList) ∧
  b.mtu < 65536

/-- Well-formedness of a dump. -/
def WFDump (bs : List Block) : Prop := ∀ b ∈ bs, WFBlock b

/-- Whether the regex for `id` selects this entry: a `link-netnsid` is present
and the decimal digits of the requested id are a prefix of its decimal digits
(the pattern ends in `link-netnsid <id>` with no delimiter after the digits,
so equality is not required). -/
def blockSelected (id : Nat) (b : Block) : Bool :=
  match b.netnsid with
  | some n => (natChars id).isPrefixOf (natChars n)
  | none => false

/-- The record the parser builds from a selected entry. -/
def intfOf (b : Block) : Intf :=
  { name := b.name, mtu := b.mtu, mac_address := b.mac, bridge := b.master }

/-- The captures of the regex match on a selected entry (groups are recorded
innermost-last, most recent first). -/
def capsOf (b : Block) : Caps :=
  (4, b.mac) :: (match b.master with | some m => [(3, m)] | none => [])
    ++ [(2, natChars b.mtu), (1, b.name)]

/-! ## The namespace binding (`Netns`, src/src/main.rs)

`Netns.interfaces` starts by creating `/var/run/netns` (recording
`rmdir_needed`) when the directory is missing and the symlink
`/var/run/netns/ns-<pid> → /proc/<pid>/ns/net` (recording `rmlink_needed`)
when it is missing; `Drop for Netns` removes the symlink when
`rmlink_needed` and the directory when `rmdir_needed`, and both removals
match `Ok`/`Err` only to log (a failed removal is never raised).  The
filesystem is modelled by the existence of those two entries. -/

/-- Existence of the two filesystem entries the binding manipulates. -/
structure FsState where
  netnsDirExists : Bool
  linkExists : Bool
  deriving DecidableEq

/-- Struct `Netns` (src/src/main.rs): the pid and the two cleanup flags; the
two paths are determined by the pid. -/
structure Netns where
  pid : Nat
  rmdir_needed : Bool
  rmlink_needed : Bool
  deriving DecidableEq

/-- `Netns::new`: both cleanup flags start out false. -/
def Netns.new (pid : Nat) : Netns :=
  { pid := pid, rmdir_needed := false, rmlink_needed := false }

/-- The filesystem prefix of `Netns::interfaces`: create the parent directory
and the symlink if (and only if) they do not exist, recording each creation. -/
def interfacesBind (ns : Netns) (fs : FsState) : Netns × FsState :=
  let step1 :=
    if !fs.netnsDirExists then
      ({ ns with rmdir_needed := true }, { fs with netnsDirExists := true })
    else (ns, fs)
  if !step1.2.linkExists then
    ({ step1.1 with rmlink_needed := true }, { step1.2 with linkExists := true })
  else step1

/-- `Drop for Netns`: remove the symlink if `rmlink_needed`, then the parent
directory if `rmdir_needed`; removal of an already-absent entry leaves the
state unchanged (the `Err` arm only logs). -/
def Netns.drop (ns : Netns) (fs : FsState) : FsState :=
  let fs1 := if ns.rmlink_needed then { fs with linkExists := false } else fs
  if ns.rmdir_needed then { fs1 with netnsDirExists := false } else fs1

/-! ## `run_host_cmd` (src/src/main.rs) -/

/-- What `Command::output()` returns, as far as the code consumes it. -/
structure CmdOutput where
  success : Bool
  code : Option Int
  stdout : List Char
  stderr : List Char

/-- `error::HostCmdError` (src/src/error.rs). -/
inductive HostCmdError where
  | cmdFailed (cmd code stderr : List Char)
  | cmdInvalid (cmd : List Char)
  deriving DecidableEq

/-- Rust `str::split(' ')`: split at every single space, keeping empty
pieces; the result always has at least one element. -/
def splitOnSpace : List Char → List (List Char)
  | [] => [[]]
  | c :: s =>
    if c = ' ' then [] :: splitOnSpace s
    else
      match splitOnSpace s with
      | [] => [[c]]
      | t :: ts => (c :: t) :: ts

/-- Rust `str::trim` (ASCII whitespace). -/
def rustTrim (l : List Char) : List Char :=
  ((l.dropWhile (CC.space.mem)).reverse.dropWhile (CC.space.mem)).reverse

/-- Decimal representation of an `i32` exit code. -/
def intChars (i : Int) : List Char :=
  if i < 0 then '-' :: natChars i.natAbs else natChars i.toNat

/-- `.code().map(|c| c.to_string()).unwrap_or("N/A")`. -/
def codeChars (c : Option Int) : List Char :=
  match c with
  | some i => intChars i
  | none => "N/A".toList

/-- `run_host_cmd` (src/src/main.rs): split the command on spaces, take the
first element as the program and the rest as arguments (`split_first` on an
empty vector would give the `CmdInvalid` error), run it, and return trimmed
stdout on success or `CmdFailed` otherwise.  The process launch is the
parameter `exec`. -/
def run_host_cmd (exec : List Char → List (List Char) → CmdOutput) (cmd : List Char) :
    Except HostCmdError (List Char) :=
  match splitOnSpace cmd with
  | [] => Except.error (HostCmdError.cmdInvalid cmd)
  | prog :: args =>
    let output := exec prog args
    if output.success then Except.ok (rustTrim output.stdout)
    else Except.error (HostCmdError.cmdFailed cmd (codeChars output.code) (rustTrim output.stderr))

/-! ## `try_main`, pod branch (src/src/main.rs and src/src/client.rs)

Both versions run `for container in containers { let output =
gen_output_for_container(container)?; output_vec.push(output); }`: the `?`
propagates the first per-container failure out of `try_main` immediately. -/

/-- The pod-branch loop of `try_main`, abstracted over the container type and
the per-container output generator. -/
def try_main_pod {C E O : Type} (gen : C → Except E O) : List C → Except E (List O)
  | [] => Except.ok []
  | c :: cs => do
    let o ← gen c
    let rest ← try_main_pod gen cs
    Except.ok (o :: rest)

/-! ## `pretty_print_output_and_exit` (src/src/main.rs and src/src/client.rs)

Both build the table rows with `&i.container.id[0..12]`; a Rust byte-range
slice panics when the upper bound exceeds the string length.  Container ids
are modelled at byte granularity (one `Char` per byte), a panic as `none`.
In main.rs the slice sits inside the per-interface loop; in client.rs it is
computed per container before its per-interface loop. -/

/-- Rust `&s[a..b]`: defined only when `a ≤ b ≤ s.len()`. -/
def byteSlice (l : List Char) (a b : Nat) : Option (List Char) :=
  if a ≤ b ∧ b ≤ l.length then some ((l.take b).drop a) else none

/-- The `Output` struct of src/src/main.rs (container id, node name and the
parsed interfaces). -/
structure MainOutput where
  container_id : List Char
  node_name : Option (List Char)
  interfaces : List Intf

/-- One table row of the main.rs pretty printer; the id slice happens here,
once per interface. -/
def mainRow (i : MainOutput) (intf : Intf) : Option (List Char) := do
  let short ← byteSlice i.container_id 0 12
  pure (short ++ '\t' :: (match i.node_name with | some s => s | none => ['-'])
    ++ '\t' :: intf.name ++ '\t' :: natChars intf.mtu ++ '\t' :: intf.mac_address
    ++ '\t' :: (match intf.bridge with | some s => s | none => ['-']))

/-- `pretty_print_output_and_exit` of src/src/main.rs, up to the final tab
alignment: the produced rows, or `none` for a panic. -/
def pretty_print_output_main (output : List MainOutput) : Option (List (List Char)) := do
  let header :=
    if output.length > 0 then ["CONTAINER_ID\tNODE\tINTERFACE\tMTU\tMAC_ADDRESS\tBRIDGE".toList]
    else []
  let rows ← output.mapM (fun i => i.interfaces.mapM (fun intf => mainRow i intf))
  pure (header ++ rows.flatten)

/-- One veth endpoint as consumed by the client.rs printer. -/
structure VethIntf where
  name : List Char
  mac_address : List Char
  ip_address : Option (List Char)
  bridge : Option (List Char)

/-- A correlated (container, node) pair as consumed by the client.rs printer. -/
structure VethIntfPair where
  container : VethIntf
  node : VethIntf

/-- The `Output` struct of src/src/client.rs. -/
structure ClientOutput where
  container_id : List Char
  pid : Nat
  node_name : Option (List Char)
  interfaces : List VethIntfPair

/-- One table row of the client.rs pretty printer, given the already-sliced
short id. -/
def clientRow (i : ClientOutput) (short : List Char) (intf : VethIntfPair) : List Char :=
  short ++ '\t' :: natChars i.pid
    ++ '\t' :: (match i.node_name with | some s => s | none => ['-'])
    ++ '\t' :: intf.container.name ++ '\t' :: intf.container.mac_address
    ++ '\t' :: (match intf.container.ip_address with | some s => s | none => ['-'])
    ++ '\t' :: intf.node.name
    ++ '\t' :: (match intf.node.bridge with | some s => s | none => ['-'])

/-- `pretty_print_output_and_exit` of src/src/client.rs: the id slice happens
once per container, before its interface loop. -/
def pretty_print_output_client (output : List ClientOutput) : Option (List (List Char)) := do
  let header :=
    if output.length > 0 then
      ["CONTAINER_ID\tPID\tNODE\tINTF(C)\tMAC_ADDRESS(C)\tIP_ADDRESS(C)\tINTF(N)\tBRIDGE(N)".toList]
    else []
  let rows ← output.mapM (fun i => do
    let short ← byteSlice i.container_id 0 12
    pure (i.interfaces.map (fun intf => clientRow i short intf)))
  pure (header ++ rows.flatten)

/-! ## The correlation engine (spec §4.4)

The daemon binary that implements the correlation contract is not part of
src/ (only its error declarations, `IntfMissingErr` in
src/cniguru-daemon/src/error.rs, and its gRPC caller are), so the engine is
modelled from the spec. -/

/-- The kind of a link record, as far as correlation cares. -/
inductive LinkKind where
  | veth
  | other
  deriving DecidableEq

/-- A link-layer interface record as consumed by the correlation engine. -/
structure LinkRecord where
  ifindex : Nat
  kind : LinkKind
  peer_ifindex : Nat
  name : List Char
  deriving DecidableEq

/-- The correlation error cases: `PeerInterfaceNotFound` carries the peer
index it searched for (`IntfMissingErr` in src/cniguru-daemon/src/error.rs),
`AmbiguousPeerMatch` reports a non-unique match. -/
inductive CorrelationError where
  | peerInterfaceNotFound (peer_ifindex : Nat)
  | ambiguousPeerMatch
  deriving DecidableEq

/-- Modelled from the spec: `correlate(container_links, host_links)` of §4.4
(the daemon code implementing it is not under src/).  For each container-side
veth record, search the host-side set for records whose kernel index equals
the container-side peer index; on exactly one match consume it ("take and
remove") and emit the pair, on zero matches fail with
`PeerInterfaceNotFound(peer_index)`, on two or more fail with
`AmbiguousPeerMatch`; non-veth records pass through unmatched. -/
def correlate :
    List LinkRecord → List LinkRecord →
      Except CorrelationError (List (LinkRecord × LinkRecord) × List LinkRecord)
  | [], _ => Except.ok ([], [])
  | c :: cs, hosts =>
    if c.kind = LinkKind.veth then
      match hosts.filter (fun h => h.ifindex == c.peer_ifindex) with
      | [] => Except.error (CorrelationError.peerInterfaceNotFound c.peer_ifindex)
      | [h] => do
        let (pairs, un) ← correlate cs (hosts.erase h)
        Except.ok ((c, h) :: pairs, un)
      | _ :: _ :: _ => Except.error CorrelationError.ambiguousPeerMatch
    else do
      let (pairs, un) ← correlate cs hosts
      Except.ok (pairs, c :: un)

/-! ## The line-pair text parser (spec §4.4, legacy variant)

The daemon's text parser that extracts index, name, peer index, MTU, bridge,
MAC and optional IPv4 per line pair is not under src/ (only its error
declarations `IpLinkOrAddrShowParseErr` and the `VethIntf` consumers are), so
it is modelled from the spec. -/

/-- The full record of the line-pair text parser. -/
structure TextIntf where
  ifindex : Nat
  name : List Char
  peer_ifindex : Nat
  mtu : Nat
  bridge : Option (List Char)
  mac_address : List Char
  ip_address : Option (List Char)
  deriving DecidableEq

/-- Split at every ASCII whitespace character, keeping empty pieces. -/
def splitWS : List Char → List (List Char)
  | [] => [[]]
  | c :: s =>
    if CC.space.mem c then [] :: splitWS s
    else
      match splitWS s with
      | [] => [[c]]
      | t :: ts => (c :: t) :: ts

/-- Whitespace-separated tokens of a line. -/
def tokenize (l : List Char) : List (List Char) :=
  (splitWS l).filter (fun t => !t.isEmpty)

/-- Parse a non-empty all-digit token. -/
def parseNat? (l : List Char) : Option Nat :=
  if !l.isEmpty && l.all Char.isDigit then
    some (l.foldl (fun acc c => acc * 10 + (c.toNat - 48)) 0)
  else none

/-- Parse the `<idx>:` token of a summary line. -/
def parseIdxTok (t : List Char) : Option Nat :=
  if t.getLast? = some ':' then parseNat? t.dropLast else none

/-- Parse the `<name>@if<peer>:` token of a summary line. -/
def parseNameTok (t : List Char) : Option (List Char × Nat) :=
  match t.dropWhile (fun c => c ≠ '@') with
  | '@' :: 'i' :: 'f' :: r =>
    if t.takeWhile (fun c => c ≠ '@') ≠ [] ∧ r.getLast? = some ':' then
      (parseNat? r.dropLast).map (fun p => (t.takeWhile (fun c => c ≠ '@'), p))
    else none
  | _ => none

/-- The token following the first occurrence of `key`, if any. -/
def valueAfter (key : List Char) : List (List Char) → Option (List Char)
  | [] => none
  | t :: rest => if t = key then rest.head? else valueAfter key rest

/-- Modelled from the spec: parse one summary line into (kernel index, name,
peer kernel index from the `@if<N>` suffix, MTU, optional bridge master). -/
def parseSummaryLine (l : List Char) : Option (Nat × List Char × Nat × Nat × Option (List Char)) :=
  match tokenize l with
  | idxTok :: nameTok :: rest => do
    let idx ← parseIdxTok idxTok
    let np ← parseNameTok nameTok
    let mtuTok ← valueAfter "mtu".toList rest
    let mtu ← parseNat? mtuTok
    pure (idx, np.1, np.2, mtu, valueAfter "master".toList rest)
  | _ => none

/-- Modelled from the spec: parse one address line into (MAC address,
optional IPv4 address); an absent MAC capture is a failure. -/
def parseAddrLine (l : List Char) : Option (List Char × Option (List Char)) := do
  let mac ← valueAfter "link/ether".toList (tokenize l)
  pure (mac, valueAfter "inet".toList (tokenize l))

/-- Modelled from the spec: the line-pair text parser.  A record is emitted
only once every required field of its (summary, address) line pair is
captured; a missing required capture fails the parse instead of emitting a
partial record. -/
def parse_veth_text (pairs : List (List Char × List Char)) : Option (List TextIntf) :=
  pairs.mapM (fun pr => do
    let s ← parseSummaryLine pr.1
    let a ← parseAddrLine pr.2
    pure (TextIntf.mk s.1 s.2.1 s.2.2.1 s.2.2.2.1 s.2.2.2.2 a.1 a.2))

/-! ## Concrete sample dumps (src/src/tests.rs) -/

/-- The multi-interface sample dump of `test_parse_ip_link_printout_basic`. -/
def basicDump : String :=
  "1: lo: <LOOPBACK,UP,LOWER_UP> mtu 65536 qdisc noqueue state UNKNOWN mode DEFAULT group default qlen 1000\n    link/loopback 00:00:00:00:00:00 brd 00:00:00:00:00:00\n2: vethc3cef48b@if3: <BROADCAST,MULTICAST,UP,LOWER_UP> mtu 1450 qdisc noqueue master cni0 state UP mode DEFAULT group default\n    link/ether e6:93:28:78:39:99 brd ff:ff:ff:ff:ff:ff link-netnsid 0\n3: enp0s31f6: <NO-CARRIER,BROADCAST,MULTICAST,UP> mtu 1500 qdisc fq_codel state DOWN mode DEFAULT group default qlen 1000\n    link/ether c8:5b:76:72:53:46 brd ff:ff:ff:ff:ff:ff\n4: wlp3s0: <BROADCAST,MULTICAST,UP,LOWER_UP> mtu 1500 qdisc mq state UP mode DORMANT group default qlen 1000\n    link/ether e4:a7:a0:61:3d:3e brd ff:ff:ff:ff:ff:ff\n9: docker0: <NO-CARRIER,BROADCAST,MULTICAST,UP> mtu 1500 qdisc noqueue state DOWN mode DEFAULT group default\n    link/ether 02:42:1b:7f:0d:5e brd ff:ff:ff:ff:ff:ff\n11: wwp0s20f0u5c2: <BROADCAST,MULTICAST> mtu 1500 qdisc noop state DOWN mode DEFAULT group default qlen 1000\n    link/ether 02:1e:10:1f:00:00 brd ff:ff:ff:ff:ff:ff\n12: flannel.1: <BROADCAST,MULTICAST,UP,LOWER_UP> mtu 1450 qdisc noqueue state UNKNOWN mode DEFAULT group default\n    link/ether da:1f:7a:e1:59:58 brd ff:ff:ff:ff:ff:ff\n13: cni0: <BROADCAST,MULTICAST,UP,LOWER_UP> mtu 1450 qdisc noqueue state UP mode DEFAULT group default qlen 1000\n    link/ether 5a:02:70:6b:57:1e brd ff:ff:ff:ff:ff:ff\n14: veth551a254e@if3: <BROADCAST,MULTICAST,UP,LOWER_UP> mtu 1450 qdisc noqueue master cni0 state UP mode DEFAULT group default\n    link/ether 12:56:7d:9f:80:15 brd ff:ff:ff:ff:ff:ff link-netnsid 1"

/-- The sample dump of `test_parse_ip_link_printout_multus`, with the
hyphenated bridge name `bla-bla-int0`. -/
def multusDump : String :=
  "610: veth987c7292@if5: <BROADCAST,MULTICAST,UP,LOWER_UP> mtu 1500 qdisc noqueue master bla-bla-int0 state UP mode DEFAULT group default\n    link/ether 46:ed:60:c6:e9:73 brd ff:ff:ff:ff:ff:ff link-netnsid 6"

/-- A well-formed single-entry dump whose interface has link-netnsid 12. -/
def cexBlock : Block :=
  { idx := 7, name := "veth0".toList, peer := 2, mtu := 1500, master := none,
    mac := "aa:bb:cc:dd:ee:ff".toList, netnsid := some 12 }

/-- Running a regex fragment with an abstract continuation `F` on the
(remaining input, captures) pairs, in backtracking preference order.  With
`F := runFirst k` this is exactly `runFirst (seq r k)`. -/
def runWith (r : RE) (F : List Char → Caps → Option (List Char × Caps))
    (s : List Char) (c : Caps) : Option (List Char × Caps) :=
  (runCands r s c).findSome? (fun q => F q.1 q.2)

/-- What remains of the input after the match on one entry: the unconsumed
link-netnsid digits and the rest of the dump, or `none` when the entry is not
selected. -/
def blockRem (b : Block) (id : Nat) (v : List Char) : Option (List Char) :=
  match b.netnsid with
  | some n =>
    if (natChars id).isPrefixOf (natChars n) then
      some ((natChars n).drop (natChars id).length ++ '\n' :: v)
    else none
  | none => none

/-- A concrete line pair for the line-pair text parser. -/
def c4pairs : List (List Char × List Char) :=
  [("610: veth987c7292@if5: <BROADCAST,MULTICAST,UP,LOWER_UP> mtu 1500 qdisc noqueue master bla-bla-int0 state UP mode DEFAULT group default".toList,
    "    link/ether 46:ed:60:c6:e9:73 brd ff:ff:ff:ff:ff:ff link-netnsid 6".toList)]

/-- The records the line-pair text parser extracts from `c4pairs`. -/
def c4recs : List TextIntf :=
  [TextIntf.mk 610 "veth987c7292".toList 5 1500 (some "bla-bla-int0".toList)
    "46:ed:60:c6:e9:73".toList none]

/-- The tail of the pattern from the final `.*link-netnsid <id>` part on. -/
def reFromNsid (id : Nat) : RE :=
  reSeq [.star .dot, .lit ("link-netnsid ".toList ++ natChars id)]

/-- The tail of the pattern after the `.*` of the `link/ether` part. -/
def reFromLEtail (id : Nat) : RE :=
  RE.seq (.plus .space) (RE.seq (.lit "link/ether".toList) (RE.seq (.plus .space)
    (RE.seq (.grp 4 (.plus .wordColon)) (RE.seq (.plus .space) (reFromNsid id)))))

/-- The tail of the pattern from `.*\s+link/ether` on. -/
def reFromLE (id : Nat) : RE := RE.seq (.star .dot) (reFromLEtail id)

/-- The optional `(?:.*\s+master\s+(?P<br>\w+)\s+)?` group. -/
def reMaster : RE :=
  reSeq [.star .dot, .plus .space, .lit ['m', 'a', 's', 't', 'e', 'r'], .plus .space,
    .grp 3 (.plus .word), .plus .space]

/-- The tail of the pattern from the optional master group on. -/
def reFromOpt (id : Nat) : RE := RE.seq (.opt reMaster) (reFromLE id)

/-- The tail of the pattern from `.*\s+mtu` on. -/
def reFromMtu (id : Nat) : RE :=
  RE.seq (.star .dot) (RE.seq (.plus .space) (RE.seq (.lit ['m', 't', 'u'])
    (RE.seq (.plus .space) (RE.seq (.grp 2 (.plus .digit)) (RE.seq (.plus .space)
      (reFromOpt id))))))

/-- A definite character mismatch between a literal and the visible part of
the input (so the literal cannot be a prefix, however the input continues). -/
def litMismatch : List Char → List Char → Bool
  | [], _ => false
  | _ :: _, [] => false
  | a :: t, b :: z => if a = b then litMismatch t z else true

/-- Decidable check that the continuation `\s+<lit>` fails at one position:
either the head is not whitespace, or the whitespace run ends inside the
visible part at a definite mismatch with the literal. -/
def wsLitFailAt (t : List Char) : List Char → Bool
  | [] => false
  | a :: rest =>
    if CC.space.mem a then
      match rest.dropWhile (fun c => CC.space.mem c) with
      | [] => false
      | z => litMismatch t z
    else true

/-- Decidable check of `wsLitFailAt` at every nonempty suffix. -/
def allPosFail (t : List Char) : List Char → Bool
  | [] => true
  | a :: rest => wsLitFailAt t (a :: rest) && allPosFail t rest

/-- The capture list after the match, on top of the captures `c` present when
the `.*\s+mtu` part starts. -/
def capsFrom (b : Block) (c : Caps) : Caps :=
  (4, b.mac) :: (match b.master with | some m => [(3, m)] | none => []) ++ (2, natChars b.mtu) :: c

/-- The optional master group followed by a continuation, right-flattened. -/
def reMasterF (K : RE) : RE :=
  RE.seq (.star .dot) (RE.seq (.plus .space) (RE.seq (.lit ['m', 'a', 's', 't', 'e', 'r'])
    (RE.seq (.plus .space) (RE.seq (.grp 3 (.plus .word)) (RE.seq (.plus .space)
      (RE.seq (.lit []) K))))))

/-- A well-formed single-entry dump selected by id 1. -/
def c1wBlock : Block :=
  Block.mk 2 "veth0".toList 3 1450 (some "cni0".toList) "aa:bb:cc:dd:ee:ff".toList (some 1)

/-! # Theorems -/

/-! # C1 development -/

/-! ## Generic list and star-scan lemmas -/

theorem findSome?_append {α β : Type} (f : α → Option β) (l1 l2 : List α) :
    (l1 ++ l2).findSome? f =
      match l1.findSome? f with
      | some b => some b
      | none => l2.findSome? f := by
  induction l1 with
  | nil => simp [List.findSome?]
  | cons a l ih =>
    rw [List.cons_append, List.findSome?_cons, List.findSome?_cons]
    cases f a <;> simp [ih]

theorem findSome?_map {α γ β : Type} (g : α → γ) (f : γ → Option β) (l : List α) :
    (l.map g).findSome? f = l.findSome? (fun x => f (g x)) := by
  induction l with
  | nil => simp [List.findSome?]
  | cons a l ih =>
    rw [List.map_cons, List.findSome?_cons, List.findSome?_cons]
    cases f (g a) <;> simp [ih]

theorem findSome?_flatMap {α γ β : Type} (g : α → List γ) (f : γ → Option β) (l : List α) :
    (l.flatMap g).findSome? f = l.findSome? (fun x => (g x).findSome? f) := by
  induction l with
  | nil => simp [List.findSome?]
  | cons a l ih =>
    rw [List.flatMap_cons, findSome?_append, List.findSome?_cons]
    cases (g a).findSome? f <;> simp [ih]

theorem starSufs_cons_mem {p : CC} {a : Char} (s : List Char) (h : p.mem a = true) :
    starSufs p (a :: s) = starSufs p s ++ [a :: s] := by
  simp [starSufs, h]

theorem starSufs_cons_not {p : CC} {a : Char} (s : List Char) (h : p.mem a = false) :
    starSufs p (a :: s) = [a :: s] := by
  simp [starSufs, h]

/-- The scan recurrence: with a class character in front, the greedy scan
prefers the deeper positions and falls back to the current one. -/
theorem starScan_cons_mem {β : Type} {p : CC} {a : Char} (s : List Char)
    (g : List Char → Option β) (h : p.mem a = true) :
    (starSufs p (a :: s)).findSome? g =
      match (starSufs p s).findSome? g with
      | some b => some b
      | none => g (a :: s) := by
  rw [starSufs_cons_mem s h, findSome?_append]
  cases (starSufs p s).findSome? g with
  | some b => simp
  | none =>
    cases h2 : g (a :: s) <;> simp [List.findSome?, h2]

theorem starScan_cons_not {β : Type} {p : CC} {a : Char} (s : List Char)
    (g : List Char → Option β) (h : p.mem a = false) :
    (starSufs p (a :: s)).findSome? g = g (a :: s) := by
  rw [starSufs_cons_not s h]
  cases hg : g (a :: s) <;> simp [List.findSome?, hg]

theorem starScan_nil {β : Type} {p : CC} (g : List Char → Option β) :
    (starSufs p []).findSome? g = g [] := by
  cases hg : g [] <;> simp [starSufs, List.findSome?, hg]

/-- Passing left over a run of class characters: once the scan of the right
part succeeds, the candidates further left cannot override it. -/
theorem starScan_over {β : Type} {p : CC} {u w : List Char}
    (g : List Char → Option β) {b : β}
    (hu : ∀ c ∈ u, p.mem c = true)
    (hw : (starSufs p w).findSome? g = some b) :
    (starSufs p (u ++ w)).findSome? g = some b := by
  induction u with
  | nil => simpa using hw
  | cons a u ih =>
    rw [List.cons_append, starScan_cons_mem _ g (hu a (List.mem_cons_self a u))]
    rw [ih (fun c hc => hu c (List.mem_cons_of_mem a hc))]

/-- Passing left over a run of class characters in the failing direction: if
the scan of the right part fails and the continuation fails at every
position inside the run, the whole scan fails. -/
theorem starScan_skip {β : Type} {p : CC} {u w : List Char}
    (g : List Char → Option β)
    (hu : ∀ c ∈ u, p.mem c = true)
    (hw : (starSufs p w).findSome? g = none)
    (hfail : ∀ u', u' ≠ [] → u'.IsSuffix u → g (u' ++ w) = none) :
    (starSufs p (u ++ w)).findSome? g = none := by
  induction u with
  | nil => simpa using hw
  | cons a u ih =>
    rw [List.cons_append, starScan_cons_mem _ g (hu a (List.mem_cons_self a u))]
    rw [ih (fun c hc => hu c (List.mem_cons_of_mem a hc))
      (fun u' h1 h2 => hfail u' h1 (h2.trans (List.suffix_cons a u)))]
    exact hfail (a :: u) (by simp) List.suffix_rfl

/-- Discharge the per-position obligations of `starScan_skip` by the head
character alone. -/
theorem sufFail_of_head {β : Type} {u : List Char} (w : List Char) (g : List Char → Option β)
    (h : ∀ (a : Char) (r : List Char), a ∈ u → g (a :: r) = none) :
    ∀ u', u' ≠ [] → u'.IsSuffix u → g (u' ++ w) = none := by
  intro u' h1 h2
  cases u' with
  | nil => exact absurd rfl h1
  | cons a r => exact h a (r ++ w) (h2.subset (List.mem_cons_self a r))

/-- Nonempty suffixes of a concatenation decompose. -/
theorem suffix_split {α : Type} {u2 : List α} :
    ∀ {u1 u' : List α}, u'.IsSuffix (u1 ++ u2) →
      u'.IsSuffix u2 ∨ ∃ a, a ≠ [] ∧ a.IsSuffix u1 ∧ u' = a ++ u2 := by
  intro u1
  induction u1 with
  | nil => exact fun h => Or.inl h
  | cons b u1 ih =>
    intro u' h
    rcases List.suffix_cons_iff.mp h with h1 | h1
    · exact Or.inr ⟨b :: u1, by simp, List.suffix_rfl, h1⟩
    · rcases ih h1 with h2 | ⟨a, ha1, ha2, ha3⟩
      · exact Or.inl h2
      · exact Or.inr ⟨a, ha1, ha2.trans (List.suffix_cons b u1), ha3⟩

/-- Suffix-failure obligations split along a concatenation. -/
theorem sufFail_append {β : Type} {u1 u2 : List Char} {w : List Char} (g : List Char → Option β)
    (h1 : ∀ u', u' ≠ [] → u'.IsSuffix u1 → g (u' ++ (u2 ++ w)) = none)
    (h2 : ∀ u', u' ≠ [] → u'.IsSuffix u2 → g (u' ++ w) = none) :
    ∀ u', u' ≠ [] → u'.IsSuffix (u1 ++ u2) → g (u' ++ w) = none := by
  intro u' hne hsuf
  rcases suffix_split hsuf with h | ⟨a, ha1, ha2, ha3⟩
  · exact h2 u' hne h
  · rw [ha3, List.append_assoc]
    exact h1 a ha1 ha2

/-! ## Reduction lemmas for `runWith` and `runFirst` -/

theorem isPrefixOf_nil_left (s : List Char) : ([] : List Char).isPrefixOf s = true := by
  simp [List.isPrefixOf]

theorem isPrefixOf_cons₂ (a : Char) (t s : List Char) :
    (a :: t).isPrefixOf (a :: s) = t.isPrefixOf s := by
  simp [List.isPrefixOf]

theorem isPrefixOf_head_ne {a b : Char} (t s : List Char) (h : a ≠ b) :
    (a :: t).isPrefixOf (b :: s) = false := by
  simp [List.isPrefixOf, h]

theorem isPrefixOf_append_self (t w : List Char) : t.isPrefixOf (t ++ w) = true := by
  induction t with
  | nil => exact isPrefixOf_nil_left w
  | cons a t ih => rw [List.cons_append, isPrefixOf_cons₂]; exact ih

theorem runFirst_seq (r1 r2 : RE) (s : List Char) (c : Caps) :
    runFirst (RE.seq r1 r2) s c = runWith r1 (fun s' c' => runFirst r2 s' c') s c := rfl

theorem reSeq_cons (a : RE) (rest : List RE) : reSeq (a :: rest) = RE.seq a (reSeq rest) := rfl

theorem runWith_seq (r1 r2 : RE) (F : List Char → Caps → Option (List Char × Caps))
    (s : List Char) (c : Caps) :
    runWith (RE.seq r1 r2) F s c = runWith r1 (fun s' c' => runWith r2 F s' c') s c := by
  unfold runWith
  rw [runCands, findSome?_flatMap]

theorem runWith_lit_self (t w : List Char) (F : List Char → Caps → Option (List Char × Caps))
    (c : Caps) : runWith (RE.lit t) F (t ++ w) c = F w c := by
  unfold runWith
  rw [runCands, if_pos (isPrefixOf_append_self t w), List.drop_left]
  cases h : F w c <;> simp [List.findSome?, h]

theorem runWith_lit_nil (s : List Char) (F : List Char → Caps → Option (List Char × Caps))
    (c : Caps) : runWith (RE.lit []) F s c = F s c := by
  have := runWith_lit_self [] s F c
  simpa using this

theorem runWith_lit_none {t s : List Char} (F : List Char → Caps → Option (List Char × Caps))
    (c : Caps) (h : t.isPrefixOf s = false) : runWith (RE.lit t) F s c = none := by
  unfold runWith
  rw [runCands, if_neg (by simp [h])]
  rfl

theorem runWith_plus_mem {p : CC} {a : Char} (s : List Char)
    (F : List Char → Caps → Option (List Char × Caps)) (c : Caps) (h : p.mem a = true) :
    runWith (RE.plus p) F (a :: s) c = (starSufs p s).findSome? (fun s' => F s' c) := by
  unfold runWith
  rw [runCands]
  simp only [h, if_true]
  rw [findSome?_map]

theorem runWith_plus_not {p : CC} {a : Char} (s : List Char)
    (F : List Char → Caps → Option (List Char × Caps)) (c : Caps) (h : p.mem a = false) :
    runWith (RE.plus p) F (a :: s) c = none := by
  unfold runWith
  rw [runCands]
  simp only [h, if_false]
  rfl

theorem runWith_plus_nil {p : CC} (F : List Char → Caps → Option (List Char × Caps)) (c : Caps) :
    runWith (RE.plus p) F [] c = none := rfl

theorem runWith_star {p : CC} (s : List Char)
    (F : List Char → Caps → Option (List Char × Caps)) (c : Caps) :
    runWith (RE.star p) F s c = (starSufs p s).findSome? (fun s' => F s' c) := by
  unfold runWith
  rw [runCands, findSome?_map]

theorem runWith_grp (i : Nat) (r : RE) (s : List Char)
    (F : List Char → Caps → Option (List Char × Caps)) (c : Caps) :
    runWith (RE.grp i r) F s c =
      runWith r (fun s' c' => F s' ((i, s.take (s.length - s'.length)) :: c')) s c := by
  unfold runWith
  rw [runCands, findSome?_map]

theorem runWith_opt (r : RE) (s : List Char)
    (F : List Char → Caps → Option (List Char × Caps)) (c : Caps) :
    runWith (RE.opt r) F s c =
      match runWith r F s c with
      | some b => some b
      | none => F s c := by
  unfold runWith
  rw [runCands, findSome?_append]
  cases (runCands r s c).findSome? (fun q => F q.1 q.2) with
  | none =>
    cases h : F s c <;> simp [List.findSome?, h]
  | some b => simp



/-! ## Generic list and star-scan lemmas -/


/-! ## Character-class and decimal-representation facts -/

theorem mem_ne {p : CC} {c x : Char} (h : p.mem c = true) (hx : p.mem x = false) : c ≠ x := by
  intro he
  rw [he, hx] at h
  exact Bool.noConfusion h

theorem digit_word {c : Char} (h : CC.digit.mem c = true) : CC.word.mem c = true := by
  simp only [CC.mem] at h ⊢
  simp [Char.isAlphanum, h]

theorem wordColon_cases {c : Char} (h : CC.wordColon.mem c = true) :
    CC.word.mem c = true ∨ c = ':' := by
  simp only [CC.mem] at h ⊢
  rcases Bool.or_eq_true_iff.mp h with h1 | h1
  · rcases Bool.or_eq_true_iff.mp h1 with h2 | h2
    · exact Or.inl (by simp [h2])
    · exact Or.inl (by simp [h2])
  · simp at h1
    exact Or.inr h1

theorem word_wordColon {c : Char} (h : CC.word.mem c = true) : CC.wordColon.mem c = true := by
  simp only [CC.mem] at h ⊢
  rcases Bool.or_eq_true_iff.mp h with h1 | h1 <;> simp [h1]

theorem word_not_space {c : Char} (h : CC.word.mem c = true) : CC.space.mem c = false := by
  have h1 := mem_ne h (show CC.word.mem ' ' = false by decide)
  have h2 := mem_ne h (show CC.word.mem '\t' = false by decide)
  have h3 := mem_ne h (show CC.word.mem '\n' = false by decide)
  have h4 := mem_ne h (show CC.word.mem '\r' = false by decide)
  have h5 := mem_ne h (show CC.word.mem '\x0b' = false by decide)
  have h6 := mem_ne h (show CC.word.mem '\x0c' = false by decide)
  simp [CC.mem, h1, h2, h3, h4, h5, h6]

theorem word_dot {c : Char} (h : CC.word.mem c = true) : CC.dot.mem c = true := by
  have h3 := mem_ne h (show CC.word.mem '\n' = false by decide)
  simp [CC.mem, h3]

theorem word_ne_colon {c : Char} (h : CC.word.mem c = true) : c ≠ ':' :=
  mem_ne h (by decide)

theorem word_not_digit_cases {c : Char} (h : CC.word.mem c = true) :
    CC.digit.mem c = true ∨ (CC.digit.mem c = false ∧ c ≠ ':') :=
  if hd : CC.digit.mem c = true then Or.inl hd
  else Or.inr ⟨Bool.eq_false_iff.mpr hd, word_ne_colon h⟩

theorem wordColon_not_space {c : Char} (h : CC.wordColon.mem c = true) :
    CC.space.mem c = false := by
  rcases wordColon_cases h with h1 | h1
  · exact word_not_space h1
  · rw [h1]; decide

theorem wordColon_dot {c : Char} (h : CC.wordColon.mem c = true) : CC.dot.mem c = true := by
  rcases wordColon_cases h with h1 | h1
  · exact word_dot h1
  · rw [h1]; decide

/-- The digit value fold used by the integer parses. -/
def digitsVal (l : List Char) : Nat :=
  l.foldl (fun acc c => acc * 10 + (c.toNat - 48)) 0

theorem digitsVal_append_singleton (l : List Char) (c : Char) :
    digitsVal (l ++ [c]) = 10 * digitsVal l + (c.toNat - 48) := by
  unfold digitsVal
  rw [List.foldl_append]
  simp [Nat.mul_comm]

theorem digitChar_isDigit {n : Nat} (h : n < 10) : (digitChar n).isDigit = true := by
  interval_cases n <;> decide

theorem digitChar_toNat {n : Nat} (h : n < 10) : (digitChar n).toNat = 48 + n := by
  interval_cases n <;> decide

theorem natCharsAux_digits : ∀ {fuel n : Nat} {ch : Char},
    ch ∈ natCharsAux fuel n → ch.isDigit = true := by
  intro fuel
  induction fuel with
  | zero => intro n ch hch; exact absurd hch (by simp [natCharsAux])
  | succ fuel ih =>
    intro n ch hch
    unfold natCharsAux at hch
    split at hch
    · rename_i h10
      rcases List.mem_singleton.mp hch with rfl
      exact digitChar_isDigit h10
    · rcases List.mem_append.mp hch with h1 | h1
      · exact ih h1
      · rcases List.mem_singleton.mp h1 with rfl
        exact digitChar_isDigit (Nat.mod_lt _ (by omega))

theorem natChars_digits {n : Nat} {ch : Char} (hch : ch ∈ natChars n) : ch.isDigit = true :=
  natCharsAux_digits hch

theorem natChars_digit_mem {n : Nat} {ch : Char} (hch : ch ∈ natChars n) :
    CC.digit.mem ch = true := by
  simpa [CC.mem] using natChars_digits hch

theorem natCharsAux_ne_nil {fuel n : Nat} : natCharsAux (fuel + 1) n ≠ [] := by
  unfold natCharsAux
  split <;> simp

theorem natChars_ne_nil {n : Nat} : natChars n ≠ [] := natCharsAux_ne_nil

theorem natCharsAux_val : ∀ fuel n, n < 10 ^ fuel → digitsVal (natCharsAux fuel n) = n := by
  intro fuel
  induction fuel with
  | zero => intro n h; simp at h; simp [natCharsAux, digitsVal, h]
  | succ fuel ih =>
    intro n h
    unfold natCharsAux
    split
    · rename_i h10
      simp [digitsVal, digitChar_toNat h10]
    · rename_i h10
      rw [digitsVal_append_singleton, ih (n / 10) (by
        rw [pow_succ] at h
        exact Nat.div_lt_of_lt_mul (by omega)), digitChar_toNat (Nat.mod_lt _ (by omega))]
      omega

theorem natChars_val (n : Nat) : digitsVal (natChars n) = n :=
  natCharsAux_val (n + 1) n (Nat.lt_trans (Nat.lt_pow_self (by norm_num) n)
    (Nat.pow_lt_pow_right (by norm_num) (Nat.lt_succ_self n)))

/-! ## Prefix-test lemmas -/

theorem ipLinkRe_eq (id : Nat) :
    ipLinkRe id = RE.seq (.plus .digit) (RE.seq (.lit [':']) (RE.seq (.plus .space)
      (RE.seq (.grp 1 (.plus .word)) (RE.seq (.lit ['@']) (RE.seq (.plus .word)
        (RE.seq (.lit [':']) (reFromMtu id))))))) := rfl

theorem isPrefixOf_cons_nil (a : Char) (t : List Char) :
    (a :: t).isPrefixOf [] = false := by
  simp [List.isPrefixOf]

theorem prefixOf_append_more (t : List Char) :
    ∀ (u w : List Char), t.isPrefixOf u = true → t.isPrefixOf (u ++ w) = true := by
  induction t with
  | nil => intro u w _; exact isPrefixOf_nil_left _
  | cons a t ih =>
    intro u w h
    cases u with
    | nil => exact absurd h (by simp [List.isPrefixOf])
    | cons d u' =>
      rw [List.isPrefixOf] at h
      rcases Bool.and_eq_true_iff.mp h with ⟨h1, h2⟩
      have had : a = d := by simpa using h1
      subst had
      rw [List.cons_append, isPrefixOf_cons₂]
      exact ih u' w h2

theorem prefixOf_class_stop {P : Char → Bool} {t : List Char} {b : Char}
    (ht : ∀ c ∈ t, P c = true) (hb : P b = false) :
    ∀ (u v : List Char), t.isPrefixOf (u ++ b :: v) = t.isPrefixOf u := by
  induction t with
  | nil => intro u v; rw [isPrefixOf_nil_left, isPrefixOf_nil_left]
  | cons a t ih =>
    intro u v
    cases u with
    | nil =>
      have : a ≠ b := by
        intro he
        rw [← he] at hb
        rw [ht a (List.mem_cons_self a t)] at hb
        exact Bool.noConfusion hb
      rw [List.nil_append, isPrefixOf_head_ne _ _ this, isPrefixOf_cons_nil]
    | cons d u' =>
      by_cases had : a = d
      · subst had
        rw [List.cons_append, isPrefixOf_cons₂, isPrefixOf_cons₂]
        exact ih (fun c hc => ht c (List.mem_cons_of_mem a hc)) u' v
      · rw [List.cons_append, isPrefixOf_head_ne _ _ had, isPrefixOf_head_ne _ _ had]

theorem not_prefixOf_wordrun_space {t : List Char}
    (hnosp : ∀ c ∈ t, c ≠ ' ') (hbad : ∃ c ∈ t, CC.word.mem c = false) :
    ∀ {m : List Char} (r : List Char), (∀ c ∈ m, CC.word.mem c = true) →
      t.isPrefixOf (m ++ ' ' :: r) = false := by
  induction t with
  | nil =>
    rcases hbad with ⟨c, hc, _⟩
    exact absurd hc (by simp)
  | cons a t ih =>
    intro m r hm
    cases m with
    | nil =>
      exact isPrefixOf_head_ne _ _ (hnosp a (List.mem_cons_self a t))
    | cons d m' =>
      by_cases had : a = d
      · subst had
        rw [List.cons_append, isPrefixOf_cons₂]
        have haw : CC.word.mem a = true := hm a (List.mem_cons_self a m')
        have hbad' : ∃ c ∈ t, CC.word.mem c = false := by
          rcases hbad with ⟨c, hc, hcw⟩
          rcases List.mem_cons.mp hc with rfl | hc'
          · rw [haw] at hcw; exact Bool.noConfusion hcw
          · exact ⟨c, hc', hcw⟩
        exact ih (fun c hc => hnosp c (List.mem_cons_of_mem a hc)) hbad' r
          (fun c hc => hm c (List.mem_cons_of_mem _ hc))
      · rw [List.cons_append, isPrefixOf_head_ne _ _ had]

theorem litMismatch_not_prefixOf : ∀ {t z : List Char}, litMismatch t z = true →
    ∀ (w : List Char), t.isPrefixOf (z ++ w) = false := by
  intro t
  induction t with
  | nil => intro z h; exact absurd h (by simp [litMismatch])
  | cons a t ih =>
    intro z h w
    cases z with
    | nil => exact absurd h (by simp [litMismatch])
    | cons b z' =>
      rw [litMismatch] at h
      by_cases hab : a = b
      · rw [if_pos hab] at h
        subst hab
        rw [List.cons_append, isPrefixOf_cons₂]
        exact ih h w
      · rw [List.cons_append, isPrefixOf_head_ne _ _ hab]

theorem prefixOf_length_le : ∀ {t u : List Char}, t.isPrefixOf u = true → t.length ≤ u.length := by
  intro t
  induction t with
  | nil => intro u _; simp
  | cons a t ih =>
    intro u h
    cases u with
    | nil => exact absurd h (by simp [List.isPrefixOf])
    | cons d u' =>
      rw [List.isPrefixOf] at h
      rcases Bool.and_eq_true_iff.mp h with ⟨_, h2⟩
      simpa using Nat.succ_le_succ (ih h2)

theorem prefixOf_to_append : ∀ {t u : List Char}, t.isPrefixOf u = true →
    ∃ e, u = t ++ e := by
  intro t
  induction t with
  | nil => intro u _; exact ⟨u, rfl⟩
  | cons a t ih =>
    intro u h
    cases u with
    | nil => exact absurd h (by simp [List.isPrefixOf])
    | cons d u' =>
      rw [List.isPrefixOf] at h
      rcases Bool.and_eq_true_iff.mp h with ⟨h1, h2⟩
      have had : a = d := by simpa using h1
      subst had
      rcases ih h2 with ⟨e, he⟩
      exact ⟨e, by rw [he, List.cons_append]⟩

/-- The value captured by a group that consumed `u`. -/
theorem take_capture (u w : List Char) : (u ++ w).take ((u ++ w).length - w.length) = u := by
  have h : (u ++ w).length - w.length = u.length := by
    rw [List.length_append]; omega
  rw [h, List.take_left]

/-! ## Head-based failure lemmas -/

theorem runWith_lit_head_ne {t0 : Char} {t' : List Char} {a : Char} (r : List Char)
    (F : List Char → Caps → Option (List Char × Caps)) (c : Caps) (h : t0 ≠ a) :
    runWith (RE.lit (t0 :: t')) F (a :: r) c = none :=
  runWith_lit_none F c (isPrefixOf_head_ne t' r h)

/-- A run (with boundary) scan for the common shape: all failing positions
plus a boundary continuation, succeeding or failing as the boundary does. -/
theorem starScan_run {β : Type} {p : CC} {u w : List Char} (g : List Char → Option β)
    (hu : ∀ c ∈ u, p.mem c = true)
    (hw : ∀ b t, w = b :: t → p.mem b = false)
    (hfail : ∀ u', u' ≠ [] → u'.IsSuffix u → g (u' ++ w) = none) :
    (starSufs p (u ++ w)).findSome? g = g w := by
  have hbase : (starSufs p w).findSome? g = g w := by
    cases w with
    | nil => exact starScan_nil g
    | cons b w' => exact starScan_cons_not w' g (hw b w' rfl)
  cases hgw : g w with
  | some b => exact starScan_over g hu (by rw [hbase, hgw])
  | none => exact starScan_skip g hu (by rw [hbase, hgw]) hfail

/-! ## Whitespace-then-literal obligation machinery -/

theorem dropWhile_head_not {p : Char → Bool} :
    ∀ {l : List Char} {b : Char} {t : List Char}, l.dropWhile p = b :: t → p b = false := by
  intro l
  induction l with
  | nil => intro b t h; exact absurd h (by simp)
  | cons a l ih =>
    intro b t h
    rw [List.dropWhile] at h
    cases hp : p a with
    | true => rw [hp] at h; exact ih h
    | false =>
      rw [hp] at h
      have : a = b := by
        have := congrArg List.head? h
        simpa using this
      rw [← this]
      exact hp

theorem wsLitFail_single {t0 : Char} {t' : List Char} (K : RE) (c : Caps)
    (ht0 : CC.space.mem t0 = false) :
    ∀ {u' : List Char} (w : List Char), wsLitFailAt (t0 :: t') u' = true →
      runFirst (RE.seq (.plus .space) (RE.seq (.lit (t0 :: t')) K)) (u' ++ w) c = none := by
  intro u' w hok
  cases u' with
  | nil => exact absurd hok (by simp [wsLitFailAt])
  | cons a rest =>
    rw [runFirst_seq]
    by_cases hsp : CC.space.mem a = true
    · rw [wsLitFailAt, if_pos hsp] at hok
      rcases hz : rest.dropWhile (fun c => CC.space.mem c) with _ | ⟨z0, z'⟩
      · rw [hz] at hok
        exact absurd hok (by simp)
      · rw [hz] at hok
        have hrest : rest ++ w = rest.takeWhile (fun c => CC.space.mem c) ++ ((z0 :: z') ++ w) := by
          rw [← List.append_assoc]
          rw [show rest.takeWhile (fun c => CC.space.mem c) ++ (z0 :: z') = rest by
            rw [← hz, List.takeWhile_append_dropWhile]]
        have hstop : ∀ bb tt, (z0 :: z') ++ w = bb :: tt → CC.space.mem bb = false := by
          intro bb tt hbt
          rw [List.cons_append] at hbt
          injection hbt with h1 h2
          rw [← h1]
          exact dropWhile_head_not hz
        have hfail : ∀ u'', u'' ≠ [] → u''.IsSuffix (rest.takeWhile (fun c => CC.space.mem c)) →
            (fun s' => runFirst (RE.seq (.lit (t0 :: t')) K) s' c) (u'' ++ ((z0 :: z') ++ w)) = none := by
          intro u'' hne hsuf
          cases u'' with
          | nil => exact absurd rfl hne
          | cons a2 r2 =>
            exact runWith_lit_head_ne _ _ _
              (mem_ne (List.mem_takeWhile_imp (hsuf.subset (List.mem_cons_self _ _))) ht0).symm
        rw [List.cons_append, runWith_plus_mem _ _ _ hsp, hrest]
        rw [starScan_run _ (fun c hc => List.mem_takeWhile_imp hc) hstop hfail]
        exact runWith_lit_none _ _ (litMismatch_not_prefixOf hok w)
    · rw [List.cons_append]
      exact runWith_plus_not _ _ _ (by simpa using hsp)

theorem allPosFail_suffix {t u u' : List Char} (hok : allPosFail t u = true)
    (hsuf : u'.IsSuffix u) (hne : u' ≠ []) : wsLitFailAt t u' = true := by
  induction u with
  | nil =>
    rcases List.suffix_nil.mp hsuf with rfl
    exact absurd rfl hne
  | cons a rest ih =>
    rw [allPosFail] at hok
    rcases Bool.and_eq_true_iff.mp hok with ⟨h1, h2⟩
    rcases List.suffix_cons_iff.mp hsuf with rfl | hsuf'
    · exact h1
    · exact ih h2 hsuf'

theorem wsLit_obligations {t0 : Char} {t' : List Char} (K : RE) (c : Caps)
    {u : List Char} (w : List Char) (ht0 : CC.space.mem t0 = false)
    (hok : allPosFail (t0 :: t') u = true) :
    ∀ u', u' ≠ [] → u'.IsSuffix u →
      runFirst (RE.seq (.plus .space) (RE.seq (.lit (t0 :: t')) K)) (u' ++ w) c = none :=
  fun _ hne hsuf => wsLitFail_single K c ht0 w (allPosFail_suffix hok hsuf hne)

/-- The `\s+<lit>` continuation fails at the end-of-summary-line boundary for
any literal that definitely mismatches `link/ether `. -/
theorem boundary_fail {t0 : Char} {t' : List Char} (K : RE) (c : Caps) (b : Block)
    (r : List Char) (ht0 : CC.space.mem t0 = false)
    (hmm : litMismatch (t0 :: t') "link/ether ".toList = true) :
    runFirst (RE.seq (.plus .space) (RE.seq (.lit (t0 :: t')) K))
      ('\n' :: (line2 b ++ r)) c = none := by
  rw [runFirst_seq, runWith_plus_mem _ _ _ (by decide)]
  have hsplit : line2 b ++ r =
      [' ', ' ', ' ', ' '] ++ ("link/ether ".toList ++ (b.mac ++ (" brd ff:ff:ff:ff:ff:ff".toList ++ (nsidPart b ++ r)))) := by
    simp [line2, List.append_assoc]
  have hstop : ∀ bb tt, ("link/ether ".toList ++ (b.mac ++ (" brd ff:ff:ff:ff:ff:ff".toList ++ (nsidPart b ++ r)))) = bb :: tt →
      CC.space.mem bb = false := by
    intro bb tt hbt
    rw [show ("link/ether ".toList ++ (b.mac ++ (" brd ff:ff:ff:ff:ff:ff".toList ++ (nsidPart b ++ r)))) = 'l' :: ("ink/ether ".toList ++ (b.mac ++ (" brd ff:ff:ff:ff:ff:ff".toList ++ (nsidPart b ++ r)))) from rfl] at hbt
    injection hbt with h1 h2
    rw [← h1]
    decide
  have hfail : ∀ u'', u'' ≠ [] → u''.IsSuffix [' ', ' ', ' ', ' '] →
      (fun s' => runFirst (RE.seq (.lit (t0 :: t')) K) s' c)
        (u'' ++ ("link/ether ".toList ++ (b.mac ++ (" brd ff:ff:ff:ff:ff:ff".toList ++ (nsidPart b ++ r))))) = none := by
    intro u'' hne hsuf
    cases u'' with
    | nil => exact absurd rfl hne
    | cons a2 r2 =>
      refine runWith_lit_head_ne _ _ _ (mem_ne ?_ ht0).symm
      have ha2 : a2 ∈ ([' ', ' ', ' ', ' '] : List Char) := hsuf.subset (List.mem_cons_self _ _)
      fin_cases ha2 <;> decide
  rw [hsplit, starScan_run _ (by decide) hstop hfail]
  exact runWith_lit_none _ _ (litMismatch_not_prefixOf hmm _)

/-! ## Positions where no match can start -/

theorem scanfail_head (id : Nat) {a : Char} (r : List Char) (h : CC.digit.mem a = false) :
    runFirst (ipLinkRe id) (a :: r) [] = none := by
  rw [ipLinkRe_eq, runFirst_seq]
  exact runWith_plus_not _ _ _ h

theorem scanfail_digitrun (id : Nat) {d : List Char} (w : List Char) (hd : d ≠ [])
    (hdig : ∀ c ∈ d, CC.digit.mem c = true)
    (hw : match w with | [] => True | b :: _ => CC.digit.mem b = false ∧ b ≠ ':') :
    runFirst (ipLinkRe id) (d ++ w) [] = none := by
  cases d with
  | nil => exact absurd rfl hd
  | cons d0 d' =>
    rw [ipLinkRe_eq, runFirst_seq, List.cons_append]
    rw [runWith_plus_mem _ _ _ (hdig d0 (List.mem_cons_self _ _))]
    have hstop : ∀ bb tt, w = bb :: tt → CC.digit.mem bb = false := by
      intro bb tt hbt
      subst hbt
      exact hw.1
    have hfail : ∀ u'', u'' ≠ [] → u''.IsSuffix d' →
        (fun s' => runFirst (RE.seq (.lit [':'])
          (RE.seq (.plus .space) (RE.seq (.grp 1 (.plus .word)) (RE.seq (.lit ['@'])
            (RE.seq (.plus .word) (RE.seq (.lit [':']) (reFromMtu id))))))) s' []) (u'' ++ w) = none := by
      intro u'' hne hsuf
      cases u'' with
      | nil => exact absurd rfl hne
      | cons a2 r2 =>
        exact runWith_lit_head_ne _ _ _
          (word_ne_colon (digit_word (hdig a2 (List.mem_cons_of_mem _ (hsuf.subset (List.mem_cons_self _ _)))))).symm
    rw [starScan_run _ (fun c hc => hdig c (List.mem_cons_of_mem _ hc)) hstop hfail]
    cases w with
    | nil => exact runWith_lit_none _ _ (isPrefixOf_cons_nil _ _)
    | cons b r2 => exact runWith_lit_head_ne _ _ _ (Ne.symm hw.2)

theorem takeWhile_eq_nil_head {p : Char → Bool} {a : Char} {r : List Char}
    (h : (a :: r).takeWhile p = []) : p a = false := by
  rw [List.takeWhile] at h
  cases hp : p a with
  | true => rw [hp] at h; exact absurd h (by simp)
  | false => rfl

theorem dropWhile_mem {p : Char → Bool} {l : List Char} :
    ∀ c ∈ l.dropWhile p, c ∈ l :=
  fun _ hc => (List.dropWhile_suffix p).subset hc

/-- No match can start inside a run of word characters that is followed by a
non-digit, non-colon character: either the head is not a digit, or the digit
run ends (inside the run or at the boundary) at a character other than `:`. -/
theorem scanfail_wordrun (id : Nat) {u : List Char} {b : Char} (t : List Char)
    (hu : ∀ c ∈ u, CC.word.mem c = true)
    (hb1 : CC.digit.mem b = false) (hb2 : b ≠ ':') :
    ∀ u', u' ≠ [] → u'.IsSuffix u → runFirst (ipLinkRe id) (u' ++ b :: t) [] = none := by
  intro u' hne hsuf
  have hu' : ∀ c ∈ u', CC.word.mem c = true := fun c hc => hu c (hsuf.subset hc)
  cases hrest : u'.dropWhile (fun c => CC.digit.mem c) with
  | nil =>
    have hall : ∀ c ∈ u', CC.digit.mem c = true :=
      List.dropWhile_eq_nil_iff.mp hrest
    exact scanfail_digitrun id (b :: t) hne hall ⟨hb1, hb2⟩
  | cons f0 f' =>
    have hf0d : CC.digit.mem f0 = false := dropWhile_head_not hrest
    have hf0w : CC.word.mem f0 = true := hu' f0 (dropWhile_mem f0 (by rw [hrest]; exact List.mem_cons_self _ _))
    rcases hD : u'.takeWhile (fun c => CC.digit.mem c) with _ | ⟨d0, d'⟩
    · cases u' with
      | nil => exact absurd rfl hne
      | cons a r =>
        exact scanfail_head id _ (takeWhile_eq_nil_head hD)
    · have hsplit : u' ++ b :: t = (d0 :: d') ++ ((f0 :: f') ++ b :: t) := by
        rw [← List.append_assoc, ← hD, ← hrest, List.takeWhile_append_dropWhile]
      rw [hsplit]
      exact scanfail_digitrun id ((f0 :: f') ++ b :: t) (by simp)
        (fun c hc => by
          rw [← hD] at hc
          exact List.mem_takeWhile_imp hc)
        ⟨hf0d, word_ne_colon hf0w⟩

/-- No match can start inside the `if<peer>` digits: the word run after
`:`-space starts with `<`, which is not a word character. -/
theorem scanfail_peer (id : Nat) {d : List Char} (r : List Char) (hd : d ≠ [])
    (hdig : ∀ c ∈ d, CC.digit.mem c = true) :
    runFirst (ipLinkRe id) (d ++ ':' :: ' ' :: '<' :: r) [] = none := by
  cases d with
  | nil => exact absurd rfl hd
  | cons d0 d' =>
    rw [ipLinkRe_eq, runFirst_seq, List.cons_append]
    rw [runWith_plus_mem _ _ _ (hdig d0 (List.mem_cons_self _ _))]
    have hstop : ∀ bb tt, (':' :: ' ' :: '<' :: r : List Char) = bb :: tt →
        CC.digit.mem bb = false := by
      intro bb tt hbt
      injection hbt with h1 _
      rw [← h1]
      decide
    have hfail : ∀ u'', u'' ≠ [] → u''.IsSuffix d' →
        (fun s' => runFirst (RE.seq (.lit [':'])
          (RE.seq (.plus .space) (RE.seq (.grp 1 (.plus .word)) (RE.seq (.lit ['@'])
            (RE.seq (.plus .word) (RE.seq (.lit [':']) (reFromMtu id))))))) s' [])
          (u'' ++ ':' :: ' ' :: '<' :: r) = none := by
      intro u'' hne hsuf
      cases u'' with
      | nil => exact absurd rfl hne
      | cons a2 r2 =>
        exact runWith_lit_head_ne _ _ _
          (word_ne_colon (digit_word (hdig a2 (List.mem_cons_of_mem _ (hsuf.subset (List.mem_cons_self _ _)))))).symm
    rw [starScan_run _ (fun c hc => hdig c (List.mem_cons_of_mem _ hc)) hstop hfail]
    show runFirst (RE.seq (.lit [':'])
          (RE.seq (.plus .space) (RE.seq (.grp 1 (.plus .word)) (RE.seq (.lit ['@'])
            (RE.seq (.plus .word) (RE.seq (.lit [':']) (reFromMtu id)))))))
        ([':'] ++ (' ' :: '<' :: r)) [] = none
    rw [runFirst_seq, runWith_lit_self]
    show runFirst (RE.seq (.plus .space) (RE.seq (.grp 1 (.plus .word)) (RE.seq (.lit ['@'])
          (RE.seq (.plus .word) (RE.seq (.lit [':']) (reFromMtu id))))))
        (' ' :: '<' :: r) [] = none
    rw [runFirst_seq, runWith_plus_mem _ _ _ (by decide)]
    rw [starScan_cons_not _ _ (by decide)]
    show runFirst (RE.seq (.grp 1 (.plus .word)) (RE.seq (.lit ['@'])
          (RE.seq (.plus .word) (RE.seq (.lit [':']) (reFromMtu id))))) ('<' :: r) [] = none
    rw [runFirst_seq, runWith_grp]
    exact runWith_plus_not _ _ _ (by decide)

/-- No match can start at a digit run of the MAC that ends at a colon: after
the colon the line continues with MAC characters or ` brd `, and the
name-group/`@` part cannot match there. -/
theorem scanfail_mac_colon (id : Nat) {D f' : List Char} (r : List Char) (hD : D ≠ [])
    (hDd : ∀ c ∈ D, CC.digit.mem c = true)
    (hf : ∀ c ∈ f', CC.wordColon.mem c = true) :
    runFirst (ipLinkRe id) (D ++ ':' :: (f' ++ ' ' :: 'b' :: 'r' :: 'd' :: ' ' :: r)) [] = none := by
  cases D with
  | nil => exact absurd rfl hD
  | cons d0 d' =>
    rw [ipLinkRe_eq, runFirst_seq, List.cons_append]
    rw [runWith_plus_mem _ _ _ (hDd d0 (List.mem_cons_self _ _))]
    have hstop : ∀ bb tt, (':' :: (f' ++ ' ' :: 'b' :: 'r' :: 'd' :: ' ' :: r) : List Char) = bb :: tt →
        CC.digit.mem bb = false := by
      intro bb tt hbt
      injection hbt with h1 _
      rw [← h1]
      decide
    have hfail : ∀ u'', u'' ≠ [] → u''.IsSuffix d' →
        (fun s' => runFirst (RE.seq (.lit [':'])
          (RE.seq (.plus .space) (RE.seq (.grp 1 (.plus .word)) (RE.seq (.lit ['@'])
            (RE.seq (.plus .word) (RE.seq (.lit [':']) (reFromMtu id))))))) s' [])
          (u'' ++ ':' :: (f' ++ ' ' :: 'b' :: 'r' :: 'd' :: ' ' :: r)) = none := by
      intro u'' hne hsuf
      cases u'' with
      | nil => exact absurd rfl hne
      | cons a2 r2 =>
        exact runWith_lit_head_ne _ _ _
          (word_ne_colon (digit_word (hDd a2 (List.mem_cons_of_mem _ (hsuf.subset (List.mem_cons_self _ _)))))).symm
    rw [starScan_run _ (fun c hc => hDd c (List.mem_cons_of_mem _ hc)) hstop hfail]
    show runFirst (RE.seq (.lit [':'])
          (RE.seq (.plus .space) (RE.seq (.grp 1 (.plus .word)) (RE.seq (.lit ['@'])
            (RE.seq (.plus .word) (RE.seq (.lit [':']) (reFromMtu id)))))))
        ([':'] ++ (f' ++ ' ' :: 'b' :: 'r' :: 'd' :: ' ' :: r)) [] = none
    rw [runFirst_seq, runWith_lit_self]
    cases f' with
    | cons c2 f'' =>
      show runFirst (RE.seq (.plus .space) (RE.seq (.grp 1 (.plus .word)) (RE.seq (.lit ['@'])
          (RE.seq (.plus .word) (RE.seq (.lit [':']) (reFromMtu id))))))
        (c2 :: (f'' ++ ' ' :: 'b' :: 'r' :: 'd' :: ' ' :: r)) [] = none
      rw [runFirst_seq]
      exact runWith_plus_not _ _ _
        (wordColon_not_space (hf c2 (List.mem_cons_self _ _)))
    | nil =>
      show runFirst (RE.seq (.plus .space) (RE.seq (.grp 1 (.plus .word)) (RE.seq (.lit ['@'])
          (RE.seq (.plus .word) (RE.seq (.lit [':']) (reFromMtu id))))))
        (' ' :: 'b' :: 'r' :: 'd' :: ' ' :: r) [] = none
      rw [runFirst_seq, runWith_plus_mem _ _ _ (by decide)]
      rw [starScan_cons_not _ _ (by decide)]
      show runFirst (RE.seq (.grp 1 (.plus .word)) (RE.seq (.lit ['@'])
          (RE.seq (.plus .word) (RE.seq (.lit [':']) (reFromMtu id)))))
        ('b' :: 'r' :: 'd' :: ' ' :: r) [] = none
      rw [runFirst_seq, runWith_grp, runWith_plus_mem _ _ _ (by decide)]
      refine @starScan_skip _ CC.word (['r', 'd']) (' ' :: r) _ ?_ ?_ ?_
      · decide
      · rw [starScan_cons_not _ _ (by decide)]
        exact runWith_lit_head_ne _ _ _ (by decide)
      · intro u'' hne hsuf
        cases u'' with
        | nil => exact absurd rfl hne
        | cons a2 r2 =>
          refine runWith_lit_head_ne _ _ _ ?_
          have ha2 : a2 ∈ (['r', 'd'] : List Char) := hsuf.subset (List.mem_cons_self _ _)
          fin_cases ha2 <;> decide

/-- No match can start inside the MAC address. -/
theorem scanfail_macrun (id : Nat) {u : List Char} (r : List Char)
    (hu : ∀ c ∈ u, CC.wordColon.mem c = true) :
    ∀ u', u' ≠ [] → u'.IsSuffix u →
      runFirst (ipLinkRe id) (u' ++ ' ' :: 'b' :: 'r' :: 'd' :: ' ' :: r) [] = none := by
  intro u' hne hsuf
  have hu' : ∀ c ∈ u', CC.wordColon.mem c = true := fun c hc => hu c (hsuf.subset hc)
  cases hrest : u'.dropWhile (fun c => CC.digit.mem c) with
  | nil =>
    have hall : ∀ c ∈ u', CC.digit.mem c = true := List.dropWhile_eq_nil_iff.mp hrest
    exact scanfail_digitrun id _ hne hall ⟨by decide, by decide⟩
  | cons f0 f' =>
    have hf0d : CC.digit.mem f0 = false := dropWhile_head_not hrest
    have hf0w : CC.wordColon.mem f0 = true :=
      hu' f0 (dropWhile_mem f0 (by rw [hrest]; exact List.mem_cons_self _ _))
    rcases hD : u'.takeWhile (fun c => CC.digit.mem c) with _ | ⟨d0, d'⟩
    · cases u' with
      | nil => exact absurd rfl hne
      | cons a r2 =>
        exact scanfail_head id _ (takeWhile_eq_nil_head hD)
    · have hsplit : u' ++ ' ' :: 'b' :: 'r' :: 'd' :: ' ' :: r =
          (d0 :: d') ++ ((f0 :: f') ++ ' ' :: 'b' :: 'r' :: 'd' :: ' ' :: r) := by
        rw [← List.append_assoc, ← hD, ← hrest, List.takeWhile_append_dropWhile]
      have hDd : ∀ c ∈ (d0 :: d'), CC.digit.mem c = true := by
        intro c hc
        rw [← hD] at hc
        exact List.mem_takeWhile_imp hc
      rw [hsplit]
      rcases wordColon_cases hf0w with hw | hcolon
      · exact scanfail_digitrun id _ (by simp) hDd ⟨hf0d, word_ne_colon hw⟩
      · subst hcolon
        have hf' : ∀ c ∈ f', CC.wordColon.mem c = true := by
          intro c hc
          exact hu' c (dropWhile_mem c (by rw [hrest]; exact List.mem_cons_of_mem _ hc))
        exact scanfail_mac_colon id r (by simp) hDd hf'

theorem runWith_runFirst (r K : RE) (s : List Char) (c : Caps) :
    runWith r (fun s' c' => runFirst K s' c') s c = runFirst (RE.seq r K) s c := rfl

theorem runFirst_seq_assoc (r1 r2 K : RE) (s : List Char) (c : Caps) :
    runFirst (RE.seq (RE.seq r1 r2) K) s c = runFirst (RE.seq r1 (RE.seq r2 K)) s c := by
  rw [← runWith_runFirst, runWith_seq]
  rfl

theorem runCands_lit_nil (s : List Char) (c : Caps) :
    runCands (RE.lit []) s c = [(s, c)] := by
  simp [runCands, isPrefixOf_nil_left]

theorem runFirst_lit_nil (s : List Char) (c : Caps) :
    runFirst (RE.lit []) s c = some (s, c) := by
  rw [show runFirst (RE.lit []) s c = (runCands (RE.lit []) s c).head? from rfl]
  rw [runCands_lit_nil]
  rfl

theorem isPrefixOf_append_both (a t s : List Char) :
    (a ++ t).isPrefixOf (a ++ s) = t.isPrefixOf s := by
  induction a with
  | nil => rfl
  | cons x a ih => rw [List.cons_append, List.cons_append, isPrefixOf_cons₂]; exact ih

theorem digit_dot {c : Char} (h : CC.digit.mem c = true) : CC.dot.mem c = true :=
  word_dot (digit_word h)

/-- Evaluation of the `.*link-netnsid <id>` tail of the pattern on the rest of
the address line: it succeeds exactly when the entry carries a `link-netnsid`
whose decimal digits have the requested id's digits as a prefix, leaving the
unconsumed digits and the rest of the dump. -/
theorem phaseZ (id : Nat) (b : Block) (v : List Char) (c : Caps) :
    runFirst (reFromNsid id)
      ('b' :: 'r' :: 'd' :: ' ' :: ("ff:ff:ff:ff:ff:ff".toList ++ (nsidPart b ++ '\n' :: v))) c =
      (blockRem b id v).map (fun rem => (rem, c)) := by
  rw [show reFromNsid id = RE.seq (.star .dot)
      (RE.seq (.lit ("link-netnsid ".toList ++ natChars id)) (.lit [])) from rfl]
  rw [runFirst_seq, runWith_star]
  rcases hn : b.netnsid with _ | n
  · rw [show nsidPart b = [] from by unfold nsidPart; rw [hn], List.nil_append]
    rw [show blockRem b id v = none from by unfold blockRem; rw [hn], Option.map_none']
    rw [show ('b' :: 'r' :: 'd' :: ' ' :: ("ff:ff:ff:ff:ff:ff".toList ++ '\n' :: v) : List Char)
        = "brd ff:ff:ff:ff:ff:ff".toList ++ ('\n' :: v) from rfl]
    have hstop : ∀ bb tt, ('\n' :: v : List Char) = bb :: tt → CC.dot.mem bb = false := by
      intro bb tt hbt
      injection hbt with h1 _
      rw [← h1]
      decide
    have hfail : ∀ u', u' ≠ [] → u'.IsSuffix ("brd ff:ff:ff:ff:ff:ff".toList) →
        (fun s' => runFirst (RE.seq (.lit ("link-netnsid ".toList ++ natChars id)) (.lit [])) s' c)
          (u' ++ '\n' :: v) = none := by
      intro u' hne hsuf
      cases u' with
      | nil => exact absurd rfl hne
      | cons a2 r2 =>
        refine runWith_lit_head_ne _ _ _ ?_
        have ha2 : a2 ∈ "brd ff:ff:ff:ff:ff:ff".toList := hsuf.subset (List.mem_cons_self _ _)
        fin_cases ha2 <;> decide
    rw [starScan_run _ (by decide) hstop hfail]
    exact runWith_lit_head_ne _ _ _ (by decide)
  · rw [show nsidPart b = " link-netnsid ".toList ++ natChars n from by unfold nsidPart; rw [hn]]
    rw [List.append_assoc]
    rw [show ('b' :: 'r' :: 'd' :: ' ' :: ("ff:ff:ff:ff:ff:ff".toList ++
          (" link-netnsid ".toList ++ (natChars n ++ '\n' :: v))) : List Char)
        = "brd ff:ff:ff:ff:ff:ff ".toList ++
          ('l' :: ("ink-netnsid ".toList ++ (natChars n ++ '\n' :: v))) from rfl]
    by_cases hp : (natChars id).isPrefixOf (natChars n) = true
    · rcases prefixOf_to_append hp with ⟨e, he⟩
      rw [show blockRem b id v = some (e ++ '\n' :: v) from by
        unfold blockRem
        rw [hn]
        dsimp only
        rw [if_pos hp, he, List.drop_left]]
      rw [Option.map_some']
      rw [he]
      refine starScan_over _ (by decide) ?_
      rw [starScan_cons_mem _ _ (by decide)]
      rw [← List.append_assoc]
      have hstop : ∀ bb tt, ('\n' :: v : List Char) = bb :: tt → CC.dot.mem bb = false := by
        intro bb tt hbt
        injection hbt with h1 _
        rw [← h1]
        decide
      have hu2 : ∀ ch ∈ "ink-netnsid ".toList ++ (natChars id ++ e), CC.dot.mem ch = true := by
        intro ch hch
        rcases List.mem_append.mp hch with h | h
        · exact (by decide : ∀ x ∈ "ink-netnsid ".toList, CC.dot.mem x = true) ch h
        · rcases List.mem_append.mp h with h2 | h2
          · exact digit_dot (natChars_digit_mem h2)
          · exact digit_dot (natChars_digit_mem (show ch ∈ natChars n by
              rw [he]; exact List.mem_append_right _ h2))
      have hfail : ∀ u', u' ≠ [] → u'.IsSuffix ("ink-netnsid ".toList ++ (natChars id ++ e)) →
          (fun s' => runFirst (RE.seq (.lit ("link-netnsid ".toList ++ natChars id)) (.lit [])) s' c)
            (u' ++ '\n' :: v) = none := by
        refine sufFail_append
          (fun s' => runFirst (RE.seq (.lit ("link-netnsid ".toList ++ natChars id)) (.lit [])) s' c)
          ?_ ?_
        · intro u' hne hsuf
          cases u' with
          | nil => exact absurd rfl hne
          | cons a2 r2 =>
            refine runWith_lit_head_ne _ _ _ ?_
            have ha2 : a2 ∈ "ink-netnsid ".toList := hsuf.subset (List.mem_cons_self _ _)
            fin_cases ha2 <;> decide
        · intro u' hne hsuf
          cases u' with
          | nil => exact absurd rfl hne
          | cons a2 r2 =>
            refine runWith_lit_head_ne _ _ _ ?_
            have ha2 : a2 ∈ natChars id ++ e := hsuf.subset (List.mem_cons_self _ _)
            have hd : CC.digit.mem a2 = true := by
              rcases List.mem_append.mp ha2 with h2 | h2
              · exact natChars_digit_mem h2
              · exact natChars_digit_mem (show a2 ∈ natChars n by
                  rw [he]; exact List.mem_append_right _ h2)
            exact (mem_ne hd (by decide)).symm
      rw [starScan_run _ hu2 hstop hfail]
      show runFirst (RE.seq (.lit ("link-netnsid ".toList ++ natChars id)) (.lit []))
        ('l' :: ("ink-netnsid ".toList ++ ((natChars id ++ e) ++ '\n' :: v))) c
          = some (e ++ '\n' :: v, c)
      rw [show ('l' :: ("ink-netnsid ".toList ++ ((natChars id ++ e) ++ '\n' :: v)) : List Char)
          = ("link-netnsid ".toList ++ natChars id) ++ (e ++ '\n' :: v) from by
        rw [List.append_assoc, List.append_assoc]
        rfl]
      rw [runFirst_seq, runWith_lit_self]
      exact runFirst_lit_nil _ _
    · rw [show blockRem b id v = none from by
        unfold blockRem
        rw [hn]
        dsimp only
        rw [if_neg hp], Option.map_none']
      rw [show ("brd ff:ff:ff:ff:ff:ff ".toList ++
            ('l' :: ("ink-netnsid ".toList ++ (natChars n ++ '\n' :: v))) : List Char)
          = ("brd ff:ff:ff:ff:ff:ff ".toList ++ ('l' :: ("ink-netnsid ".toList ++ natChars n)))
            ++ '\n' :: v from by simp [List.append_assoc]]
      have hstop : ∀ bb tt, ('\n' :: v : List Char) = bb :: tt → CC.dot.mem bb = false := by
        intro bb tt hbt
        injection hbt with h1 _
        rw [← h1]
        decide
      have hu : ∀ ch ∈ "brd ff:ff:ff:ff:ff:ff ".toList ++ ('l' :: ("ink-netnsid ".toList ++ natChars n)),
          CC.dot.mem ch = true := by
        intro ch hch
        rcases List.mem_append.mp hch with h | h
        · exact (by decide : ∀ x ∈ "brd ff:ff:ff:ff:ff:ff ".toList, CC.dot.mem x = true) ch h
        · rcases List.mem_cons.mp h with rfl | h
          · decide
          · rcases List.mem_append.mp h with h2 | h2
            · exact (by decide : ∀ x ∈ "ink-netnsid ".toList, CC.dot.mem x = true) ch h2
            · exact digit_dot (natChars_digit_mem h2)
      have hfail : ∀ u', u' ≠ [] →
          u'.IsSuffix ("brd ff:ff:ff:ff:ff:ff ".toList ++ ('l' :: ("ink-netnsid ".toList ++ natChars n))) →
          (fun s' => runFirst (RE.seq (.lit ("link-netnsid ".toList ++ natChars id)) (.lit [])) s' c)
            (u' ++ '\n' :: v) = none := by
        refine sufFail_append
          (fun s' => runFirst (RE.seq (.lit ("link-netnsid ".toList ++ natChars id)) (.lit [])) s' c)
          ?_ ?_
        · intro u' hne hsuf
          cases u' with
          | nil => exact absurd rfl hne
          | cons a2 r2 =>
            refine runWith_lit_head_ne _ _ _ ?_
            have ha2 : a2 ∈ "brd ff:ff:ff:ff:ff:ff ".toList := hsuf.subset (List.mem_cons_self _ _)
            fin_cases ha2 <;> decide
        · intro u' hne hsuf
          rcases List.suffix_cons_iff.mp hsuf with rfl | hsuf'
          · refine runWith_lit_none _ _ ?_
            rw [show (('l' :: ("ink-netnsid ".toList ++ natChars n)) ++ '\n' :: v : List Char)
                = "link-netnsid ".toList ++ (natChars n ++ '\n' :: v) from by
              simp [List.append_assoc]]
            rw [show ("link-netnsid ".toList ++ natChars id : List Char).isPrefixOf
                  ("link-netnsid ".toList ++ (natChars n ++ '\n' :: v))
                = (natChars id).isPrefixOf (natChars n ++ '\n' :: v) from
              isPrefixOf_append_both _ _ _]
            rw [prefixOf_class_stop (fun x hx => natChars_digit_mem hx) (by decide) (natChars n) v]
            rw [Bool.not_eq_true] at hp
            exact hp
          · cases u' with
            | nil => exact absurd rfl hne
            | cons a2 r2 =>
              refine runWith_lit_head_ne _ _ _ ?_
              have ha2 : a2 ∈ "ink-netnsid ".toList ++ natChars n := hsuf'.subset (List.mem_cons_self _ _)
              rcases List.mem_append.mp ha2 with h2 | h2
              · fin_cases h2 <;> decide
              · exact (mem_ne (natChars_digit_mem h2) (by decide)).symm
      rw [starScan_run _ hu hstop hfail]
      exact runWith_lit_head_ne _ _ _ (by decide)

/-- Evaluating a captured `(\c+)` group over a run of class characters ending
at a class boundary, when the continuation fails (with any capture list) at
every position strictly inside the run: the group captures the full run. -/
theorem runWith_grp_plus (i : Nat) (p : CC) {m0 : Char} {m' w : List Char}
    (F : List Char → Caps → Option (List Char × Caps)) (c : Caps)
    (h0 : p.mem m0 = true) (hm : ∀ ch ∈ m', p.mem ch = true)
    (hw : ∀ bb tt, w = bb :: tt → p.mem bb = false)
    (hfail : ∀ s' cx, s' ≠ [] → s'.IsSuffix m' → F (s' ++ w) cx = none) :
    runWith (RE.grp i (RE.plus p)) F (m0 :: (m' ++ w)) c = F w ((i, m0 :: m') :: c) := by
  rw [runWith_grp, runWith_plus_mem _ _ _ h0]
  rw [starScan_run
    (fun s' => F s' ((i, (m0 :: (m' ++ w)).take ((m0 :: (m' ++ w)).length - s'.length)) :: c))
    hm hw (fun u' hne hsuf => hfail u' _ hne hsuf)]
  show F w ((i, (m0 :: (m' ++ w)).take ((m0 :: (m' ++ w)).length - w.length)) :: c)
    = F w ((i, m0 :: m') :: c)
  rw [← List.cons_append, take_capture]

/-- Evaluation of the `\s+link/ether\s+(?P<mac>(\w|:)+)\s+` part of the
pattern, from the newline ending the summary line on: it consumes the address
line up to ` brd`, captures the MAC, and continues with the `link-netnsid`
tail. -/
theorem phaseLEtail (id : Nat) (b : Block) (v : List Char) (c : Caps)
    (hm1 : b.mac ≠ []) (hm2 : ∀ ch ∈ b.mac, CC.wordColon.mem ch = true) :
    runFirst (reFromLEtail id) ('\n' :: (line2 b ++ '\n' :: v)) c =
      (blockRem b id v).map (fun rem => (rem, (4, b.mac) :: c)) := by
  unfold reFromLEtail
  rw [runFirst_seq, runWith_plus_mem _ _ _ (by decide)]
  rw [show line2 b ++ '\n' :: v = [' ', ' ', ' ', ' '] ++ ("link/ether ".toList
      ++ (b.mac ++ (" brd ff:ff:ff:ff:ff:ff".toList ++ (nsidPart b ++ '\n' :: v)))) from by
    simp [line2, List.append_assoc]]
  have hstop : ∀ bb tt, ("link/ether ".toList
      ++ (b.mac ++ (" brd ff:ff:ff:ff:ff:ff".toList ++ (nsidPart b ++ '\n' :: v)))) = bb :: tt →
      CC.space.mem bb = false := by
    intro bb tt hbt
    rw [show ("link/ether ".toList
        ++ (b.mac ++ (" brd ff:ff:ff:ff:ff:ff".toList ++ (nsidPart b ++ '\n' :: v))) : List Char)
      = 'l' :: ("ink/ether ".toList
        ++ (b.mac ++ (" brd ff:ff:ff:ff:ff:ff".toList ++ (nsidPart b ++ '\n' :: v)))) from rfl] at hbt
    injection hbt with h1 _
    rw [← h1]
    decide
  have hfail : ∀ u', u' ≠ [] → u'.IsSuffix [' ', ' ', ' ', ' '] →
      (fun s' => runFirst (RE.seq (.lit "link/ether".toList) (RE.seq (.plus .space)
        (RE.seq (.grp 4 (.plus .wordColon)) (RE.seq (.plus .space) (reFromNsid id))))) s' c)
        (u' ++ ("link/ether ".toList
          ++ (b.mac ++ (" brd ff:ff:ff:ff:ff:ff".toList ++ (nsidPart b ++ '\n' :: v))))) = none := by
    intro u' hne hsuf
    cases u' with
    | nil => exact absurd rfl hne
    | cons a2 r2 =>
      refine runWith_lit_head_ne _ _ _ ?_
      have ha2 : a2 ∈ ([' ', ' ', ' ', ' '] : List Char) := hsuf.subset (List.mem_cons_self _ _)
      fin_cases ha2 <;> decide
  rw [starScan_run _ (by decide) hstop hfail]
  show runFirst (RE.seq (.lit "link/ether".toList) (RE.seq (.plus .space)
      (RE.seq (.grp 4 (.plus .wordColon)) (RE.seq (.plus .space) (reFromNsid id)))))
    ("link/ether".toList
      ++ (' ' :: (b.mac ++ (" brd ff:ff:ff:ff:ff:ff".toList ++ (nsidPart b ++ '\n' :: v))))) c
    = (blockRem b id v).map (fun rem => (rem, (4, b.mac) :: c))
  rw [runFirst_seq, runWith_lit_self]
  show runFirst (RE.seq (.plus .space) (RE.seq (.grp 4 (.plus .wordColon))
      (RE.seq (.plus .space) (reFromNsid id))))
    (' ' :: (b.mac ++ (" brd ff:ff:ff:ff:ff:ff".toList ++ (nsidPart b ++ '\n' :: v)))) c
    = (blockRem b id v).map (fun rem => (rem, (4, b.mac) :: c))
  rcases hmc : b.mac with _ | ⟨m0, m'⟩
  · exact absurd hmc hm1
  · have hm2' : ∀ ch ∈ m0 :: m', CC.wordColon.mem ch = true := by
      rw [← hmc]
      exact hm2
    rw [runFirst_seq, runWith_plus_mem _ _ _ (by decide)]
    rw [show ((m0 :: m') ++ (" brd ff:ff:ff:ff:ff:ff".toList ++ (nsidPart b ++ '\n' :: v)) : List Char)
        = m0 :: (m' ++ (" brd ff:ff:ff:ff:ff:ff".toList ++ (nsidPart b ++ '\n' :: v))) from rfl]
    rw [starScan_cons_not _ _ (wordColon_not_space (hm2' m0 (List.mem_cons_self _ _)))]
    show runFirst (RE.seq (.grp 4 (.plus .wordColon)) (RE.seq (.plus .space) (reFromNsid id)))
      (m0 :: (m' ++ (" brd ff:ff:ff:ff:ff:ff".toList ++ (nsidPart b ++ '\n' :: v)))) c
      = (blockRem b id v).map (fun rem => (rem, (4, m0 :: m') :: c))
    rw [runFirst_seq]
    have hw4 : ∀ bb tt, (" brd ff:ff:ff:ff:ff:ff".toList ++ (nsidPart b ++ '\n' :: v)) = bb :: tt →
        CC.wordColon.mem bb = false := by
      intro bb tt hbt
      rw [show (" brd ff:ff:ff:ff:ff:ff".toList ++ (nsidPart b ++ '\n' :: v) : List Char)
          = ' ' :: ("brd ff:ff:ff:ff:ff:ff".toList ++ (nsidPart b ++ '\n' :: v)) from rfl] at hbt
      injection hbt with h1 _
      rw [← h1]
      decide
    have hfail4 : ∀ s' cx, s' ≠ [] → s'.IsSuffix m' →
        runFirst (RE.seq (.plus .space) (reFromNsid id))
          (s' ++ (" brd ff:ff:ff:ff:ff:ff".toList ++ (nsidPart b ++ '\n' :: v))) cx = none := by
      intro s' cx hne hsuf
      cases s' with
      | nil => exact absurd rfl hne
      | cons a2 r2 =>
        exact runWith_plus_not _ _ _
          (wordColon_not_space (hm2' a2 (List.mem_cons_of_mem _ (hsuf.subset (List.mem_cons_self _ _)))))
    rw [runWith_grp_plus 4 CC.wordColon
      (fun s' c' => runFirst (RE.seq (.plus .space) (reFromNsid id)) s' c') c
      (hm2' m0 (List.mem_cons_self _ _))
      (fun ch hch => hm2' ch (List.mem_cons_of_mem _ hch)) hw4 hfail4]
    show runFirst (RE.seq (.plus .space) (reFromNsid id))
      (' ' :: ('b' :: 'r' :: 'd' :: ' ' :: ("ff:ff:ff:ff:ff:ff".toList ++ (nsidPart b ++ '\n' :: v))))
        ((4, m0 :: m') :: c)
      = (blockRem b id v).map (fun rem => (rem, (4, m0 :: m') :: c))
    rw [runFirst_seq, runWith_plus_mem _ _ _ (by decide)]
    rw [starScan_cons_not _ _ (by decide)]
    exact phaseZ id b v ((4, m0 :: m') :: c)

theorem runFirst_seq_congr (r : RE) {A B : RE}
    (h : ∀ x cx, runFirst A x cx = runFirst B x cx) (s : List Char) (c : Caps) :
    runFirst (RE.seq r A) s c = runFirst (RE.seq r B) s c := by
  rw [runFirst_seq, runFirst_seq]
  unfold runWith
  congr 1
  funext q
  exact h q.1 q.2

theorem runFirst_reMaster_flat (K : RE) (s : List Char) (c : Caps) :
    runFirst (RE.seq reMaster K) s c = runFirst (reMasterF K) s c := by
  rw [show reMaster = RE.seq (.star .dot) (RE.seq (.plus .space)
      (RE.seq (.lit ['m', 'a', 's', 't', 'e', 'r']) (RE.seq (.plus .space)
        (RE.seq (.grp 3 (.plus .word)) (RE.seq (.plus .space) (.lit [])))))) from rfl]
  rw [runFirst_seq_assoc]
  refine runFirst_seq_congr _ (fun x cx => ?_) s c
  rw [runFirst_seq_assoc]
  refine runFirst_seq_congr _ (fun y cy => ?_) x cx
  rw [runFirst_seq_assoc]
  refine runFirst_seq_congr _ (fun z cz => ?_) y cy
  rw [runFirst_seq_assoc]
  refine runFirst_seq_congr _ (fun u cu => ?_) z cz
  rw [runFirst_seq_assoc]
  refine runFirst_seq_congr _ (fun w cw => ?_) u cu
  rw [runFirst_seq_assoc]

/-- A literal with no spaces that matches a prefix of `m ++ ' ' :: r` already
matches inside `m`. -/
theorem prefixOf_no_space (t : List Char) (hnosp : ∀ ch ∈ t, ch ≠ ' ') :
    ∀ (m r : List Char), t.isPrefixOf (m ++ ' ' :: r) = true → ∃ m2, m = t ++ m2 := by
  induction t with
  | nil => exact fun m _ _ => ⟨m, rfl⟩
  | cons a t ih =>
    intro m r h
    cases m with
    | nil =>
      rw [List.nil_append] at h
      have : a = ' ' := by
        rw [List.isPrefixOf] at h
        rcases Bool.and_eq_true_iff.mp h with ⟨h1, _⟩
        simpa using h1
      exact absurd this (hnosp a (List.mem_cons_self _ _))
    | cons d m' =>
      rw [List.cons_append, List.isPrefixOf] at h
      rcases Bool.and_eq_true_iff.mp h with ⟨h1, h2⟩
      have had : a = d := by simpa using h1
      subst had
      rcases ih (fun ch hch => hnosp ch (List.mem_cons_of_mem _ hch)) m' r h2 with ⟨m2, hm2⟩
      exact ⟨m2, by rw [hm2, List.cons_append]⟩

/-- The `\s+link/ether` continuation fails at the space before a bridge name:
`link/ether` contains `/`, which a `\w+` run cannot produce. -/
theorem le_pos_fail (K : RE) (cx : Caps) {m : List Char} (r : List Char)
    (hm : ∀ ch ∈ m, CC.word.mem ch = true) (hm0 : m ≠ []) :
    runFirst (RE.seq (.plus .space) (RE.seq (.lit "link/ether".toList) K))
      (' ' :: (m ++ ' ' :: r)) cx = none := by
  rw [runFirst_seq, runWith_plus_mem _ _ _ (by decide)]
  cases m with
  | nil => exact absurd rfl hm0
  | cons m0 m' =>
    rw [show ((m0 :: m') ++ ' ' :: r : List Char) = m0 :: (m' ++ ' ' :: r) from rfl]
    rw [starScan_cons_not _ _ (word_not_space (hm m0 (List.mem_cons_self _ _)))]
    show runFirst (RE.seq (.lit "link/ether".toList) K) (m0 :: (m' ++ ' ' :: r)) cx = none
    rw [show (m0 :: (m' ++ ' ' :: r) : List Char) = (m0 :: m') ++ ' ' :: r from rfl]
    exact runWith_lit_none _ _
      (not_prefixOf_wordrun_space (by decide) (by decide) r hm)

/-- The `\s+master\s+(\w+)\s+` continuation fails at the space before a
`\w`-word that is not the keyword `master` itself. -/
theorem master_pos_fail (K : RE) (cx : Caps) {m : List Char} (r : List Char)
    (hm : ∀ ch ∈ m, CC.word.mem ch = true) (hm0 : m ≠ [])
    (hmne : m ≠ ['m', 'a', 's', 't', 'e', 'r']) :
    runFirst (RE.seq (.plus .space) (RE.seq (.lit ['m', 'a', 's', 't', 'e', 'r'])
      (RE.seq (.plus .space) (RE.seq (.grp 3 (.plus .word)) (RE.seq (.plus .space)
        (RE.seq (.lit []) K)))))) (' ' :: (m ++ ' ' :: r)) cx = none := by
  rw [runFirst_seq, runWith_plus_mem _ _ _ (by decide)]
  cases m with
  | nil => exact absurd rfl hm0
  | cons m0 m' =>
    rw [show ((m0 :: m') ++ ' ' :: r : List Char) = m0 :: (m' ++ ' ' :: r) from rfl]
    rw [starScan_cons_not _ _ (word_not_space (hm m0 (List.mem_cons_self _ _)))]
    show runFirst (RE.seq (.lit ['m', 'a', 's', 't', 'e', 'r'])
      (RE.seq (.plus .space) (RE.seq (.grp 3 (.plus .word)) (RE.seq (.plus .space)
        (RE.seq (.lit []) K))))) (m0 :: (m' ++ ' ' :: r)) cx = none
    rw [show (m0 :: (m' ++ ' ' :: r) : List Char) = (m0 :: m') ++ ' ' :: r from rfl]
    by_cases hp : (['m', 'a', 's', 't', 'e', 'r'] : List Char).isPrefixOf ((m0 :: m') ++ ' ' :: r) = true
    · rcases prefixOf_no_space _ (by decide) _ _ hp with ⟨m2, hm2⟩
      cases m2 with
      | nil => exact absurd (by rw [hm2, List.append_nil]) hmne
      | cons c2 m2' =>
        rw [hm2, List.append_assoc, runFirst_seq, runWith_lit_self]
        have hc2 : CC.word.mem c2 = true :=
          hm c2 (by rw [hm2]; exact List.mem_append_right _ (List.mem_cons_self _ _))
        exact runWith_plus_not _ _ _ (word_not_space hc2)
    · rw [Bool.not_eq_true] at hp
      exact runWith_lit_none _ _ hp

/-- The `\s+mtu\s+(\d+)` continuation fails at the space before a `\w`-word
when what follows the word is neither whitespace nor a digit. -/
theorem mtu_pos_fail (K : RE) (cx : Caps) {m : List Char} (r : List Char)
    (hm : ∀ ch ∈ m, CC.word.mem ch = true) (hm0 : m ≠ [])
    (hr : ∀ bb tt, r = bb :: tt → CC.space.mem bb = false ∧ CC.digit.mem bb = false) :
    runFirst (RE.seq (.plus .space) (RE.seq (.lit ['m', 't', 'u'])
      (RE.seq (.plus .space) (RE.seq (.grp 2 (.plus .digit)) K))))
      (' ' :: (m ++ ' ' :: r)) cx = none := by
  rw [runFirst_seq, runWith_plus_mem _ _ _ (by decide)]
  cases m with
  | nil => exact absurd rfl hm0
  | cons m0 m' =>
    rw [show ((m0 :: m') ++ ' ' :: r : List Char) = m0 :: (m' ++ ' ' :: r) from rfl]
    rw [starScan_cons_not _ _ (word_not_space (hm m0 (List.mem_cons_self _ _)))]
    show runFirst (RE.seq (.lit ['m', 't', 'u'])
      (RE.seq (.plus .space) (RE.seq (.grp 2 (.plus .digit)) K)))
        (m0 :: (m' ++ ' ' :: r)) cx = none
    rw [show (m0 :: (m' ++ ' ' :: r) : List Char) = (m0 :: m') ++ ' ' :: r from rfl]
    by_cases hp : (['m', 't', 'u'] : List Char).isPrefixOf ((m0 :: m') ++ ' ' :: r) = true
    · rcases prefixOf_no_space _ (by decide) _ _ hp with ⟨m2, hm2⟩
      cases m2 with
      | nil =>
        rw [List.append_nil] at hm2
        rw [hm2, runFirst_seq, runWith_lit_self]
        show runFirst (RE.seq (.plus .space) (RE.seq (.grp 2 (.plus .digit)) K))
          (' ' :: r) cx = none
        rw [runFirst_seq, runWith_plus_mem _ _ _ (by decide)]
        cases r with
        | nil =>
          rw [starScan_nil]
          show runFirst (RE.seq (.grp 2 (.plus .digit)) K) [] cx = none
          rfl
        | cons r0 r' =>
          rw [starScan_cons_not _ _ (hr r0 r' rfl).1]
          show runFirst (RE.seq (.grp 2 (.plus .digit)) K) (r0 :: r') cx = none
          rw [runFirst_seq, runWith_grp]
          exact runWith_plus_not _ _ _ (hr r0 r' rfl).2
      | cons c2 m2' =>
        rw [hm2, List.append_assoc, runFirst_seq, runWith_lit_self]
        have hc2 : CC.word.mem c2 = true :=
          hm c2 (by rw [hm2]; exact List.mem_append_right _ (List.mem_cons_self _ _))
        exact runWith_plus_not _ _ _ (word_not_space hc2)
    · rw [Bool.not_eq_true] at hp
      exact runWith_lit_none _ _ hp

/-- Evaluation of the `.*\s+link/ether...` tail of the pattern over a
summary-line remainder on which `\s+link/ether` can start nowhere. -/
theorem phaseLE (id : Nat) (b : Block) (v : List Char) (c : Caps) (S : List Char)
    (hS1 : allPosFail "link/ether".toList S = true)
    (hS2 : ∀ ch ∈ S, CC.dot.mem ch = true)
    (hm1 : b.mac ≠ []) (hm2 : ∀ ch ∈ b.mac, CC.wordColon.mem ch = true) :
    runFirst (reFromLE id) (S ++ '\n' :: (line2 b ++ '\n' :: v)) c =
      (blockRem b id v).map (fun rem => (rem, (4, b.mac) :: c)) := by
  unfold reFromLE
  rw [runFirst_seq, runWith_star]
  have hstop : ∀ bb tt, ('\n' :: (line2 b ++ '\n' :: v) : List Char) = bb :: tt →
      CC.dot.mem bb = false := by
    intro bb tt hbt
    injection hbt with h1 _
    rw [← h1]
    decide
  have hfail : ∀ u', u' ≠ [] → u'.IsSuffix S →
      (fun s' => runFirst (reFromLEtail id) s' c) (u' ++ '\n' :: (line2 b ++ '\n' :: v)) = none :=
    fun u' hne hsuf => wsLit_obligations (RE.seq (.plus .space)
      (RE.seq (.grp 4 (.plus .wordColon)) (RE.seq (.plus .space) (reFromNsid id)))) c
      ('\n' :: (line2 b ++ '\n' :: v)) (by decide) hS1 u' hne hsuf
  rw [starScan_run _ hS2 hstop hfail]
  exact phaseLEtail id b v c hm1 hm2

/-- Evaluation of the master group followed by the rest of the pattern on the
summary-line remainder of an enslaved interface: it captures the bridge name
and continues into the address line. -/
theorem optMasterScan (id : Nat) (b : Block) (v : List Char) (c : Caps) (m : List Char)
    (hw1 : m ≠ []) (hw2 : ∀ ch ∈ m, CC.word.mem ch = true)
    (hw3 : m ≠ ['m', 'a', 's', 't', 'e', 'r'])
    (hm1 : b.mac ≠ []) (hm2 : ∀ ch ∈ b.mac, CC.wordColon.mem ch = true) :
    runWith reMaster (fun s' c' => runFirst (reFromLE id) s' c')
      ("qdisc noqueue".toList ++ (' ' :: ("master ".toList ++ (m ++ (' ' ::
        ("state UP mode DEFAULT group default".toList ++ '\n' :: (line2 b ++ '\n' :: v))))))) c
      = (blockRem b id v).map (fun rem => (rem, (4, b.mac) :: ((3, m) :: c))) := by
  rw [runWith_runFirst, runFirst_reMaster_flat]
  unfold reMasterF
  rw [runFirst_seq, runWith_star]
  have hG : runFirst (RE.seq (.plus .space) (RE.seq (.lit ['m', 'a', 's', 't', 'e', 'r'])
      (RE.seq (.plus .space) (RE.seq (.grp 3 (.plus .word)) (RE.seq (.plus .space)
        (RE.seq (.lit []) (reFromLE id)))))))
      (' ' :: ("master ".toList ++ (m ++ (' ' :: ("state UP mode DEFAULT group default".toList
        ++ '\n' :: (line2 b ++ '\n' :: v)))))) c
      = (blockRem b id v).map (fun rem => (rem, (4, b.mac) :: ((3, m) :: c))) := by
    rw [runFirst_seq, runWith_plus_mem _ _ _ (by decide)]
    rw [show ("master ".toList ++ (m ++ (' ' :: ("state UP mode DEFAULT group default".toList
        ++ '\n' :: (line2 b ++ '\n' :: v)))) : List Char)
      = 'm' :: ("aster ".toList ++ (m ++ (' ' :: ("state UP mode DEFAULT group default".toList
        ++ '\n' :: (line2 b ++ '\n' :: v))))) from rfl]
    rw [starScan_cons_not _ _ (by decide)]
    show runFirst (RE.seq (.lit ['m', 'a', 's', 't', 'e', 'r'])
      (RE.seq (.plus .space) (RE.seq (.grp 3 (.plus .word)) (RE.seq (.plus .space)
        (RE.seq (.lit []) (reFromLE id))))))
      (['m', 'a', 's', 't', 'e', 'r'] ++ (' ' :: (m ++ (' ' ::
        ("state UP mode DEFAULT group default".toList ++ '\n' :: (line2 b ++ '\n' :: v)))))) c
      = (blockRem b id v).map (fun rem => (rem, (4, b.mac) :: ((3, m) :: c)))
    rw [runFirst_seq, runWith_lit_self]
    show runFirst (RE.seq (.plus .space) (RE.seq (.grp 3 (.plus .word)) (RE.seq (.plus .space)
        (RE.seq (.lit []) (reFromLE id)))))
      (' ' :: (m ++ (' ' :: ("state UP mode DEFAULT group default".toList
        ++ '\n' :: (line2 b ++ '\n' :: v))))) c
      = (blockRem b id v).map (fun rem => (rem, (4, b.mac) :: ((3, m) :: c)))
    rw [runFirst_seq, runWith_plus_mem _ _ _ (by decide)]
    cases m with
    | nil => exact absurd rfl hw1
    | cons m0 m' =>
      rw [show ((m0 :: m') ++ (' ' :: ("state UP mode DEFAULT group default".toList
          ++ '\n' :: (line2 b ++ '\n' :: v))) : List Char)
        = m0 :: (m' ++ (' ' :: ("state UP mode DEFAULT group default".toList
          ++ '\n' :: (line2 b ++ '\n' :: v)))) from rfl]
      rw [starScan_cons_not _ _ (word_not_space (hw2 m0 (List.mem_cons_self _ _)))]
      show runFirst (RE.seq (.grp 3 (.plus .word)) (RE.seq (.plus .space)
          (RE.seq (.lit []) (reFromLE id))))
        (m0 :: (m' ++ (' ' :: ("state UP mode DEFAULT group default".toList
          ++ '\n' :: (line2 b ++ '\n' :: v))))) c
        = (blockRem b id v).map (fun rem => (rem, (4, b.mac) :: ((3, m0 :: m') :: c)))
      rw [runFirst_seq]
      have hstop3 : ∀ bb tt, (' ' :: ("state UP mode DEFAULT group default".toList
          ++ '\n' :: (line2 b ++ '\n' :: v)) : List Char) = bb :: tt → CC.word.mem bb = false := by
        intro bb tt hbt
        injection hbt with h1 _
        rw [← h1]
        decide
      have hfail3 : ∀ s' cx2, s' ≠ [] → s'.IsSuffix m' →
          runFirst (RE.seq (.plus .space) (RE.seq (.lit []) (reFromLE id)))
            (s' ++ (' ' :: ("state UP mode DEFAULT group default".toList
              ++ '\n' :: (line2 b ++ '\n' :: v)))) cx2 = none := by
        intro s' cx2 hne hsuf
        cases s' with
        | nil => exact absurd rfl hne
        | cons a2 r2 =>
          exact runWith_plus_not _ _ _
            (word_not_space (hw2 a2 (List.mem_cons_of_mem _ (hsuf.subset (List.mem_cons_self _ _)))))
      rw [runWith_grp_plus 3 CC.word
        (fun s' c' => runFirst (RE.seq (.plus .space) (RE.seq (.lit []) (reFromLE id))) s' c') c
        (hw2 m0 (List.mem_cons_self _ _))
        (fun ch hch => hw2 ch (List.mem_cons_of_mem _ hch)) hstop3 hfail3]
      show runFirst (RE.seq (.plus .space) (RE.seq (.lit []) (reFromLE id)))
        (' ' :: ("state UP mode DEFAULT group default".toList ++ '\n' :: (line2 b ++ '\n' :: v)))
          ((3, m0 :: m') :: c)
        = (blockRem b id v).map (fun rem => (rem, (4, b.mac) :: ((3, m0 :: m') :: c)))
      rw [runFirst_seq, runWith_plus_mem _ _ _ (by decide)]
      rw [show ("state UP mode DEFAULT group default".toList
          ++ '\n' :: (line2 b ++ '\n' :: v) : List Char)
        = 's' :: ("tate UP mode DEFAULT group default".toList
          ++ '\n' :: (line2 b ++ '\n' :: v)) from rfl]
      rw [starScan_cons_not _ _ (by decide)]
      show runFirst (RE.seq (.lit []) (reFromLE id))
        ('s' :: ("tate UP mode DEFAULT group default".toList ++ '\n' :: (line2 b ++ '\n' :: v)))
          ((3, m0 :: m') :: c)
        = (blockRem b id v).map (fun rem => (rem, (4, b.mac) :: ((3, m0 :: m') :: c)))
      rw [runFirst_seq, runWith_lit_nil]
      show runFirst (reFromLE id)
        ("state UP mode DEFAULT group default".toList ++ '\n' :: (line2 b ++ '\n' :: v))
          ((3, m0 :: m') :: c)
        = (blockRem b id v).map (fun rem => (rem, (4, b.mac) :: ((3, m0 :: m') :: c)))
      exact phaseLE id b v ((3, m0 :: m') :: c) _ (by decide) (by decide) hm1 hm2
  rcases hbr : blockRem b id v with _ | rem
  · rw [hbr, Option.map_none'] at hG
    rw [Option.map_none']
    refine starScan_skip _ ?_ ?_ ?_
    · decide
    · rw [starScan_cons_mem _ _ (by decide)]
      have hdeep : (starSufs CC.dot ("master ".toList ++ (m ++ (' ' ::
          ("state UP mode DEFAULT group default".toList ++ '\n' :: (line2 b ++ '\n' :: v)))))).findSome?
          (fun s' => runFirst (RE.seq (.plus .space) (RE.seq (.lit ['m', 'a', 's', 't', 'e', 'r'])
            (RE.seq (.plus .space) (RE.seq (.grp 3 (.plus .word)) (RE.seq (.plus .space)
              (RE.seq (.lit []) (reFromLE id))))))) s' c) = none := by
        rw [show ("master ".toList ++ (m ++ (' ' :: ("state UP mode DEFAULT group default".toList
            ++ '\n' :: (line2 b ++ '\n' :: v)))) : List Char)
          = ("master".toList ++ ([' '] ++ (m ++ " state UP mode DEFAULT group default".toList)))
            ++ '\n' :: (line2 b ++ '\n' :: v) from by
          rw [List.append_assoc, List.append_assoc, List.append_assoc]
          rfl]
        have hstop : ∀ bb tt, ('\n' :: (line2 b ++ '\n' :: v) : List Char) = bb :: tt →
            CC.dot.mem bb = false := by
          intro bb tt hbt
          injection hbt with h1 _
          rw [← h1]
          decide
        have hu : ∀ ch ∈ "master".toList
            ++ ([' '] ++ (m ++ " state UP mode DEFAULT group default".toList)),
            CC.dot.mem ch = true := by
          intro ch hch
          rcases List.mem_append.mp hch with h | h
          · exact (by decide : ∀ x ∈ "master".toList, CC.dot.mem x = true) ch h
          · rcases List.mem_append.mp h with h | h
            · obtain rfl := List.mem_singleton.mp h
              decide
            · rcases List.mem_append.mp h with h | h
              · exact word_dot (hw2 ch h)
              · exact (by decide : ∀ x ∈ " state UP mode DEFAULT group default".toList,
                  CC.dot.mem x = true) ch h
        have hfail : ∀ u', u' ≠ [] → u'.IsSuffix ("master".toList
            ++ ([' '] ++ (m ++ " state UP mode DEFAULT group default".toList))) →
            (fun s' => runFirst (RE.seq (.plus .space) (RE.seq (.lit ['m', 'a', 's', 't', 'e', 'r'])
              (RE.seq (.plus .space) (RE.seq (.grp 3 (.plus .word)) (RE.seq (.plus .space)
                (RE.seq (.lit []) (reFromLE id))))))) s' c)
              (u' ++ '\n' :: (line2 b ++ '\n' :: v)) = none := by
          refine sufFail_append
            (fun s' => runFirst (RE.seq (.plus .space) (RE.seq (.lit ['m', 'a', 's', 't', 'e', 'r'])
              (RE.seq (.plus .space) (RE.seq (.grp 3 (.plus .word)) (RE.seq (.plus .space)
                (RE.seq (.lit []) (reFromLE id))))))) s' c) ?_ ?_
          · exact fun u' hne hsuf => wsLit_obligations _ c _ (by decide) (by decide) u' hne hsuf
          · refine sufFail_append
              (fun s' => runFirst (RE.seq (.plus .space) (RE.seq (.lit ['m', 'a', 's', 't', 'e', 'r'])
                (RE.seq (.plus .space) (RE.seq (.grp 3 (.plus .word)) (RE.seq (.plus .space)
                  (RE.seq (.lit []) (reFromLE id))))))) s' c) ?_ ?_
            · intro u' hne hsuf
              rcases List.suffix_cons_iff.mp hsuf with rfl | h
              · rw [List.append_assoc]
                exact master_pos_fail _ c
                  ("state UP mode DEFAULT group default".toList ++ '\n' :: (line2 b ++ '\n' :: v))
                  hw2 hw1 hw3
              · exact absurd (List.suffix_nil.mp h) hne
            · refine sufFail_append
                (fun s' => runFirst (RE.seq (.plus .space) (RE.seq (.lit ['m', 'a', 's', 't', 'e', 'r'])
                  (RE.seq (.plus .space) (RE.seq (.grp 3 (.plus .word)) (RE.seq (.plus .space)
                    (RE.seq (.lit []) (reFromLE id))))))) s' c) ?_ ?_
              · intro u' hne hsuf
                cases u' with
                | nil => exact absurd rfl hne
                | cons a2 r2 =>
                  exact runWith_plus_not _ _ _
                    (word_not_space (hw2 a2 (hsuf.subset (List.mem_cons_self _ _))))
              · exact fun u' hne hsuf => wsLit_obligations _ c _ (by decide) (by decide) u' hne hsuf
        rw [starScan_run _ hu hstop hfail]
        exact boundary_fail _ c b ('\n' :: v) (by decide) (by decide)
      rw [hdeep]
      exact hG
    · exact fun u' hne hsuf => wsLit_obligations _ c _ (by decide) (by decide) u' hne hsuf
  · rw [hbr, Option.map_some'] at hG
    rw [Option.map_some']
    refine starScan_over _ (by decide) ?_
    rw [starScan_cons_mem _ _ (by decide)]
    have hdeep : (starSufs CC.dot ("master ".toList ++ (m ++ (' ' ::
        ("state UP mode DEFAULT group default".toList ++ '\n' :: (line2 b ++ '\n' :: v)))))).findSome?
        (fun s' => runFirst (RE.seq (.plus .space) (RE.seq (.lit ['m', 'a', 's', 't', 'e', 'r'])
          (RE.seq (.plus .space) (RE.seq (.grp 3 (.plus .word)) (RE.seq (.plus .space)
            (RE.seq (.lit []) (reFromLE id))))))) s' c) = none := by
      rw [show ("master ".toList ++ (m ++ (' ' :: ("state UP mode DEFAULT group default".toList
          ++ '\n' :: (line2 b ++ '\n' :: v)))) : List Char)
        = ("master".toList ++ ([' '] ++ (m ++ " state UP mode DEFAULT group default".toList)))
          ++ '\n' :: (line2 b ++ '\n' :: v) from by
        rw [List.append_assoc, List.append_assoc, List.append_assoc]
        rfl]
      have hstop : ∀ bb tt, ('\n' :: (line2 b ++ '\n' :: v) : List Char) = bb :: tt →
          CC.dot.mem bb = false := by
        intro bb tt hbt
        injection hbt with h1 _
        rw [← h1]
        decide
      have hu : ∀ ch ∈ "master".toList
          ++ ([' '] ++ (m ++ " state UP mode DEFAULT group default".toList)),
          CC.dot.mem ch = true := by
        intro ch hch
        rcases List.mem_append.mp hch with h | h
        · exact (by decide : ∀ x ∈ "master".toList, CC.dot.mem x = true) ch h
        · rcases List.mem_append.mp h with h | h
          · obtain rfl := List.mem_singleton.mp h
            decide
          · rcases List.mem_append.mp h with h | h
            · exact word_dot (hw2 ch h)
            · exact (by decide : ∀ x ∈ " state UP mode DEFAULT group default".toList,
                CC.dot.mem x = true) ch h
      have hfail : ∀ u', u' ≠ [] → u'.IsSuffix ("master".toList
          ++ ([' '] ++ (m ++ " state UP mode DEFAULT group default".toList))) →
          (fun s' => runFirst (RE.seq (.plus .space) (RE.seq (.lit ['m', 'a', 's', 't', 'e', 'r'])
            (RE.seq (.plus .space) (RE.seq (.grp 3 (.plus .word)) (RE.seq (.plus .space)
              (RE.seq (.lit []) (reFromLE id))))))) s' c)
            (u' ++ '\n' :: (line2 b ++ '\n' :: v)) = none := by
        refine sufFail_append
          (fun s' => runFirst (RE.seq (.plus .space) (RE.seq (.lit ['m', 'a', 's', 't', 'e', 'r'])
            (RE.seq (.plus .space) (RE.seq (.grp 3 (.plus .word)) (RE.seq (.plus .space)
              (RE.seq (.lit []) (reFromLE id))))))) s' c) ?_ ?_
        · exact fun u' hne hsuf => wsLit_obligations _ c _ (by decide) (by decide) u' hne hsuf
        · refine sufFail_append
            (fun s' => runFirst (RE.seq (.plus .space) (RE.seq (.lit ['m', 'a', 's', 't', 'e', 'r'])
              (RE.seq (.plus .space) (RE.seq (.grp 3 (.plus .word)) (RE.seq (.plus .space)
                (RE.seq (.lit []) (reFromLE id))))))) s' c) ?_ ?_
          · intro u' hne hsuf
            rcases List.suffix_cons_iff.mp hsuf with rfl | h
            · rw [List.append_assoc]
              exact master_pos_fail _ c
                ("state UP mode DEFAULT group default".toList ++ '\n' :: (line2 b ++ '\n' :: v))
                hw2 hw1 hw3
            · exact absurd (List.suffix_nil.mp h) hne
          · refine sufFail_append
              (fun s' => runFirst (RE.seq (.plus .space) (RE.seq (.lit ['m', 'a', 's', 't', 'e', 'r'])
                (RE.seq (.plus .space) (RE.seq (.grp 3 (.plus .word)) (RE.seq (.plus .space)
                  (RE.seq (.lit []) (reFromLE id))))))) s' c) ?_ ?_
            · intro u' hne hsuf
              cases u' with
              | nil => exact absurd rfl hne
              | cons a2 r2 =>
                exact runWith_plus_not _ _ _
                  (word_not_space (hw2 a2 (hsuf.subset (List.mem_cons_self _ _))))
            · exact fun u' hne hsuf => wsLit_obligations _ c _ (by decide) (by decide) u' hne hsuf
      rw [starScan_run _ hu hstop hfail]
      exact boundary_fail _ c b ('\n' :: v) (by decide) (by decide)
    rw [hdeep]
    exact hG

/-- The fall-through of the optional master group on an unselected enslaved
entry: the `.*\s+link/ether...` tail also fails on the summary-line remainder
that still contains the ` master <m>` text. -/
theorem optLEfail (id : Nat) (b : Block) (v : List Char) (c : Caps) (m : List Char)
    (hw1 : m ≠ []) (hw2 : ∀ ch ∈ m, CC.word.mem ch = true)
    (hm1 : b.mac ≠ []) (hm2 : ∀ ch ∈ b.mac, CC.wordColon.mem ch = true)
    (hbr : blockRem b id v = none) :
    runFirst (reFromLE id)
      ("qdisc noqueue".toList ++ (' ' :: ("master ".toList ++ (m ++ (' ' ::
        ("state UP mode DEFAULT group default".toList ++ '\n' :: (line2 b ++ '\n' :: v))))))) c
      = none := by
  unfold reFromLE
  rw [runFirst_seq, runWith_star]
  rw [show ("qdisc noqueue".toList ++ (' ' :: ("master ".toList ++ (m ++ (' ' ::
        ("state UP mode DEFAULT group default".toList
          ++ '\n' :: (line2 b ++ '\n' :: v)))))) : List Char)
      = ("qdisc noqueue master".toList
          ++ ([' '] ++ (m ++ " state UP mode DEFAULT group default".toList)))
        ++ '\n' :: (line2 b ++ '\n' :: v) from by
    rw [List.append_assoc, List.append_assoc, List.append_assoc]
    rfl]
  have hstop : ∀ bb tt, ('\n' :: (line2 b ++ '\n' :: v) : List Char) = bb :: tt →
      CC.dot.mem bb = false := by
    intro bb tt hbt
    injection hbt with h1 _
    rw [← h1]
    decide
  have hu : ∀ ch ∈ "qdisc noqueue master".toList
      ++ ([' '] ++ (m ++ " state UP mode DEFAULT group default".toList)), CC.dot.mem ch = true := by
    intro ch hch
    rcases List.mem_append.mp hch with h | h
    · exact (by decide : ∀ x ∈ "qdisc noqueue master".toList, CC.dot.mem x = true) ch h
    · rcases List.mem_append.mp h with h | h
      · obtain rfl := List.mem_singleton.mp h
        decide
      · rcases List.mem_append.mp h with h | h
        · exact word_dot (hw2 ch h)
        · exact (by decide : ∀ x ∈ " state UP mode DEFAULT group default".toList,
            CC.dot.mem x = true) ch h
  have hfail : ∀ u', u' ≠ [] →
      u'.IsSuffix ("qdisc noqueue master".toList
        ++ ([' '] ++ (m ++ " state UP mode DEFAULT group default".toList))) →
      (fun s' => runFirst (reFromLEtail id) s' c) (u' ++ '\n' :: (line2 b ++ '\n' :: v)) = none := by
    refine sufFail_append (fun s' => runFirst (reFromLEtail id) s' c) ?_ ?_
    · exact fun u' hne hsuf => wsLit_obligations _ c _ (by decide) (by decide) u' hne hsuf
    · refine sufFail_append (fun s' => runFirst (reFromLEtail id) s' c) ?_ ?_
      · intro u' hne hsuf
        rcases List.suffix_cons_iff.mp hsuf with rfl | h
        · rw [List.append_assoc]
          exact le_pos_fail _ c
            ("state UP mode DEFAULT group default".toList ++ '\n' :: (line2 b ++ '\n' :: v)) hw2 hw1
        · exact absurd (List.suffix_nil.mp h) hne
      · refine sufFail_append (fun s' => runFirst (reFromLEtail id) s' c) ?_ ?_
        · intro u' hne hsuf
          cases u' with
          | nil => exact absurd rfl hne
          | cons a2 r2 =>
            exact runWith_plus_not _ _ _
              (word_not_space (hw2 a2 (hsuf.subset (List.mem_cons_self _ _))))
        · exact fun u' hne hsuf => wsLit_obligations _ c _ (by decide) (by decide) u' hne hsuf
  rw [starScan_run _ hu hstop hfail]
  have hLE := phaseLEtail id b v c hm1 hm2
  rw [hbr, Option.map_none'] at hLE
  exact hLE

/-- Evaluation of the `(?:.*\s+master\s+(?P<br>\w+)\s+)?.*\s+link/ether...`
tail of the pattern on the summary-line remainder after the MTU field. -/
theorem phaseOpt (id : Nat) (b : Block) (v : List Char) (c : Caps)
    (hma : ∀ m2, b.master = some m2 → m2 ≠ [] ∧ (∀ ch ∈ m2, CC.word.mem ch = true)
      ∧ m2 ≠ "master".toList)
    (hm1 : b.mac ≠ []) (hm2 : ∀ ch ∈ b.mac, CC.wordColon.mem ch = true) :
    runFirst (RE.seq (.opt reMaster) (reFromLE id))
      ("qdisc noqueue".toList ++ (masterPart b ++ (" state UP mode DEFAULT group default".toList
        ++ '\n' :: (line2 b ++ '\n' :: v)))) c =
      (blockRem b id v).map (fun rem => (rem, (4, b.mac) ::
        ((match b.master with | some m2 => [(3, m2)] | none => []) ++ c))) := by
  rw [runFirst_seq, runWith_opt]
  rcases hms : b.master with _ | m
  · rw [show masterPart b = [] from by unfold masterPart; rw [hms], List.nil_append]
    have hM : runWith reMaster (fun s' c' => runFirst (reFromLE id) s' c')
        ("qdisc noqueue".toList ++ (" state UP mode DEFAULT group default".toList
          ++ '\n' :: (line2 b ++ '\n' :: v))) c = none := by
      rw [runWith_runFirst, runFirst_reMaster_flat]
      unfold reMasterF
      rw [runFirst_seq, runWith_star]
      rw [show ("qdisc noqueue".toList ++ (" state UP mode DEFAULT group default".toList
          ++ '\n' :: (line2 b ++ '\n' :: v)) : List Char)
        = "qdisc noqueue state UP mode DEFAULT group default".toList
          ++ '\n' :: (line2 b ++ '\n' :: v) from rfl]
      have hstop : ∀ bb tt, ('\n' :: (line2 b ++ '\n' :: v) : List Char) = bb :: tt →
          CC.dot.mem bb = false := by
        intro bb tt hbt
        injection hbt with h1 _
        rw [← h1]
        decide
      have hfail : ∀ u', u' ≠ [] →
          u'.IsSuffix "qdisc noqueue state UP mode DEFAULT group default".toList →
          (fun s' => runFirst (RE.seq (.plus .space) (RE.seq (.lit ['m', 'a', 's', 't', 'e', 'r'])
            (RE.seq (.plus .space) (RE.seq (.grp 3 (.plus .word)) (RE.seq (.plus .space)
              (RE.seq (.lit []) (reFromLE id))))))) s' c)
            (u' ++ '\n' :: (line2 b ++ '\n' :: v)) = none :=
        fun u' hne hsuf => wsLit_obligations _ c _ (by decide) (by decide) u' hne hsuf
      rw [starScan_run _ (by decide) hstop hfail]
      exact boundary_fail _ c b ('\n' :: v) (by decide) (by decide)
    rw [hM]
    show runFirst (reFromLE id) ("qdisc noqueue".toList
        ++ (" state UP mode DEFAULT group default".toList ++ '\n' :: (line2 b ++ '\n' :: v))) c
      = (blockRem b id v).map (fun rem => (rem, (4, b.mac) :: c))
    rw [show ("qdisc noqueue".toList ++ (" state UP mode DEFAULT group default".toList
        ++ '\n' :: (line2 b ++ '\n' :: v)) : List Char)
      = "qdisc noqueue state UP mode DEFAULT group default".toList
        ++ '\n' :: (line2 b ++ '\n' :: v) from rfl]
    exact phaseLE id b v c _ (by decide) (by decide) hm1 hm2
  · obtain ⟨hw1, hw2, hw3⟩ := hma m hms
    rw [show masterPart b = " master ".toList ++ m from by unfold masterPart; rw [hms]]
    rw [List.append_assoc]
    rw [show ("qdisc noqueue".toList ++ (" master ".toList ++ (m
        ++ (" state UP mode DEFAULT group default".toList
          ++ '\n' :: (line2 b ++ '\n' :: v)))) : List Char)
      = "qdisc noqueue".toList ++ (' ' :: ("master ".toList ++ (m ++ (' ' ::
          ("state UP mode DEFAULT group default".toList
            ++ '\n' :: (line2 b ++ '\n' :: v)))))) from rfl]
    rw [optMasterScan id b v c m hw1 hw2 hw3 hm1 hm2]
    rcases hbr : blockRem b id v with _ | rem
    · rw [Option.map_none', Option.map_none']
      show runFirst (reFromLE id)
        ("qdisc noqueue".toList ++ (' ' :: ("master ".toList ++ (m ++ (' ' ::
          ("state UP mode DEFAULT group default".toList
            ++ '\n' :: (line2 b ++ '\n' :: v))))))) c = none
      exact optLEfail id b v c m hw1 hw2 hm1 hm2 hbr
    · rw [Option.map_some', Option.map_some']
      rfl

/-- Evaluation of the `.*\s+mtu\s+(?P<mtu>\d+)\s+...` tail of the pattern on
the summary line after the `<name>@if<peer>:` part. -/
theorem phaseM (id : Nat) (b : Block) (v : List Char) (c : Caps)
    (hma : ∀ m2, b.master = some m2 → m2 ≠ [] ∧ (∀ ch ∈ m2, CC.word.mem ch = true)
      ∧ m2 ≠ "master".toList)
    (hm1 : b.mac ≠ []) (hm2 : ∀ ch ∈ b.mac, CC.wordColon.mem ch = true) :
    runFirst (reFromMtu id) (line1tail b ++ '\n' :: (line2 b ++ '\n' :: v)) c =
      (blockRem b id v).map (fun rem => (rem, capsFrom b c)) := by
  unfold reFromMtu
  rw [runFirst_seq, runWith_star]
  rw [show line1tail b ++ '\n' :: (line2 b ++ '\n' :: v)
      = " <BROADCAST,MULTICAST,UP,LOWER_UP> mtu ".toList ++ (natChars b.mtu
        ++ (" qdisc noqueue".toList ++ (masterPart b
          ++ (" state UP mode DEFAULT group default".toList
            ++ '\n' :: (line2 b ++ '\n' :: v))))) from by
    simp [line1tail, List.append_assoc]]
  rw [show " <BROADCAST,MULTICAST,UP,LOWER_UP> mtu ".toList ++ (natChars b.mtu
        ++ (" qdisc noqueue".toList ++ (masterPart b
          ++ (" state UP mode DEFAULT group default".toList
            ++ '\n' :: (line2 b ++ '\n' :: v)))))
      = " <BROADCAST,MULTICAST,UP,LOWER_UP>".toList ++ (' ' :: ("mtu ".toList ++ (natChars b.mtu
        ++ (" qdisc noqueue".toList ++ (masterPart b
          ++ (" state UP mode DEFAULT group default".toList
            ++ '\n' :: (line2 b ++ '\n' :: v))))))) from rfl]
  have hG : runFirst (RE.seq (.plus .space) (RE.seq (.lit ['m', 't', 'u'])
      (RE.seq (.plus .space) (RE.seq (.grp 2 (.plus .digit))
        (RE.seq (.plus .space) (reFromOpt id))))))
      (' ' :: ("mtu ".toList ++ (natChars b.mtu ++ (" qdisc noqueue".toList ++ (masterPart b
        ++ (" state UP mode DEFAULT group default".toList
          ++ '\n' :: (line2 b ++ '\n' :: v))))))) c
      = (blockRem b id v).map (fun rem => (rem, capsFrom b c)) := by
    rw [runFirst_seq, runWith_plus_mem _ _ _ (by decide)]
    rw [show ("mtu ".toList ++ (natChars b.mtu ++ (" qdisc noqueue".toList ++ (masterPart b
        ++ (" state UP mode DEFAULT group default".toList
          ++ '\n' :: (line2 b ++ '\n' :: v))))) : List Char)
      = 'm' :: ("tu ".toList ++ (natChars b.mtu ++ (" qdisc noqueue".toList ++ (masterPart b
        ++ (" state UP mode DEFAULT group default".toList
          ++ '\n' :: (line2 b ++ '\n' :: v)))))) from rfl]
    rw [starScan_cons_not _ _ (by decide)]
    show runFirst (RE.seq (.lit ['m', 't', 'u'])
      (RE.seq (.plus .space) (RE.seq (.grp 2 (.plus .digit))
        (RE.seq (.plus .space) (reFromOpt id)))))
      (['m', 't', 'u'] ++ (' ' :: (natChars b.mtu ++ (" qdisc noqueue".toList ++ (masterPart b
        ++ (" state UP mode DEFAULT group default".toList
          ++ '\n' :: (line2 b ++ '\n' :: v))))))) c
      = (blockRem b id v).map (fun rem => (rem, capsFrom b c))
    rw [runFirst_seq, runWith_lit_self]
    show runFirst (RE.seq (.plus .space) (RE.seq (.grp 2 (.plus .digit))
        (RE.seq (.plus .space) (reFromOpt id))))
      (' ' :: (natChars b.mtu ++ (" qdisc noqueue".toList ++ (masterPart b
        ++ (" state UP mode DEFAULT group default".toList
          ++ '\n' :: (line2 b ++ '\n' :: v)))))) c
      = (blockRem b id v).map (fun rem => (rem, capsFrom b c))
    rw [runFirst_seq, runWith_plus_mem _ _ _ (by decide)]
    rcases hnc : natChars b.mtu with _ | ⟨d0, d'⟩
    · exact absurd hnc natChars_ne_nil
    · have hd0 : CC.digit.mem d0 = true :=
        natChars_digit_mem (show d0 ∈ natChars b.mtu by rw [hnc]; exact List.mem_cons_self _ _)
      have hd' : ∀ ch ∈ d', CC.digit.mem ch = true := fun ch hch =>
        natChars_digit_mem (show ch ∈ natChars b.mtu by rw [hnc]; exact List.mem_cons_of_mem _ hch)
      rw [show ((d0 :: d') ++ (" qdisc noqueue".toList ++ (masterPart b
          ++ (" state UP mode DEFAULT group default".toList
            ++ '\n' :: (line2 b ++ '\n' :: v)))) : List Char)
        = d0 :: (d' ++ (' ' :: ("qdisc noqueue".toList ++ (masterPart b
          ++ (" state UP mode DEFAULT group default".toList
            ++ '\n' :: (line2 b ++ '\n' :: v)))))) from rfl]
      rw [starScan_cons_not _ _ (word_not_space (digit_word hd0))]
      show runFirst (RE.seq (.grp 2 (.plus .digit)) (RE.seq (.plus .space) (reFromOpt id)))
        (d0 :: (d' ++ (' ' :: ("qdisc noqueue".toList ++ (masterPart b
          ++ (" state UP mode DEFAULT group default".toList
            ++ '\n' :: (line2 b ++ '\n' :: v))))))) c
        = (blockRem b id v).map (fun rem => (rem, capsFrom b c))
      rw [runFirst_seq]
      have hstop2 : ∀ bb tt, (' ' :: ("qdisc noqueue".toList ++ (masterPart b
          ++ (" state UP mode DEFAULT group default".toList
            ++ '\n' :: (line2 b ++ '\n' :: v)))) : List Char) = bb :: tt →
          CC.digit.mem bb = false := by
        intro bb tt hbt
        injection hbt with h1 _
        rw [← h1]
        decide
      have hfail2 : ∀ s' cx2, s' ≠ [] → s'.IsSuffix d' →
          runFirst (RE.seq (.plus .space) (reFromOpt id))
            (s' ++ (' ' :: ("qdisc noqueue".toList ++ (masterPart b
              ++ (" state UP mode DEFAULT group default".toList
                ++ '\n' :: (line2 b ++ '\n' :: v)))))) cx2 = none := by
        intro s' cx2 hne hsuf
        cases s' with
        | nil => exact absurd rfl hne
        | cons a2 r2 =>
          exact runWith_plus_not _ _ _
            (word_not_space (digit_word (hd' a2 (hsuf.subset (List.mem_cons_self _ _)))))
      rw [runWith_grp_plus 2 CC.digit
        (fun s' c' => runFirst (RE.seq (.plus .space) (reFromOpt id)) s' c') c
        hd0 hd' hstop2 hfail2]
      show runFirst (RE.seq (.plus .space) (reFromOpt id))
        (' ' :: ("qdisc noqueue".toList ++ (masterPart b
          ++ (" state UP mode DEFAULT group default".toList
            ++ '\n' :: (line2 b ++ '\n' :: v))))) ((2, d0 :: d') :: c)
        = (blockRem b id v).map (fun rem => (rem, capsFrom b c))
      rw [runFirst_seq, runWith_plus_mem _ _ _ (by decide)]
      rw [show ("qdisc noqueue".toList ++ (masterPart b
          ++ (" state UP mode DEFAULT group default".toList
            ++ '\n' :: (line2 b ++ '\n' :: v))) : List Char)
        = 'q' :: ("disc noqueue".toList ++ (masterPart b
          ++ (" state UP mode DEFAULT group default".toList
            ++ '\n' :: (line2 b ++ '\n' :: v)))) from rfl]
      rw [starScan_cons_not _ _ (by decide)]
      rw [show capsFrom b c = (4, b.mac) ::
          ((match b.master with | some m2 => [(3, m2)] | none => []) ++ (2, d0 :: d') :: c)
        from by
          unfold capsFrom
          rw [hnc]
          rfl]
      exact phaseOpt id b v ((2, d0 :: d') :: c) hma hm1 hm2
  have hdeep : (starSufs CC.dot ("mtu ".toList ++ (natChars b.mtu
      ++ (" qdisc noqueue".toList ++ (masterPart b
        ++ (" state UP mode DEFAULT group default".toList
          ++ '\n' :: (line2 b ++ '\n' :: v))))))).findSome?
      (fun s' => runFirst (RE.seq (.plus .space) (RE.seq (.lit ['m', 't', 'u'])
        (RE.seq (.plus .space) (RE.seq (.grp 2 (.plus .digit))
          (RE.seq (.plus .space) (reFromOpt id)))))) s' c) = none := by
    have hstop : ∀ bb tt, ('\n' :: (line2 b ++ '\n' :: v) : List Char) = bb :: tt →
        CC.dot.mem bb = false := by
      intro bb tt hbt
      injection hbt with h1 _
      rw [← h1]
      decide
    rcases hms : b.master with _ | m
    · rw [show masterPart b = [] from by unfold masterPart; rw [hms], List.nil_append]
      rw [show ("mtu ".toList ++ (natChars b.mtu ++ (" qdisc noqueue".toList
          ++ (" state UP mode DEFAULT group default".toList
            ++ '\n' :: (line2 b ++ '\n' :: v)))) : List Char)
        = ("mtu".toList ++ ([' '] ++ (natChars b.mtu
            ++ " qdisc noqueue state UP mode DEFAULT group default".toList)))
          ++ '\n' :: (line2 b ++ '\n' :: v) from by
        rw [List.append_assoc, List.append_assoc, List.append_assoc]
        rfl]
      have hu : ∀ ch ∈ "mtu".toList ++ ([' '] ++ (natChars b.mtu
          ++ " qdisc noqueue state UP mode DEFAULT group default".toList)),
          CC.dot.mem ch = true := by
        intro ch hch
        rcases List.mem_append.mp hch with h | h
        · exact (by decide : ∀ x ∈ "mtu".toList, CC.dot.mem x = true) ch h
        · rcases List.mem_append.mp h with h | h
          · obtain rfl := List.mem_singleton.mp h
            decide
          · rcases List.mem_append.mp h with h | h
            · exact digit_dot (natChars_digit_mem h)
            · exact (by decide : ∀ x ∈ " qdisc noqueue state UP mode DEFAULT group default".toList,
                CC.dot.mem x = true) ch h
      have hfail : ∀ u', u' ≠ [] → u'.IsSuffix ("mtu".toList ++ ([' '] ++ (natChars b.mtu
          ++ " qdisc noqueue state UP mode DEFAULT group default".toList))) →
          (fun s' => runFirst (RE.seq (.plus .space) (RE.seq (.lit ['m', 't', 'u'])
            (RE.seq (.plus .space) (RE.seq (.grp 2 (.plus .digit))
              (RE.seq (.plus .space) (reFromOpt id)))))) s' c)
            (u' ++ '\n' :: (line2 b ++ '\n' :: v)) = none := by
        refine sufFail_append (fun s' => runFirst (RE.seq (.plus .space) (RE.seq (.lit ['m', 't', 'u'])
            (RE.seq (.plus .space) (RE.seq (.grp 2 (.plus .digit))
              (RE.seq (.plus .space) (reFromOpt id)))))) s' c) ?_ ?_
        · exact fun u' hne hsuf => wsLit_obligations _ c _ (by decide) (by decide) u' hne hsuf
        · refine sufFail_append (fun s' => runFirst (RE.seq (.plus .space) (RE.seq (.lit ['m', 't', 'u'])
              (RE.seq (.plus .space) (RE.seq (.grp 2 (.plus .digit))
                (RE.seq (.plus .space) (reFromOpt id)))))) s' c) ?_ ?_
          · intro u' hne hsuf
            rcases List.suffix_cons_iff.mp hsuf with rfl | h
            · rw [List.append_assoc]
              show runFirst (RE.seq (.plus .space) (RE.seq (.lit ['m', 't', 'u'])
                (RE.seq (.plus .space) (RE.seq (.grp 2 (.plus .digit))
                  (RE.seq (.plus .space) (reFromOpt id))))))
                (' ' :: (natChars b.mtu
                  ++ (" qdisc noqueue state UP mode DEFAULT group default".toList
                    ++ '\n' :: (line2 b ++ '\n' :: v)))) c = none
              rw [runFirst_seq, runWith_plus_mem _ _ _ (by decide)]
              rcases hnc : natChars b.mtu with _ | ⟨d0, d'⟩
              · exact absurd hnc natChars_ne_nil
              · have hd0 : CC.digit.mem d0 = true :=
                  natChars_digit_mem (show d0 ∈ natChars b.mtu by
                    rw [hnc]; exact List.mem_cons_self _ _)
                rw [show ((d0 :: d') ++ (" qdisc noqueue state UP mode DEFAULT group default".toList
                    ++ '\n' :: (line2 b ++ '\n' :: v)) : List Char)
                  = d0 :: (d' ++ (" qdisc noqueue state UP mode DEFAULT group default".toList
                    ++ '\n' :: (line2 b ++ '\n' :: v))) from rfl]
                rw [starScan_cons_not _ _ (word_not_space (digit_word hd0))]
                exact runWith_lit_head_ne _ _ _ (mem_ne hd0 (by decide)).symm
            · exact absurd (List.suffix_nil.mp h) hne
          · refine sufFail_append (fun s' => runFirst (RE.seq (.plus .space)
                (RE.seq (.lit ['m', 't', 'u']) (RE.seq (.plus .space)
                  (RE.seq (.grp 2 (.plus .digit))
                    (RE.seq (.plus .space) (reFromOpt id)))))) s' c) ?_ ?_
            · intro u' hne hsuf
              cases u' with
              | nil => exact absurd rfl hne
              | cons a2 r2 =>
                exact runWith_plus_not _ _ _ (word_not_space (digit_word
                  (natChars_digit_mem (hsuf.subset (List.mem_cons_self _ _)))))
            · exact fun u' hne hsuf => wsLit_obligations _ c _ (by decide) (by decide) u' hne hsuf
      rw [starScan_run _ hu hstop hfail]
      exact boundary_fail _ c b ('\n' :: v) (by decide) (by decide)
    · obtain ⟨hw1, hw2, hw3⟩ := hma m hms
      rw [show masterPart b = " master ".toList ++ m from by unfold masterPart; rw [hms]]
      rw [show ("mtu ".toList ++ (natChars b.mtu ++ (" qdisc noqueue".toList
          ++ ((" master ".toList ++ m) ++ (" state UP mode DEFAULT group default".toList
            ++ '\n' :: (line2 b ++ '\n' :: v))))) : List Char)
        = ("mtu".toList ++ ([' '] ++ (natChars b.mtu ++ (" qdisc noqueue master".toList
            ++ ([' '] ++ (m ++ " state UP mode DEFAULT group default".toList))))))
          ++ '\n' :: (line2 b ++ '\n' :: v) from by
        rw [List.append_assoc, List.append_assoc, List.append_assoc, List.append_assoc,
          List.append_assoc, List.append_assoc, List.append_assoc]
        rfl]
      have hu : ∀ ch ∈ "mtu".toList ++ ([' '] ++ (natChars b.mtu
          ++ (" qdisc noqueue master".toList
            ++ ([' '] ++ (m ++ " state UP mode DEFAULT group default".toList))))),
          CC.dot.mem ch = true := by
        intro ch hch
        rcases List.mem_append.mp hch with h | h
        · exact (by decide : ∀ x ∈ "mtu".toList, CC.dot.mem x = true) ch h
        · rcases List.mem_append.mp h with h | h
          · obtain rfl := List.mem_singleton.mp h
            decide
          · rcases List.mem_append.mp h with h | h
            · exact digit_dot (natChars_digit_mem h)
            · rcases List.mem_append.mp h with h | h
              · exact (by decide : ∀ x ∈ " qdisc noqueue master".toList,
                  CC.dot.mem x = true) ch h
              · rcases List.mem_append.mp h with h | h
                · obtain rfl := List.mem_singleton.mp h
                  decide
                · rcases List.mem_append.mp h with h | h
                  · exact word_dot (hw2 ch h)
                  · exact (by decide : ∀ x ∈ " state UP mode DEFAULT group default".toList,
                      CC.dot.mem x = true) ch h
      have hfail : ∀ u', u' ≠ [] → u'.IsSuffix ("mtu".toList ++ ([' '] ++ (natChars b.mtu
          ++ (" qdisc noqueue master".toList
            ++ ([' '] ++ (m ++ " state UP mode DEFAULT group default".toList)))))) →
          (fun s' => runFirst (RE.seq (.plus .space) (RE.seq (.lit ['m', 't', 'u'])
            (RE.seq (.plus .space) (RE.seq (.grp 2 (.plus .digit))
              (RE.seq (.plus .space) (reFromOpt id)))))) s' c)
            (u' ++ '\n' :: (line2 b ++ '\n' :: v)) = none := by
        refine sufFail_append (fun s' => runFirst (RE.seq (.plus .space) (RE.seq (.lit ['m', 't', 'u'])
            (RE.seq (.plus .space) (RE.seq (.grp 2 (.plus .digit))
              (RE.seq (.plus .space) (reFromOpt id)))))) s' c) ?_ ?_
        · exact fun u' hne hsuf => wsLit_obligations _ c _ (by decide) (by decide) u' hne hsuf
        · refine sufFail_append (fun s' => runFirst (RE.seq (.plus .space) (RE.seq (.lit ['m', 't', 'u'])
              (RE.seq (.plus .space) (RE.seq (.grp 2 (.plus .digit))
                (RE.seq (.plus .space) (reFromOpt id)))))) s' c) ?_ ?_
          · intro u' hne hsuf
            rcases List.suffix_cons_iff.mp hsuf with rfl | h
            · rw [List.append_assoc]
              show runFirst (RE.seq (.plus .space) (RE.seq (.lit ['m', 't', 'u'])
                (RE.seq (.plus .space) (RE.seq (.grp 2 (.plus .digit))
                  (RE.seq (.plus .space) (reFromOpt id))))))
                (' ' :: (natChars b.mtu ++ ((" qdisc noqueue master".toList
                  ++ ([' '] ++ (m ++ " state UP mode DEFAULT group default".toList)))
                    ++ '\n' :: (line2 b ++ '\n' :: v)))) c = none
              rw [runFirst_seq, runWith_plus_mem _ _ _ (by decide)]
              rcases hnc : natChars b.mtu with _ | ⟨d0, d'⟩
              · exact absurd hnc natChars_ne_nil
              · have hd0 : CC.digit.mem d0 = true :=
                  natChars_digit_mem (show d0 ∈ natChars b.mtu by
                    rw [hnc]; exact List.mem_cons_self _ _)
                rw [show ((d0 :: d') ++ ((" qdisc noqueue master".toList
                    ++ ([' '] ++ (m ++ " state UP mode DEFAULT group default".toList)))
                      ++ '\n' :: (line2 b ++ '\n' :: v)) : List Char)
                  = d0 :: (d' ++ ((" qdisc noqueue master".toList
                    ++ ([' '] ++ (m ++ " state UP mode DEFAULT group default".toList)))
                      ++ '\n' :: (line2 b ++ '\n' :: v))) from rfl]
                rw [starScan_cons_not _ _ (word_not_space (digit_word hd0))]
                exact runWith_lit_head_ne _ _ _ (mem_ne hd0 (by decide)).symm
            · exact absurd (List.suffix_nil.mp h) hne
          · refine sufFail_append (fun s' => runFirst (RE.seq (.plus .space)
                (RE.seq (.lit ['m', 't', 'u']) (RE.seq (.plus .space)
                  (RE.seq (.grp 2 (.plus .digit))
                    (RE.seq (.plus .space) (reFromOpt id)))))) s' c) ?_ ?_
            · intro u' hne hsuf
              cases u' with
              | nil => exact absurd rfl hne
              | cons a2 r2 =>
                exact runWith_plus_not _ _ _ (word_not_space (digit_word
                  (natChars_digit_mem (hsuf.subset (List.mem_cons_self _ _)))))
            · refine sufFail_append (fun s' => runFirst (RE.seq (.plus .space)
                  (RE.seq (.lit ['m', 't', 'u']) (RE.seq (.plus .space)
                    (RE.seq (.grp 2 (.plus .digit))
                      (RE.seq (.plus .space) (reFromOpt id)))))) s' c) ?_ ?_
              · exact fun u' hne hsuf => wsLit_obligations _ c _ (by decide) (by decide) u' hne hsuf
              · refine sufFail_append (fun s' => runFirst (RE.seq (.plus .space)
                    (RE.seq (.lit ['m', 't', 'u']) (RE.seq (.plus .space)
                      (RE.seq (.grp 2 (.plus .digit))
                        (RE.seq (.plus .space) (reFromOpt id)))))) s' c) ?_ ?_
                · intro u' hne hsuf
                  rcases List.suffix_cons_iff.mp hsuf with rfl | h
                  · rw [List.append_assoc]
                    exact mtu_pos_fail _ c
                      ("state UP mode DEFAULT group default".toList
                        ++ '\n' :: (line2 b ++ '\n' :: v)) hw2 hw1 (by
                      intro bb tt hbt
                      rw [show ("state UP mode DEFAULT group default".toList
                          ++ '\n' :: (line2 b ++ '\n' :: v) : List Char)
                        = 's' :: ("tate UP mode DEFAULT group default".toList
                          ++ '\n' :: (line2 b ++ '\n' :: v)) from rfl] at hbt
                      injection hbt with h1 _
                      rw [← h1]
                      exact ⟨by decide, by decide⟩)
                  · exact absurd (List.suffix_nil.mp h) hne
                · refine sufFail_append (fun s' => runFirst (RE.seq (.plus .space)
                      (RE.seq (.lit ['m', 't', 'u']) (RE.seq (.plus .space)
                        (RE.seq (.grp 2 (.plus .digit))
                          (RE.seq (.plus .space) (reFromOpt id)))))) s' c) ?_ ?_
                  · intro u' hne hsuf
                    cases u' with
                    | nil => exact absurd rfl hne
                    | cons a2 r2 =>
                      exact runWith_plus_not _ _ _
                        (word_not_space (hw2 a2 (hsuf.subset (List.mem_cons_self _ _))))
                  · exact fun u' hne hsuf =>
                      wsLit_obligations _ c _ (by decide) (by decide) u' hne hsuf
      rw [starScan_run _ hu hstop hfail]
      exact boundary_fail _ c b ('\n' :: v) (by decide) (by decide)
  rcases hbr : blockRem b id v with _ | rem
  · rw [hbr, Option.map_none'] at hG
    rw [Option.map_none']
    refine starScan_skip _ ?_ ?_ ?_
    · decide
    · rw [starScan_cons_mem _ _ (by decide), hdeep]
      exact hG
    · exact fun u' hne hsuf => wsLit_obligations _ c _ (by decide) (by decide) u' hne hsuf
  · rw [hbr, Option.map_some'] at hG
    rw [Option.map_some']
    refine starScan_over _ (by decide) ?_
    rw [starScan_cons_mem _ _ (by decide), hdeep]
    exact hG

/-- Evaluation of the whole pattern at the start of a rendered entry (or at
any position inside its leading index digits): the match succeeds exactly
when the entry is selected, producing the captures `capsOf`. -/
theorem runFirst_at_block (id : Nat) (b : Block) (v : List Char) {d : List Char}
    (hd : d ≠ []) (hdig : ∀ ch ∈ d, CC.digit.mem ch = true) (hWF : WFBlock b) :
    runFirst (ipLinkRe id)
      (d ++ ':' :: ' ' :: (b.name ++ '@' :: 'i' :: 'f' ::
        (natChars b.peer ++ ':' :: (line1tail b ++ '\n' :: (line2 b ++ '\n' :: v))))) [] =
      (blockRem b id v).map (fun rem => (rem, capsOf b)) := by
  obtain ⟨hn1, hn2, hq1, hq2, hma, _⟩ := hWF
  rw [ipLinkRe_eq, runFirst_seq]
  cases d with
  | nil => exact absurd rfl hd
  | cons d0 dr =>
    rw [List.cons_append, runWith_plus_mem _ _ _ (hdig d0 (List.mem_cons_self _ _))]
    have hstopD : ∀ bb tt, (':' :: ' ' :: (b.name ++ '@' :: 'i' :: 'f' ::
        (natChars b.peer ++ ':' :: (line1tail b ++ '\n' :: (line2 b ++ '\n' :: v)))) : List Char)
        = bb :: tt → CC.digit.mem bb = false := by
      intro bb tt hbt
      injection hbt with h1 _
      rw [← h1]
      decide
    have hfailD : ∀ u', u' ≠ [] → u'.IsSuffix dr →
        (fun s' => runFirst (RE.seq (.lit [':']) (RE.seq (.plus .space)
          (RE.seq (.grp 1 (.plus .word)) (RE.seq (.lit ['@']) (RE.seq (.plus .word)
            (RE.seq (.lit [':']) (reFromMtu id))))))) s' [])
          (u' ++ ':' :: ' ' :: (b.name ++ '@' :: 'i' :: 'f' ::
            (natChars b.peer ++ ':' :: (line1tail b ++ '\n' :: (line2 b ++ '\n' :: v))))) = none := by
      intro u' hne hsuf
      cases u' with
      | nil => exact absurd rfl hne
      | cons a2 r2 =>
        exact runWith_lit_head_ne _ _ _
          (word_ne_colon (digit_word (hdig a2 (List.mem_cons_of_mem _
            (hsuf.subset (List.mem_cons_self _ _)))))).symm
    rw [starScan_run _ (fun ch hch => hdig ch (List.mem_cons_of_mem _ hch)) hstopD hfailD]
    show runFirst (RE.seq (.lit [':']) (RE.seq (.plus .space)
        (RE.seq (.grp 1 (.plus .word)) (RE.seq (.lit ['@']) (RE.seq (.plus .word)
          (RE.seq (.lit [':']) (reFromMtu id)))))))
      ([':'] ++ (' ' :: (b.name ++ '@' :: 'i' :: 'f' ::
        (natChars b.peer ++ ':' :: (line1tail b ++ '\n' :: (line2 b ++ '\n' :: v)))))) []
      = (blockRem b id v).map (fun rem => (rem, capsOf b))
    rw [runFirst_seq, runWith_lit_self]
    show runFirst (RE.seq (.plus .space) (RE.seq (.grp 1 (.plus .word))
        (RE.seq (.lit ['@']) (RE.seq (.plus .word) (RE.seq (.lit [':']) (reFromMtu id))))))
      (' ' :: (b.name ++ '@' :: 'i' :: 'f' ::
        (natChars b.peer ++ ':' :: (line1tail b ++ '\n' :: (line2 b ++ '\n' :: v))))) []
      = (blockRem b id v).map (fun rem => (rem, capsOf b))
    rw [runFirst_seq, runWith_plus_mem _ _ _ (by decide)]
    rcases hnn : b.name with _ | ⟨n0, n'⟩
    · exact absurd hnn hn1
    · have hn2' : ∀ ch ∈ n0 :: n', CC.word.mem ch = true := by
        rw [← hnn]
        exact hn2
      rw [show ((n0 :: n') ++ '@' :: 'i' :: 'f' ::
          (natChars b.peer ++ ':' :: (line1tail b ++ '\n' :: (line2 b ++ '\n' :: v))) : List Char)
        = n0 :: (n' ++ '@' :: 'i' :: 'f' ::
          (natChars b.peer ++ ':' :: (line1tail b ++ '\n' :: (line2 b ++ '\n' :: v)))) from rfl]
      rw [starScan_cons_not _ _ (word_not_space (hn2' n0 (List.mem_cons_self _ _)))]
      show runFirst (RE.seq (.grp 1 (.plus .word))
          (RE.seq (.lit ['@']) (RE.seq (.plus .word) (RE.seq (.lit [':']) (reFromMtu id)))))
        (n0 :: (n' ++ '@' :: 'i' :: 'f' ::
          (natChars b.peer ++ ':' :: (line1tail b ++ '\n' :: (line2 b ++ '\n' :: v))))) []
        = (blockRem b id v).map (fun rem => (rem, capsOf b))
      rw [runFirst_seq]
      have hstopN : ∀ bb tt, ('@' :: 'i' :: 'f' ::
          (natChars b.peer ++ ':' :: (line1tail b ++ '\n' :: (line2 b ++ '\n' :: v))) : List Char)
          = bb :: tt → CC.word.mem bb = false := by
        intro bb tt hbt
        injection hbt with h1 _
        rw [← h1]
        decide
      have hfailN : ∀ s' cx2, s' ≠ [] → s'.IsSuffix n' →
          runFirst (RE.seq (.lit ['@']) (RE.seq (.plus .word) (RE.seq (.lit [':']) (reFromMtu id))))
            (s' ++ '@' :: 'i' :: 'f' ::
              (natChars b.peer ++ ':' :: (line1tail b ++ '\n' :: (line2 b ++ '\n' :: v)))) cx2
            = none := by
        intro s' cx2 hne hsuf
        cases s' with
        | nil => exact absurd rfl hne
        | cons a2 r2 =>
          exact runWith_lit_head_ne _ _ _
            (mem_ne (hn2' a2 (List.mem_cons_of_mem _ (hsuf.subset (List.mem_cons_self _ _))))
              (by decide)).symm
      rw [runWith_grp_plus 1 CC.word
        (fun s' c' => runFirst (RE.seq (.lit ['@']) (RE.seq (.plus .word)
          (RE.seq (.lit [':']) (reFromMtu id)))) s' c') []
        (hn2' n0 (List.mem_cons_self _ _))
        (fun ch hch => hn2' ch (List.mem_cons_of_mem _ hch)) hstopN hfailN]
      show runFirst (RE.seq (.lit ['@']) (RE.seq (.plus .word) (RE.seq (.lit [':']) (reFromMtu id))))
        (['@'] ++ ('i' :: 'f' ::
          (natChars b.peer ++ ':' :: (line1tail b ++ '\n' :: (line2 b ++ '\n' :: v)))))
          [(1, n0 :: n')]
        = (blockRem b id v).map (fun rem => (rem, capsOf b))
      rw [runFirst_seq, runWith_lit_self]
      show runFirst (RE.seq (.plus .word) (RE.seq (.lit [':']) (reFromMtu id)))
        ('i' :: 'f' :: (natChars b.peer ++ ':' :: (line1tail b ++ '\n' :: (line2 b ++ '\n' :: v))))
          [(1, n0 :: n')]
        = (blockRem b id v).map (fun rem => (rem, capsOf b))
      rw [runFirst_seq, runWith_plus_mem _ _ _ (by decide)]
      rw [show ('f' :: (natChars b.peer ++ ':' :: (line1tail b ++ '\n' :: (line2 b ++ '\n' :: v))) : List Char)
          = ('f' :: natChars b.peer) ++ ':' :: (line1tail b ++ '\n' :: (line2 b ++ '\n' :: v)) from rfl]
      have huP : ∀ ch ∈ 'f' :: natChars b.peer, CC.word.mem ch = true := by
        intro ch hch
        rcases List.mem_cons.mp hch with rfl | hch
        · decide
        · exact digit_word (natChars_digit_mem hch)
      have hstopP : ∀ bb tt, (':' :: (line1tail b ++ '\n' :: (line2 b ++ '\n' :: v)) : List Char)
          = bb :: tt → CC.word.mem bb = false := by
        intro bb tt hbt
        injection hbt with h1 _
        rw [← h1]
        decide
      have hfailP : ∀ u', u' ≠ [] → u'.IsSuffix ('f' :: natChars b.peer) →
          (fun s' => runFirst (RE.seq (.lit [':']) (reFromMtu id)) s' [(1, n0 :: n')])
            (u' ++ ':' :: (line1tail b ++ '\n' :: (line2 b ++ '\n' :: v))) = none := by
        intro u' hne hsuf
        cases u' with
        | nil => exact absurd rfl hne
        | cons a2 r2 =>
          exact runWith_lit_head_ne _ _ _
            (word_ne_colon (huP a2 (hsuf.subset (List.mem_cons_self _ _)))).symm
      rw [starScan_run _ huP hstopP hfailP]
      show runFirst (RE.seq (.lit [':']) (reFromMtu id))
        ([':'] ++ (line1tail b ++ '\n' :: (line2 b ++ '\n' :: v))) [(1, n0 :: n')]
        = (blockRem b id v).map (fun rem => (rem, capsOf b))
      rw [runFirst_seq, runWith_lit_self]
      show runFirst (reFromMtu id) (line1tail b ++ '\n' :: (line2 b ++ '\n' :: v)) [(1, n0 :: n')]
        = (blockRem b id v).map (fun rem => (rem, capsOf b))
      rw [show capsOf b = capsFrom b [(1, n0 :: n')] from by
        unfold capsOf capsFrom
        rw [hnn]]
      exact phaseM id b v [(1, n0 :: n')] hma hq1 hq2

theorem scanFrom_drop (r : RE) : ∀ (x y : List Char), scanFrom r (x ++ y) x.length = scanFrom r y 0 := by
  intro x
  induction x with
  | nil => intro y; rfl
  | cons a x' ih =>
    intro y
    rw [List.cons_append, List.length_cons]
    exact ih y

theorem scanFrom_head_fail (r : RE) {a : Char} {s0 : List Char}
    (h : runFirst r (a :: s0) [] = none) :
    scanFrom r (a :: s0) 0 = scanFrom r s0 0 := by
  rw [show scanFrom r (a :: s0) 0 = match runFirst r (a :: s0) [] with
      | none => scanFrom r s0 0
      | some q => q.2 :: scanFrom r s0 ((a :: s0).length - q.1.length - 1) from rfl]
  rw [h]

theorem scanFrom_skip_all (r : RE) {y : List Char} : ∀ {x : List Char},
    (∀ u', u' ≠ [] → u'.IsSuffix x → runFirst r (u' ++ y) [] = none) →
    scanFrom r (x ++ y) 0 = scanFrom r y 0 := by
  intro x
  induction x with
  | nil => intro _; rfl
  | cons a x' ih =>
    intro hfail
    rw [List.cons_append]
    have h0 : runFirst r (a :: (x' ++ y)) [] = none := by
      have h1 := hfail (a :: x') (by simp) List.suffix_rfl
      rwa [List.cons_append] at h1
    rw [scanFrom_head_fail r h0]
    exact ih (fun u' hne hsuf => hfail u' hne (hsuf.trans (List.suffix_cons a x')))

theorem scanFrom_match_split (r : RE) {a : Char} {x' y : List Char} {cps : Caps}
    (h : runFirst r (a :: (x' ++ y)) [] = some (y, cps)) :
    scanFrom r (a :: (x' ++ y)) 0 = cps :: scanFrom r y 0 := by
  rw [show scanFrom r (a :: (x' ++ y)) 0 = match runFirst r (a :: (x' ++ y)) [] with
      | none => scanFrom r (x' ++ y) 0
      | some q => q.2 :: scanFrom r (x' ++ y) ((a :: (x' ++ y)).length - q.1.length - 1) from rfl]
  rw [h]
  show cps :: scanFrom r (x' ++ y) ((a :: (x' ++ y)).length - y.length - 1)
    = cps :: scanFrom r y 0
  rw [show (a :: (x' ++ y)).length - y.length - 1 = x'.length from by
    simp only [List.length_cons, List.length_append]
    omega]
  rw [scanFrom_drop r x' y]

theorem blockRem_none_of_not_selected {id : Nat} {b : Block} (v : List Char)
    (h : blockSelected id b = false) : blockRem b id v = none := by
  unfold blockSelected at h
  unfold blockRem
  rcases hn : b.netnsid with _ | n
  · rfl
  · rw [hn] at h
    dsimp only at h ⊢
    rw [if_neg]
    intro hc
    rw [hc] at h
    exact Bool.noConfusion h

/-- On an unselected entry, no match can start anywhere inside the rendered
block (including at its leading index digits). -/
theorem blockTail_fail (id : Nat) (b : Block) (v : List Char) (hWF : WFBlock b)
    (hbrem : blockRem b id v = none) :
    ∀ u', u' ≠ [] → u'.IsSuffix (natChars b.idx ++ ([':', ' '] ++ (b.name ++ (['@', 'i', 'f']
      ++ (natChars b.peer ++ (": <BROADCAST,MULTICAST,UP,LOWER_UP> mtu ".toList
        ++ (natChars b.mtu ++ (" qdisc noqueue".toList ++ (masterPart b
          ++ (" state UP mode DEFAULT group default\n    link/ether ".toList
            ++ (b.mac ++ (" brd ff:ff:ff:ff:ff:ff".toList
              ++ (nsidPart b ++ ['\n']))))))))))))) →
      runFirst (ipLinkRe id) (u' ++ v) [] = none := by
  obtain ⟨hn1, hn2, hq1, hq2, hmaster, hmtu⟩ := hWF
  refine sufFail_append (fun s' => runFirst (ipLinkRe id) s' []) ?_ ?_
  · intro u' hne hsuf
    rw [show ([':', ' '] ++ (b.name ++ (['@', 'i', 'f'] ++ (natChars b.peer
        ++ (": <BROADCAST,MULTICAST,UP,LOWER_UP> mtu ".toList ++ (natChars b.mtu
          ++ (" qdisc noqueue".toList ++ (masterPart b
            ++ (" state UP mode DEFAULT group default\n    link/ether ".toList
              ++ (b.mac ++ (" brd ff:ff:ff:ff:ff:ff".toList
                ++ (nsidPart b ++ ['\n'])))))))))))) ++ v
        = ':' :: ' ' :: (b.name ++ '@' :: 'i' :: 'f' :: (natChars b.peer
          ++ ':' :: (line1tail b ++ '\n' :: (line2 b ++ '\n' :: v)))) from by
      unfold line1tail line2
      simp only [List.append_assoc, List.cons_append, List.singleton_append]
      rfl]
    have h1 := runFirst_at_block id b v hne
      (fun ch hch => natChars_digit_mem (hsuf.subset hch))
      ⟨hn1, hn2, hq1, hq2, hmaster, hmtu⟩
    rw [hbrem, Option.map_none'] at h1
    exact h1
  refine sufFail_append (fun s' => runFirst (ipLinkRe id) s' []) ?_ ?_
  · refine sufFail_of_head _ (fun s' => runFirst (ipLinkRe id) s' []) ?_
    intro a r ha
    exact scanfail_head id r
      ((by decide : ∀ x ∈ ([':', ' '] : List Char), CC.digit.mem x = false) a ha)
  refine sufFail_append (fun s' => runFirst (ipLinkRe id) s' []) ?_ ?_
  · intro u' hne hsuf
    rw [List.append_assoc]
    exact scanfail_wordrun id _ hn2 (by decide) (by decide) u' hne hsuf
  refine sufFail_append (fun s' => runFirst (ipLinkRe id) s' []) ?_ ?_
  · refine sufFail_of_head _ (fun s' => runFirst (ipLinkRe id) s' []) ?_
    intro a r ha
    exact scanfail_head id r
      ((by decide : ∀ x ∈ (['@', 'i', 'f'] : List Char), CC.digit.mem x = false) a ha)
  refine sufFail_append (fun s' => runFirst (ipLinkRe id) s' []) ?_ ?_
  · intro u' hne hsuf
    rw [List.append_assoc]
    exact scanfail_peer id _ hne (fun ch hch => natChars_digit_mem (hsuf.subset hch))
  refine sufFail_append (fun s' => runFirst (ipLinkRe id) s' []) ?_ ?_
  · refine sufFail_of_head _ (fun s' => runFirst (ipLinkRe id) s' []) ?_
    intro a r ha
    exact scanfail_head id r
      ((by decide : ∀ x ∈ ": <BROADCAST,MULTICAST,UP,LOWER_UP> mtu ".toList,
        CC.digit.mem x = false) a ha)
  refine sufFail_append (fun s' => runFirst (ipLinkRe id) s' []) ?_ ?_
  · intro u' hne hsuf
    exact scanfail_digitrun id _ hne (fun ch hch => natChars_digit_mem (hsuf.subset hch))
      ⟨by decide, by decide⟩
  refine sufFail_append (fun s' => runFirst (ipLinkRe id) s' []) ?_ ?_
  · refine sufFail_of_head _ (fun s' => runFirst (ipLinkRe id) s' []) ?_
    intro a r ha
    exact scanfail_head id r
      ((by decide : ∀ x ∈ " qdisc noqueue".toList, CC.digit.mem x = false) a ha)
  refine sufFail_append (fun s' => runFirst (ipLinkRe id) s' []) ?_ ?_
  · intro u' hne hsuf
    rcases hms : b.master with _ | m
    · rw [show masterPart b = [] from by unfold masterPart; rw [hms]] at hsuf
      exact absurd (List.suffix_nil.mp hsuf) hne
    · obtain ⟨hw1, hw2, hw3⟩ := hmaster m hms
      rw [show masterPart b = " master ".toList ++ m from by unfold masterPart; rw [hms]] at hsuf
      rcases suffix_split hsuf with hsm | ⟨a, hane, hasuf, rfl⟩
      · rw [List.append_assoc]
        exact scanfail_wordrun id _ hw2 (by decide) (by decide) u' hne hsm
      · cases a with
        | nil => exact absurd rfl hane
        | cons a0 ar =>
          exact scanfail_head id _
            ((by decide : ∀ x ∈ " master ".toList, CC.digit.mem x = false) a0
              (hasuf.subset (List.mem_cons_self _ _)))
  refine sufFail_append (fun s' => runFirst (ipLinkRe id) s' []) ?_ ?_
  · refine sufFail_of_head _ (fun s' => runFirst (ipLinkRe id) s' []) ?_
    intro a r ha
    exact scanfail_head id r
      ((by decide : ∀ x ∈ " state UP mode DEFAULT group default\n    link/ether ".toList,
        CC.digit.mem x = false) a ha)
  refine sufFail_append (fun s' => runFirst (ipLinkRe id) s' []) ?_ ?_
  · intro u' hne hsuf
    rw [List.append_assoc]
    exact scanfail_macrun id _ hq2 u' hne hsuf
  refine sufFail_append (fun s' => runFirst (ipLinkRe id) s' []) ?_ ?_
  · refine sufFail_of_head _ (fun s' => runFirst (ipLinkRe id) s' []) ?_
    intro a r ha
    exact scanfail_head id r
      ((by decide : ∀ x ∈ " brd ff:ff:ff:ff:ff:ff".toList, CC.digit.mem x = false) a ha)
  refine sufFail_append (fun s' => runFirst (ipLinkRe id) s' []) ?_ ?_
  · intro u' hne hsuf
    rcases hnn : b.netnsid with _ | n
    · rw [show nsidPart b = [] from by unfold nsidPart; rw [hnn]] at hsuf
      exact absurd (List.suffix_nil.mp hsuf) hne
    · rw [show nsidPart b = " link-netnsid ".toList ++ natChars n from by
        unfold nsidPart; rw [hnn]] at hsuf
      rcases suffix_split hsuf with hsm | ⟨a, hane, hasuf, rfl⟩
      · exact scanfail_digitrun id _ hne (fun ch hch => natChars_digit_mem (hsm.subset hch))
          ⟨by decide, by decide⟩
      · cases a with
        | nil => exact absurd rfl hane
        | cons a0 ar =>
          exact scanfail_head id _
            ((by decide : ∀ x ∈ " link-netnsid ".toList, CC.digit.mem x = false) a0
              (hasuf.subset (List.mem_cons_self _ _)))
  · refine sufFail_of_head _ (fun s' => runFirst (ipLinkRe id) s' []) ?_
    intro a r ha
    obtain rfl := List.mem_singleton.mp ha
    exact scanfail_head id r (by decide)

/-- `captures_iter` over a rendered well-formed dump: one match per selected
entry, in dump order, with the captures `capsOf`. -/
theorem scan_renderDump (id : Nat) : ∀ (bs : List Block), WFDump bs →
    scanFrom (ipLinkRe id) (renderDump bs) 0 = (bs.filter (blockSelected id)).map capsOf := by
  intro bs
  induction bs with
  | nil => intro _; rfl
  | cons b rest ih =>
    intro hWF
    have hWFb : WFBlock b := hWF b (List.mem_cons_self _ _)
    have hWFr : WFDump rest := fun b' hb' => hWF b' (List.mem_cons_of_mem _ hb')
    rw [show renderDump (b :: rest) = renderBlock b ++ renderDump rest from by
      unfold renderDump
      rw [List.map_cons, List.flatten_cons]]
    cases hsel : blockSelected id b with
    | false =>
      rw [show renderBlock b = natChars b.idx ++ ([':', ' '] ++ (b.name ++ (['@', 'i', 'f']
          ++ (natChars b.peer ++ (": <BROADCAST,MULTICAST,UP,LOWER_UP> mtu ".toList
            ++ (natChars b.mtu ++ (" qdisc noqueue".toList ++ (masterPart b
              ++ (" state UP mode DEFAULT group default\n    link/ether ".toList
                ++ (b.mac ++ (" brd ff:ff:ff:ff:ff:ff".toList
                  ++ (nsidPart b ++ ['\n'])))))))))))) from by
        unfold renderBlock line1tail line2
        simp only [List.append_assoc, List.cons_append, List.singleton_append]
        rfl]
      rw [scanFrom_skip_all (ipLinkRe id)
        (blockTail_fail id b (renderDump rest) hWFb (blockRem_none_of_not_selected _ hsel))]
      rw [List.filter_cons, if_neg (by simp [hsel]), ih hWFr]
    | true =>
      have hp := hsel
      unfold blockSelected at hp
      rcases hn : b.netnsid with _ | n
      · rw [hn] at hp
        exact Bool.noConfusion hp
      · rw [hn] at hp
        dsimp only at hp
        rcases prefixOf_to_append hp with ⟨e, he⟩
        rcases hnc : natChars b.idx with _ | ⟨i0, i'⟩
        · exact absurd hnc natChars_ne_nil
        · have hsplit : renderBlock b ++ renderDump rest
              = i0 :: ((i' ++ ([':', ' '] ++ (b.name ++ (['@', 'i', 'f'] ++ (natChars b.peer
                  ++ ([':'] ++ (line1tail b ++ (['\n'] ++ ("    link/ether ".toList
                    ++ (b.mac ++ (" brd ff:ff:ff:ff:ff:ff link-netnsid ".toList
                      ++ natChars id))))))))))) ++ (e ++ '\n' :: renderDump rest)) := by
            unfold renderBlock line2
            rw [show nsidPart b = " link-netnsid ".toList ++ (natChars id ++ e) from by
              unfold nsidPart
              rw [hn]
              dsimp only
              rw [he]]
            rw [hnc]
            simp only [List.append_assoc, List.cons_append, List.singleton_append]
            rfl
          have hrun := @runFirst_at_block id b (renderDump rest) (natChars b.idx)
            natChars_ne_nil (fun ch hch => natChars_digit_mem hch) hWFb
          have hbrem : blockRem b id (renderDump rest) = some (e ++ '\n' :: renderDump rest) := by
            unfold blockRem
            rw [hn]
            dsimp only
            rw [if_pos hp, he, List.drop_left]
          rw [hbrem, Option.map_some'] at hrun
          rw [show natChars b.idx ++ ':' :: ' ' :: (b.name ++ '@' :: 'i' :: 'f' ::
              (natChars b.peer ++ ':' :: (line1tail b
                ++ '\n' :: (line2 b ++ '\n' :: renderDump rest))))
            = i0 :: ((i' ++ ([':', ' '] ++ (b.name ++ (['@', 'i', 'f'] ++ (natChars b.peer
                ++ ([':'] ++ (line1tail b ++ (['\n'] ++ ("    link/ether ".toList
                  ++ (b.mac ++ (" brd ff:ff:ff:ff:ff:ff link-netnsid ".toList
                    ++ natChars id))))))))))) ++ (e ++ '\n' :: renderDump rest)) from by
            rw [← hsplit]
            unfold renderBlock
            simp only [List.append_assoc, List.cons_append, List.singleton_append]
            rfl] at hrun
          rw [hsplit]
          rw [scanFrom_match_split (ipLinkRe id) hrun]
          rw [scanFrom_skip_all (ipLinkRe id) (fun u' hne hsuf =>
            scanfail_digitrun id ('\n' :: renderDump rest) hne
              (fun ch hch => natChars_digit_mem (show ch ∈ natChars n by
                rw [he]; exact List.mem_append_right _ (hsuf.subset hch)))
              ⟨by decide, by decide⟩)]
          rw [scanFrom_head_fail (ipLinkRe id) (scanfail_head id _ (by decide))]
          rw [List.filter_cons, if_pos hsel, List.map_cons, ih hWFr]

theorem parseU16_natChars {n : Nat} (h : n < 65536) : parseU16 (natChars n) = Except.ok n := by
  unfold parseU16
  rw [if_pos ⟨natChars_ne_nil, by
    rw [List.all_eq_true]
    intro c hc
    exact natChars_digits hc, by
    rw [show (natChars n).foldl (fun acc c => acc * 10 + (c.toNat - 48)) 0
        = digitsVal (natChars n) from rfl, natChars_val]
    exact h⟩]
  rw [show (natChars n).foldl (fun acc c => acc * 10 + (c.toNat - 48)) 0
      = digitsVal (natChars n) from rfl, natChars_val]

/-- Building the `Intf` record from the captures of a selected entry. -/
theorem buildIntf_capsOf (id : Nat) (b : Block) (hmtu : b.mtu < 65536) :
    buildIntf id (capsOf b) = Except.ok (intfOf b) := by
  unfold capsOf
  rcases hms : b.master with _ | m
  · rw [show buildIntf id (((4, b.mac) ::
        (match (none : Option (List Char)) with | some m => [(3, m)] | none => []))
          ++ [(2, natChars b.mtu), (1, b.name)])
      = (parseU16 (natChars b.mtu)).bind (fun mtu =>
          Except.ok (Intf.mk b.name mtu b.mac none)) from rfl]
    rw [parseU16_natChars hmtu]
    show Except.ok (Intf.mk b.name b.mtu b.mac none) = Except.ok (intfOf b)
    unfold intfOf
    rw [hms]
  · rw [show buildIntf id (((4, b.mac) ::
        (match (some m : Option (List Char)) with | some m => [(3, m)] | none => []))
          ++ [(2, natChars b.mtu), (1, b.name)])
      = (parseU16 (natChars b.mtu)).bind (fun mtu =>
          Except.ok (Intf.mk b.name mtu b.mac (some m))) from rfl]
    rw [parseU16_natChars hmtu]
    show Except.ok (Intf.mk b.name b.mtu b.mac (some m)) = Except.ok (intfOf b)
    unfold intfOf
    rw [hms]

theorem mapM_buildIntf_capsOf (id : Nat) : ∀ (l : List Block), (∀ b ∈ l, WFBlock b) →
    (l.map capsOf).mapM (buildIntf id) = Except.ok (l.map intfOf) := by
  intro l
  induction l with
  | nil => intro _; rfl
  | cons b rest ih =>
    intro hWF
    rw [List.map_cons, List.map_cons, List.mapM_cons]
    rw [buildIntf_capsOf id b (hWF b (List.mem_cons_self _ _)).2.2.2.2.2]
    rw [ih (fun b' hb' => hWF b' (List.mem_cons_of_mem _ hb'))]
    rfl

/-- C1 (amended): on any well-formed rendered dump, `parse_ip_link_printout`
returns exactly the entries whose `link-netnsid` decimal representation has
the requested id's decimal representation as a prefix, in dump order (and the
`IntfMatchError` when there is no such entry). -/
theorem c1_wellformed_dump_prefix_semantics (id : Nat) (bs : List Block) (hWF : WFDump bs) :
    parse_ip_link_printout (renderDump bs) id =
      if (bs.filter (blockSelected id)).isEmpty then
        Except.error (ParseError.intfMatchError id)
      else Except.ok ((bs.filter (blockSelected id)).map intfOf) := by
  unfold parse_ip_link_printout
  rw [show scan (ipLinkRe id) (renderDump bs) = scanFrom (ipLinkRe id) (renderDump bs) 0 from rfl]
  rw [scan_renderDump id bs hWF]
  rw [mapM_buildIntf_capsOf id (bs.filter (blockSelected id))
    (fun b hb => hWF b (List.mem_of_mem_filter hb))]
  rcases bs.filter (blockSelected id) with _ | ⟨x, xs⟩
  · rfl
  · rfl

theorem c1_wellformed_dump_prefix_semantics_witness :
    parse_ip_link_printout (renderDump [c1wBlock]) 1 = Except.ok [intfOf c1wBlock] := by
  rw [c1_wellformed_dump_prefix_semantics 1 [c1wBlock] (by unfold WFDump WFBlock; decide)]
  rfl


/-- C2: on the two concrete sample dumps, the parser returns a single record
each, but on the multus sample the bridge field is `none`, not
`bla-bla-int0`: the `\w+` capture of the `br` group cannot match a hyphenated
bridge name, so the optional master group is skipped, contradicting the
repo's own `test_parse_ip_link_printout_multus`.  The basic sample behaves
exactly as claimed. -/
theorem c2_sample_dump_results :
    parse_ip_link_printout basicDump.toList 1 =
      Except.ok [Intf.mk "veth551a254e".toList 1450 "12:56:7d:9f:80:15".toList (some "cni0".toList)] ∧
    parse_ip_link_printout multusDump.toList 6 =
      Except.ok [Intf.mk "veth987c7292".toList 1500 "46:ed:60:c6:e9:73".toList none] ∧
    parse_ip_link_printout multusDump.toList 6 ≠
      Except.ok [Intf.mk "veth987c7292".toList 1500 "46:ed:60:c6:e9:73".toList (some "bla-bla-int0".toList)] := by
  refine ⟨by rfl, by rfl, fun h => ?_⟩
  have e : parse_ip_link_printout multusDump.toList 6 =
      Except.ok [Intf.mk "veth987c7292".toList 1500 "46:ed:60:c6:e9:73".toList none] := by rfl
  have h2 := e.symm.trans h
  have h3 : [Intf.mk "veth987c7292".toList 1500 "46:ed:60:c6:e9:73".toList none] =
      [Intf.mk "veth987c7292".toList 1500 "46:ed:60:c6:e9:73".toList (some "bla-bla-int0".toList)] := by
    injection h2
  exact absurd h3 (by decide)

/-- C1 (counterexample): a well-formed dump whose only interface has
link-netnsid 12 is nevertheless extracted when id 1 is requested, because the
pattern ends in `link-netnsid 1` with no boundary after the digit, refuting
"interfaces with a different link-netnsid are never emitted". -/
theorem c1_counterexample :
    WFBlock cexBlock ∧ cexBlock.netnsid = some 12 ∧ (12 : Nat) ≠ 1 ∧
    parse_ip_link_printout (renderDump [cexBlock]) 1 =
      Except.ok [Intf.mk "veth0".toList 1500 "aa:bb:cc:dd:ee:ff".toList none] := by
  refine ⟨?_, rfl, by decide, by rfl⟩
  refine ⟨by decide, by decide, by decide, by decide, ?_, by decide⟩
  intro m hm
  exact Option.noConfusion (show (none : Option (List Char)) = some m from hm)

/-- C3: when `captures_iter` produces no match the parser fails with
`IntfMatchError(id)`, and a successful result is never the empty list (the
source ends with `if res.len() == 0 { Err(err)? } else { Ok(res) }`). -/
theorem c3_ok_nonempty (printout : List Char) (id : Nat) :
    (scan (ipLinkRe id) printout = [] →
      parse_ip_link_printout printout id = Except.error (ParseError.intfMatchError id)) ∧
    (∀ v, parse_ip_link_printout printout id = Except.ok v → v ≠ []) := by
  constructor
  · intro h
    simp [parse_ip_link_printout, h, List.mapM, List.mapM.loop]
  · intro v hv hnil
    subst hnil
    unfold parse_ip_link_printout at hv
    rcases hm : (scan (ipLinkRe id) printout).mapM (buildIntf id) with e | res
    · rw [hm] at hv
      exact absurd hv (by simp [Bind.bind, Except.bind])
    · rw [hm] at hv
      simp only [Bind.bind, Except.bind] at hv
      split at hv
      · exact absurd hv (by simp)
      · rename_i hne
        have hres : res = [] := by
          injection hv
        rw [hres] at hne
        simp at hne

/-- C3 witness: on the basic sample dump with the unmatched id 7 the parser
returns `IntfMatchError 7`. -/
theorem c3_ok_nonempty_witness :
    parse_ip_link_printout basicDump.toList 7 =
      Except.error (ParseError.intfMatchError 7) :=
  (c3_ok_nonempty basicDump.toList 7).1 (by rfl)

/-- C6: releasing the binding undoes exactly what `interfaces()` created:
running the creation prefix from a fresh `Netns` and then dropping restores
the original filesystem state, each cleanup flag is recorded exactly when the
corresponding entry was missing (and hence created), and a drop with an unset
flag leaves the corresponding entry untouched. -/
theorem c6_release_removes_exactly_created (pid : Nat) (fs : FsState) :
    Netns.drop (interfacesBind (Netns.new pid) fs).1 (interfacesBind (Netns.new pid) fs).2 = fs ∧
    ((interfacesBind (Netns.new pid) fs).1.rmdir_needed = !fs.netnsDirExists) ∧
    ((interfacesBind (Netns.new pid) fs).1.rmlink_needed = !fs.linkExists) ∧
    (∀ (ns : Netns) (fs2 : FsState), ns.rmlink_needed = false →
      (Netns.drop ns fs2).linkExists = fs2.linkExists) ∧
    (∀ (ns : Netns) (fs2 : FsState), ns.rmdir_needed = false →
      (Netns.drop ns fs2).netnsDirExists = fs2.netnsDirExists) := by
  refine ⟨?_, ?_, ?_, ?_, ?_⟩
  · cases fs with
    | mk d l => cases d <;> cases l <;> simp [interfacesBind, Netns.drop, Netns.new]
  · cases fs with
    | mk d l => cases d <;> cases l <;> simp [interfacesBind, Netns.new]
  · cases fs with
    | mk d l => cases d <;> cases l <;> simp [interfacesBind, Netns.new]
  · intro ns fs2 h
    cases hd : ns.rmdir_needed <;> simp [Netns.drop, h, hd]
  · intro ns fs2 h
    cases hl : ns.rmlink_needed <;> simp [Netns.drop, h, hl]

/-- C6 witness: concrete instances of the round trip and of the
untouched-entry guarantee. -/
theorem c6_release_removes_exactly_created_witness :
    Netns.drop (interfacesBind (Netns.new 42) ⟨false, false⟩).1
        (interfacesBind (Netns.new 42) ⟨false, false⟩).2 = ⟨false, false⟩ ∧
    (Netns.drop ⟨42, false, false⟩ ⟨true, true⟩).linkExists = true :=
  ⟨(c6_release_removes_exactly_created 42 ⟨false, false⟩).1,
    (c6_release_removes_exactly_created 42 ⟨false, false⟩).2.2.2.1 ⟨42, false, false⟩ ⟨true, true⟩ rfl⟩

/-- C7: release is idempotent on the filesystem state: a second drop (both of
whose removals are no-ops on already-absent entries, with the `Err` arm only
logged) changes nothing. -/
theorem c7_release_idempotent (ns : Netns) (fs : FsState) :
    Netns.drop ns (Netns.drop ns fs) = Netns.drop ns fs := by
  cases ns with
  | mk pid d l =>
    cases fs with
    | mk de le => cases d <;> cases l <;> simp [Netns.drop]

/-- C8 (counterexample): in a two-container batch where the first container
succeeds and the second fails, `try_main` returns only the error — the
successful container's output is not reported. -/
theorem c8_counterexample :
    (fun c => if c = 0 then Except.ok 5 else Except.error "boom".toList : Nat → Except (List Char) Nat) 0 = Except.ok 5 ∧
    try_main_pod (fun c => if c = 0 then Except.ok 5 else Except.error "boom".toList) [0, 1] =
      Except.error "boom".toList :=
  ⟨rfl, rfl⟩

/-- C8 (amended): the pod loop of `try_main` aborts on the first failing
container: the batch result is an error exactly when some container's output
generation fails, and in that case no outputs at all are reported. -/
theorem c8_failure_aborts_batch {C E O : Type} (cs : List C) (gen : C → Except E O) :
    (∃ e, try_main_pod gen cs = Except.error e) ↔ ∃ c ∈ cs, ∃ e, gen c = Except.error e := by
  induction cs with
  | nil => simp [try_main_pod]
  | cons c cs ih =>
    cases hg : gen c with
    | error e => simp [try_main_pod, hg, Bind.bind, Except.bind]
    | ok o =>
      simp only [try_main_pod, hg, Bind.bind, Except.bind]
      cases hr : try_main_pod gen cs with
      | error e =>
        simp only [hr] at ih ⊢
        simp [ih.mp ⟨e, rfl⟩]
      | ok os =>
        simp only [hr] at ih ⊢
        constructor
        · rintro ⟨e, he⟩
          exact absurd he (by simp)
        · rintro ⟨c', hc', e, he⟩
          rcases List.mem_cons.mp hc' with rfl | hmem
          · rw [hg] at he; exact absurd he (by simp)
          · rcases ih.mpr ⟨c', hmem, e, he⟩ with ⟨e', he'⟩
            exact absurd he' (by simp)

/-- C9: `cmd.split(' ')` always yields at least one element, so
`split_first` never sees an empty slice and the `CmdInvalid` branch of
`run_host_cmd` is unreachable, for every command string including the empty
one. -/
theorem c9_cmd_invalid_unreachable :
    (∀ cmd : List Char, splitOnSpace cmd ≠ []) ∧
    (∀ (exec : List Char → List (List Char) → CmdOutput) (cmd bad : List Char),
      run_host_cmd exec cmd ≠ Except.error (HostCmdError.cmdInvalid bad)) := by
  have hsplit : ∀ cmd : List Char, splitOnSpace cmd ≠ [] := by
    intro cmd
    induction cmd with
    | nil => simp [splitOnSpace]
    | cons c s ih =>
      unfold splitOnSpace
      split
      · simp
      · rcases hs : splitOnSpace s with _ | ⟨t, ts⟩ <;> simp
  refine ⟨hsplit, ?_⟩
  intro exec cmd bad h
  unfold run_host_cmd at h
  rcases hs : splitOnSpace cmd with _ | ⟨p, args⟩
  · exact hsplit cmd hs
  · rw [hs] at h
    dsimp only at h
    by_cases hsucc : (exec p args).success
    · rw [if_pos hsucc] at h
      exact Except.noConfusion h
    · rw [if_neg hsucc] at h
      have := Except.error.inj h
      exact HostCmdError.noConfusion this

/-- C9 witness: a concrete instance of both parts. -/
theorem c9_cmd_invalid_unreachable_witness :
    splitOnSpace [] ≠ [] ∧
    run_host_cmd (fun _ _ => ⟨true, none, [], []⟩) [] ≠
      Except.error (HostCmdError.cmdInvalid []) :=
  ⟨c9_cmd_invalid_unreachable.1 [], c9_cmd_invalid_unreachable.2 (fun _ _ => ⟨true, none, [], []⟩) [] []⟩

/-- `List.mapM` in the `Option` monad fails exactly when the function fails
on some element. -/
theorem optionMapM_eq_none_iff {α β : Type} (f : α → Option β) (l : List α) :
    l.mapM f = none ↔ ∃ a ∈ l, f a = none := by
  induction l with
  | nil =>
    rw [List.mapM_nil]
    simp [pure]
  | cons a l ih =>
    rw [List.mapM_cons]
    cases hf : f a with
    | none =>
      simp only [Option.bind_eq_bind, Option.none_bind]
      exact iff_of_true (by trivial) ⟨a, List.mem_cons_self a l, hf⟩
    | some b =>
      cases hm : l.mapM f with
      | none =>
        simp only [Option.bind_eq_bind, Option.some_bind, Option.none_bind]
        rcases ih.mp hm with ⟨x, hx, hfx⟩
        exact iff_of_true (by trivial) ⟨x, List.mem_cons_of_mem a hx, hfx⟩
      | some bs =>
        simp only [Option.bind_eq_bind, Option.some_bind, Option.pure_def]
        constructor
        · intro hcon
          exact absurd hcon (by simp)
        · rintro ⟨x, hx, hfx⟩
          rcases List.mem_cons.mp hx with rfl | hmem
          · rw [hf] at hfx; exact Option.noConfusion hfx
          · have h2 := ih.mpr ⟨x, hmem, hfx⟩
            rw [hm] at h2
            exact Option.noConfusion h2

/-- A main.rs table row fails exactly when the container id is shorter than
12 bytes (the `&id[0..12]` slice). -/
theorem mainRow_eq_none_iff (i : MainOutput) (intf : Intf) :
    mainRow i intf = none ↔ i.container_id.length < 12 := by
  unfold mainRow byteSlice
  split
  · rename_i hle
    simp
    omega
  · rename_i hle
    simp
    omega

/-- C10 (counterexample): an output whose only container has a 3-byte id but
no interfaces is printed fine by the main.rs pretty printer — the slice sits
inside the per-interface loop, so it is never evaluated. -/
theorem c10_counterexample :
    pretty_print_output_main [⟨"abc".toList, none, []⟩] =
      some ["CONTAINER_ID\tNODE\tINTERFACE\tMTU\tMAC_ADDRESS\tBRIDGE".toList] ∧
    ("abc".toList).length < 12 :=
  ⟨by rfl, by decide⟩

/-- C10 (amended): the main.rs printer panics exactly when some container
with at least one interface row has an id shorter than 12 bytes, and the
client.rs printer (which slices once per container, before its interface
loop) panics exactly when some container has an id shorter than 12 bytes. -/
theorem c10_slice_totality (outM : List MainOutput) (outC : List ClientOutput) :
    (pretty_print_output_main outM = none ↔
      ∃ i ∈ outM, i.container_id.length < 12 ∧ i.interfaces ≠ []) ∧
    (pretty_print_output_client outC = none ↔ ∃ i ∈ outC, i.container_id.length < 12) := by
  constructor
  · have h1 : pretty_print_output_main outM = none ↔
        outM.mapM (fun i => i.interfaces.mapM (mainRow i)) = none := by
      unfold pretty_print_output_main
      cases hm : outM.mapM (fun i => i.interfaces.mapM (mainRow i)) <;>
        simp [hm, Bind.bind, Option.bind]
    rw [h1, optionMapM_eq_none_iff]
    constructor
    · rintro ⟨i, hi, hnone⟩
      rcases (optionMapM_eq_none_iff _ _).mp hnone with ⟨intf, hintf, hrow⟩
      exact ⟨i, hi, (mainRow_eq_none_iff i intf).mp hrow, List.ne_nil_of_mem hintf⟩
    · rintro ⟨i, hi, hshort, hne⟩
      rcases List.exists_mem_of_ne_nil _ hne with ⟨intf, hintf⟩
      exact ⟨i, hi, (optionMapM_eq_none_iff _ _).mpr
        ⟨intf, hintf, (mainRow_eq_none_iff i intf).mpr hshort⟩⟩
  · have h1 : pretty_print_output_client outC = none ↔
        outC.mapM (fun i => (byteSlice i.container_id 0 12).bind
          (fun short => some (i.interfaces.map (fun intf => clientRow i short intf)))) = none := by
      unfold pretty_print_output_client
      cases hm : outC.mapM (fun i => (byteSlice i.container_id 0 12).bind
          (fun short => some (i.interfaces.map (fun intf => clientRow i short intf)))) <;>
        simp [hm, Bind.bind, Option.bind]
    rw [h1, optionMapM_eq_none_iff]
    constructor
    · rintro ⟨i, hi, hnone⟩
      refine ⟨i, hi, ?_⟩
      by_contra hlong
      rcases hs : byteSlice i.container_id 0 12 with _ | short
      · unfold byteSlice at hs
        rw [if_pos ⟨by omega, by omega⟩] at hs
        exact Option.noConfusion hs
      · rw [hs] at hnone
        exact Option.noConfusion hnone
    · rintro ⟨i, hi, hshort⟩
      refine ⟨i, hi, ?_⟩
      have hs : byteSlice i.container_id 0 12 = none := by
        unfold byteSlice
        rw [if_neg]
        omega
      rw [hs]
      rfl

/-- C10 witness: a concrete panic instance obtained from the
characterization: a short-id container with one interface row makes the
main.rs printer panic. -/
theorem c10_slice_totality_witness :
    pretty_print_output_main
        [⟨"abc".toList, none, [Intf.mk "eth0".toList 1500 "aa".toList none]⟩] = none :=
  (c10_slice_totality [⟨"abc".toList, none, [Intf.mk "eth0".toList 1500 "aa".toList none]⟩] []).1.mpr
    ⟨⟨"abc".toList, none, [Intf.mk "eth0".toList 1500 "aa".toList none]⟩,
      by simp, by decide, by simp⟩

/-- On a successful correlation every emitted pair couples a container-side
veth record with a host-side record whose kernel index equals the
container-side peer index, taken from the host-side set. -/
theorem correlate_ok_mem :
    ∀ (conts hosts : List LinkRecord) (pairs : List (LinkRecord × LinkRecord))
      (un : List LinkRecord), correlate conts hosts = Except.ok (pairs, un) →
      ∀ p ∈ pairs, p.1.kind = LinkKind.veth ∧ p.2.ifindex = p.1.peer_ifindex ∧ p.2 ∈ hosts := by
  intro conts
  induction conts with
  | nil =>
    intro hosts pairs un h p hp
    simp only [correlate, Except.ok.injEq, Prod.mk.injEq] at h
    rw [← h.1] at hp
    exact absurd hp (by simp)
  | cons c cs ih =>
    intro hosts pairs un h p hp
    unfold correlate at h
    by_cases hk : c.kind = LinkKind.veth
    · rw [if_pos hk] at h
      rcases hf : hosts.filter (fun h0 => h0.ifindex == c.peer_ifindex) with _ | ⟨h1, _ | ⟨h2, t⟩⟩ <;>
        rw [hf] at h
      · exact absurd h (by simp)
      · dsimp only at h
        cases hr : correlate cs (hosts.erase h1) with
        | error e =>
          rw [hr] at h
          exact absurd h (by simp [Bind.bind, Except.bind])
        | ok pr =>
          rw [hr] at h
          simp only [Bind.bind, Except.bind, Except.ok.injEq] at h
          have hpairs : (c, h1) :: pr.1 = pairs := congrArg Prod.fst h
          have hun : pr.2 = un := congrArg Prod.snd h
          rw [← hpairs] at hp
          have hh1 : h1 ∈ hosts.filter (fun h0 => h0.ifindex == c.peer_ifindex) := by
            rw [hf]; exact List.mem_singleton_self h1
          have hh1' := List.mem_filter.mp hh1
          rcases List.mem_cons.mp hp with rfl | hmem
          · exact ⟨hk, by simpa using hh1'.2, hh1'.1⟩
          · have := ih (hosts.erase h1) pr.1 pr.2 (by rw [hr]) p hmem
            exact ⟨this.1, this.2.1, List.mem_of_mem_erase this.2.2⟩
      · exact absurd h (by simp)
    · rw [if_neg hk] at h
      cases hr : correlate cs hosts with
      | error e =>
        rw [hr] at h
        exact absurd h (by simp [Bind.bind, Except.bind])
      | ok pr =>
        rw [hr] at h
        simp only [Bind.bind, Except.bind, Except.ok.injEq] at h
        have hpairs : pr.1 = pairs := congrArg Prod.fst h
        rw [← hpairs] at hp
        exact ih hosts pr.1 pr.2 (by rw [hr]) p hp

/-- C5: for a container-side veth record, zero host-side records with the
peer's kernel index yield `PeerInterfaceNotFound(peer_index)`, two or more
yield `AmbiguousPeerMatch`, and every emitted pair's host side is an actual
host-side record whose kernel index equals the container-side peer index —
never a guessed or default one. -/
theorem c5_correlate_exact (c : LinkRecord) (cs hosts : List LinkRecord) :
    (c.kind = LinkKind.veth →
      hosts.filter (fun h => h.ifindex == c.peer_ifindex) = [] →
      correlate (c :: cs) hosts =
        Except.error (CorrelationError.peerInterfaceNotFound c.peer_ifindex)) ∧
    (c.kind = LinkKind.veth →
      ∀ h1 h2 t, hosts.filter (fun h => h.ifindex == c.peer_ifindex) = h1 :: h2 :: t →
      correlate (c :: cs) hosts = Except.error CorrelationError.ambiguousPeerMatch) ∧
    (∀ pairs un, correlate (c :: cs) hosts = Except.ok (pairs, un) →
      ∀ p ∈ pairs, p.1.kind = LinkKind.veth ∧ p.2.ifindex = p.1.peer_ifindex ∧ p.2 ∈ hosts) := by
  refine ⟨?_, ?_, ?_⟩
  · intro hk hf
    unfold correlate
    rw [if_pos hk, hf]
  · intro hk h1 h2 t hf
    unfold correlate
    rw [if_pos hk, hf]
  · intro pairs un h
    exact correlate_ok_mem (c :: cs) hosts pairs un h

/-- C5 witness: an empty host-side set makes the lookup for peer index 7 fail
with `PeerInterfaceNotFound 7`. -/
theorem c5_correlate_exact_witness :
    correlate [LinkRecord.mk 1 LinkKind.veth 7 ['c']] [] =
      Except.error (CorrelationError.peerInterfaceNotFound 7) :=
  (c5_correlate_exact (LinkRecord.mk 1 LinkKind.veth 7 ['c']) [] []).1 rfl rfl

/-- C4: every record emitted by the line-pair text parser carries all the
captured fields of its line pair — kernel index, name, peer kernel index
(from the `@if<N>` suffix), MTU, optional bridge master, MAC, optional IPv4 —
and a line pair with a missing required capture fails the whole parse instead
of emitting a partial record. -/
theorem c4_text_parser_all_fields (pairs : List (List Char × List Char)) (recs : List TextIntf) :
    (parse_veth_text pairs = some recs →
      List.Forall₂ (fun (pr : List Char × List Char) (r : TextIntf) =>
        parseSummaryLine pr.1 = some (r.ifindex, r.name, r.peer_ifindex, r.mtu, r.bridge) ∧
        parseAddrLine pr.2 = some (r.mac_address, r.ip_address)) pairs recs) ∧
    (∀ pr ∈ pairs, (parseSummaryLine pr.1 = none ∨ parseAddrLine pr.2 = none) →
      parse_veth_text pairs = none) := by
  constructor
  · induction pairs generalizing recs with
    | nil =>
      intro h
      simp only [parse_veth_text, List.mapM_nil, pure, Option.some.injEq] at h
      rw [← h]
      exact List.Forall₂.nil
    | cons pr prs ih =>
      intro h
      rw [parse_veth_text, List.mapM_cons] at h
      cases hs : parseSummaryLine pr.1 with
      | none => rw [hs] at h; exact absurd h (by simp [Bind.bind, Option.bind])
      | some s =>
        rw [hs] at h
        cases ha : parseAddrLine pr.2 with
        | none => rw [ha] at h; exact absurd h (by simp [Bind.bind, Option.bind])
        | some a =>
          rw [ha] at h
          cases hm : prs.mapM (fun pr => do
              let s ← parseSummaryLine pr.1
              let a ← parseAddrLine pr.2
              pure (TextIntf.mk s.1 s.2.1 s.2.2.1 s.2.2.2.1 s.2.2.2.2 a.1 a.2)) with
          | none => rw [hm] at h; exact absurd h (by simp [Bind.bind, Option.bind])
          | some rest =>
            rw [hm] at h
            simp only [Bind.bind, Option.bind, pure, Option.some.injEq] at h
            rw [← h]
            exact List.Forall₂.cons ⟨hs, ha⟩ (ih rest (by rw [parse_veth_text]; exact hm))
  · intro pr hpr hbad
    have helem : (do
        let s ← parseSummaryLine pr.1
        let a ← parseAddrLine pr.2
        pure (TextIntf.mk s.1 s.2.1 s.2.2.1 s.2.2.2.1 s.2.2.2.2 a.1 a.2) : Option TextIntf) = none := by
      rcases hbad with hb | hb <;> rcases hs : parseSummaryLine pr.1 with _ | s <;>
        rcases ha : parseAddrLine pr.2 with _ | a <;>
        simp_all [Bind.bind, Option.bind]
    exact (optionMapM_eq_none_iff _ pairs).mpr ⟨pr, hpr, helem⟩

/-- C4 witness: the concrete line pair is parsed into the full record,
including index 610, peer 5 and the hyphenated bridge. -/
theorem c4_text_parser_all_fields_witness :
    List.Forall₂ (fun (pr : List Char × List Char) (r : TextIntf) =>
      parseSummaryLine pr.1 = some (r.ifindex, r.name, r.peer_ifindex, r.mtu, r.bridge) ∧
      parseAddrLine pr.2 = some (r.mac_address, r.ip_address)) c4pairs c4recs :=
  (c4_text_parser_all_fields c4pairs c4recs).1 (by rfl)

end Cniguru
